import Mathlib

/-!
Verification of the libasciidoc parser core (grammar + AST assembly).

The development shallowly embeds:
  * the PEG grammar of `pkg/parser/asciidoc-grammar.peg` as fuel-indexed
    recursive-descent parsers over `List Char`, with pigeon-style value
    collection (sequence values, `nil` for predicates, byte-slice text),
  * the AST-construction layer of the `types` package (the second document
    embedded in the grammar file): `NewDocument`, `insertPreamble`,
    `NewParagraph`, `NewDelimitedBlock`, `NewOrderedList`, `NewImageMacro`,
    `NewEscapedQuotedText`, and the rest of the constructors the grammar
    actions call.

Go `interface{}` values are modelled by the universal type `Val`;
`map[string]interface{}` by association lists with overwrite-on-insert
(`attrSet`), which is observationally equivalent to a Go map for the
lookup-only uses in this code base.

A handful of small helpers of the repository are not part of the provided
sources (only their callers are): `stringify`, `mergeElements`, `nilSafe`,
`mergeAttributes`, `ReplaceNonAlphanumerics`, the YAML front-matter
ingestion and the element-references collector.  Each of those is modelled
from the specification and marked with a `Modelled from the spec:` comment.
-/

set_option maxHeartbeats 4000000
set_option maxRecDepth 100000

namespace Asciidoc

/-- Strings are modelled as lists of characters (Go strings / byte slices). -/
abbrev Str := List Char

/-- NumberingStyle the type of numbering for items in an ordered list. -/
inductive NumberingStyle where
  | unknownNumbering
  | arabic
  | decimal
  | lowerAlpha
  | upperAlpha
  | lowerRoman
  | upperRoman
  | lowerGreek
  | upperGreek
  deriving DecidableEq, Repr

/-- BulletStyle the type of bullet for items in an unordered list. -/
inductive BulletStyle where
  | unknownBullet
  | dash
  | oneAsterisk
  | twoAsterisks
  | threeAsterisks
  | fourAsterisks
  | fiveAsterisks
  deriving DecidableEq, Repr

/-- BlockKind the kind of delimited block. -/
inductive BlockKind where
  | kFenced
  | kListing
  | kExample
  | kComment
  | kVerse
  deriving DecidableEq, Repr

/-- AdmonitionKind the type of admonition. -/
inductive AdmonitionKind where
  | tip
  | note
  | important
  | warning
  | caution
  deriving DecidableEq, Repr

/-- QuotedTextKind the kind of quoted text (bold, italic, monospace). -/
inductive QuotedTextKind where
  | bold
  | italic
  | monospace
  deriving DecidableEq, Repr

/-- PassthroughKind the kind of passthrough. -/
inductive PassthroughKind where
  | singlePlusPassthrough
  | triplePlusPassthrough
  | passthroughMacro
  deriving DecidableEq, Repr

/-- Val is the universal value type standing for Go `interface{}`.
It covers the raw pigeon parser values (`vnil`, `vstr`, `vlist`) and
every AST node of the `types` package that the grammar actions build. -/
inductive Val where
  | vnil
  | vstr (s : Str)
  | vlist (xs : List Val)
  | vinline (xs : List Val)
  | vstringElement (s : Str)
  | vblankLine
  | vcontinuation
  | vtoc
  | vkind (k : BlockKind)
  | vadmonition (k : AdmonitionKind)
  | vmap (m : List (Str × Val))
  | vxref (id : Str)
  | vpassthrough (k : PassthroughKind) (elems : List Val)
  | vquoted (k : QuotedTextKind) (elems : List Val)
  | vlink (url : Str) (attrs : List (Str × Val))
  | vimageMacro (path : Str) (attrs : List (Str × Val))
  | vinlineImage (imac : Val)
  | vblockImage (imac : Val) (attrs : List (Str × Val))
  | vdocAttrSubst (name : Str)
  | vdocAttrDecl (name : Str) (value : Str)
  | vdocAttrReset (name : Str)
  | vsingleLineComment (content : Str)
  | vliteralBlock (content : Str)
  | vparagraph (attrs : List (Str × Val)) (lines : List Val)
  | vdelimitedBlock (attrs : List (Str × Val)) (elems : List Val)
  | vsectionTitle (attrs : List (Str × Val)) (content : Val)
  | vsection (level : Nat) (title : Val) (elems : List Val)
  | vpreamble (elems : List Val)
  | vdocument (attrs : List (Str × Val)) (elems : List Val) (refs : List (Str × Val))
  | volPfx (style : NumberingStyle) (level : Nat)
  | vulPfx (style : BulletStyle) (level : Nat)
  | volItem (level : Nat) (position : Int) (style : NumberingStyle)
      (elems : List Val) (attrs : List (Str × Val))
  | vulItem (level : Nat) (style : BulletStyle) (elems : List Val)
  | vllItem (term : Str) (elems : List Val)
  | vorderedList (attrs : List (Str × Val)) (items : List Val)
  | vunorderedList (attrs : List (Str × Val)) (items : List Val)
  | vlabeledList (attrs : List (Str × Val)) (items : List Val)
  | vauthor (full initials first middle last email : Str)
  | vrevision (num date remark : Str)
  | vheader (content : List (Str × Val))
  | vfrontMatter (content : List (Str × Val))

/-- Attribute maps: Go `map[string]interface{}` modelled as association
lists whose keys stay unique (insertion overwrites in place). -/
abbrev AttrMap := List (Str × Val)

/-- Look a key up in an attribute map. -/
def attrGet (m : AttrMap) (k : Str) : Option Val :=
  match m with
  | [] => none
  | (k1, v) :: rest => if k1 = k then some v else attrGet rest k

/-- Insert or overwrite a key in an attribute map (Go `m[k] = v`). -/
def attrSet (m : AttrMap) (k : Str) (v : Val) : AttrMap :=
  match m with
  | [] => [(k, v)]
  | (k1, v1) :: rest => if k1 = k then (k1, v) :: rest else (k1, v1) :: attrSet rest k v

/-- Merge the entries of the second map into the first, in order. -/
def attrMerge (m : AttrMap) (other : AttrMap) : AttrMap :=
  match other with
  | [] => m
  | (k, v) :: rest => attrMerge (attrSet m k v) rest

/-- Whitespace in the sense of Go `unicode.IsSpace`, restricted to the
characters that can occur in this code base. -/
def isGoSpace (c : Char) : Bool :=
  c = ' ' ∨ c = '\t' ∨ c = '\n' ∨ c = '\x0b' ∨ c = '\x0c' ∨ c = '\r'

/-- Drop characters satisfying `f` from the right end of a string. -/
def dropRightWhile (f : Char → Bool) (s : Str) : Str :=
  (s.reverse.dropWhile f).reverse

/-- Go `strings.TrimSpace`. -/
def goTrimSpace (s : Str) : Str :=
  dropRightWhile isGoSpace (s.dropWhile isGoSpace)

/-- Go `strings.TrimRight` (cutset semantics: removes trailing characters
that are members of the cutset). -/
def goTrimRight (s : Str) (cutset : Str) : Str :=
  dropRightWhile (fun c => c ∈ cutset) s

/-- Go `strings.TrimPrefix`. -/
def goTrimPrefix (s pre : Str) : Str :=
  if pre.isPrefixOf s then s.drop pre.length else s

/-- Go `strings.TrimSuffix`. -/
def goTrimSuffix (s suf : Str) : Str :=
  if suf.isPrefixOf s.reverse.reverse ∧ suf = s.drop (s.length - suf.length) then
    s.take (s.length - suf.length)
  else s

/-- Go `strings.Replace(s, old, new, -1)` specialised to single characters
(the only use in this code base replaces every "_" with a space). -/
def goReplaceChar (s : Str) (a b : Char) : Str :=
  s.map (fun c => if c = a then b else c)

/-- Go `filepath.Split`: the file name after the final slash. -/
def filepathFileName (path : Str) : Str :=
  (path.reverse.takeWhile (fun c => c ≠ '/')).reverse

/-- Go `filepath.Ext`: the suffix beginning at the final dot of the final
path element, including the dot; empty when there is no dot. -/
def filepathExt (path : Str) : Str :=
  let file := filepathFileName path
  let tail := file.reverse.takeWhile (fun c => c ≠ '.')
  if tail.length = file.length then [] else '.' :: tail.reverse

mutual

/-- Flatten one pigeon value into its character run. -/
def textOfVal : Val → Str
  | .vstr s => s
  | .vstringElement s => s
  | .vlist xs => textOf xs
  | .vinline xs => textOf xs
  | _ => []

/-- Flatten nested pigeon value collections into the underlying character
runs, the way the repository turns parser values into strings.
Modelled from the spec: the `stringify` helper is not among the provided
sources; its call sites require flattening `[]interface{}` trees and
concatenating every string fragment, then applying the caller-supplied
string transformations to the result (see the escape rule in section 4.2
of the spec, whose backslash arithmetic acts on the concatenated run). -/
def textOf : List Val → Str
  | [] => []
  | v :: rest => textOfVal v ++ textOf rest

end

/-- Modelled from the spec: `stringify` flattens its input and applies the
given option functions, in order, to the concatenated result. -/
def stringify (xs : List Val) (opts : List (Str → Str)) : Str :=
  opts.foldl (fun s f => f s) (textOf xs)

mutual

/-- Flatten one pigeon value for the merge: expand `vlist` recursively
and drop `vnil` placeholders, keeping every other value. -/
def flatVal : Val → List Val
  | .vnil => []
  | .vlist xs => flatVals xs
  | v => [v]

/-- Flatten a pigeon collection for the merge. -/
def flatVals : List Val → List Val
  | [] => []
  | v :: rest => flatVal v ++ flatVals rest

end

/-- Merge a flattened run: consecutive string fragments are buffered and
emitted as a single `StringElement`; empty buffers are dropped. -/
def mergeFlat : List Val → Str → List Val
  | [], [] => []
  | [], buf => [.vstringElement buf]
  | .vstr s :: rest, buf => mergeFlat rest (buf ++ s)
  | .vstringElement s :: rest, buf => mergeFlat rest (buf ++ s)
  | v :: rest, [] => v :: mergeFlat rest []
  | v :: rest, buf => .vstringElement buf :: v :: mergeFlat rest []

/-- Modelled from the spec: `mergeElements` is not among the provided
sources; the inline-element merge flattens nested collections and joins
adjacent string fragments into single `StringElement` values, as the AST
shapes of section 3 and the test expectations require. -/
def mergeElements (xs : List Val) : List Val :=
  mergeFlat (flatVals xs) []

/-- Modelled from the spec: `nilSafe` returns its argument unchanged for a
non-nil slice (Lean lists are never nil, so this is the identity). -/
def nilSafe (xs : List Val) : List Val := xs

/-- Go `strings.Trim(s, cutset)` (both ends). -/
def goTrimCutset (s cutset : Str) : Str :=
  dropRightWhile (fun c => c ∈ cutset) (s.dropWhile (fun c => c ∈ cutset))

/-- Decimal digits of a natural number (Go `fmt.Sprintf` of an index). -/
def natToStr (n : Nat) : Str := Nat.toDigits 10 n

/-- Parse a decimal digit run. -/
def parseDigits : Str → Option Nat
  | [] => none
  | s => if s.all (fun c => c.isDigit)
      then some (s.foldl (fun n c => n * 10 + (c.toNat - 48)) 0)
      else none

/-- Go `strconv.ParseInt(s, 10, 64)` for the `start=` attribute (64-bit
overflow is not modelled; the inputs of interest are small). -/
def parseIntStr (s : Str) : Option Int :=
  match s with
  | '-' :: rest => (parseDigits rest).map (fun n => -(n : Int))
  | _ => (parseDigits s).map (fun n => (n : Int))

-- ---------------------------------------------------------------------
-- The `types` package: AST constructors called by the grammar actions.
-- ---------------------------------------------------------------------

/-- NewStringElement initializes a new `StringElement`. -/
def NewStringElement (content : Str) : Val := .vstringElement content

/-- NewBlankLine initializes a new `BlankLine`. -/
def NewBlankLine : Val := .vblankLine

/-- NewListItemContinuation returns a new `ListItemContinuation`. -/
def NewListItemContinuation : Val := .vcontinuation

/-- NewCrossReference initializes a new `CrossReference` from the given ID. -/
def NewCrossReference (id : Str) : Val := .vxref id

/-- NewInlineElements initializes a new `InlineElements` from the given
value (the Go function is variadic; both call sites pass one argument,
either the collected slice or a single string). -/
def NewInlineElements (v : Val) : Val := .vinline (mergeElements [v])

/-- NewQuotedText initializes a new `QuotedText` from kind and content. -/
def NewQuotedText (kind : QuotedTextKind) (content : List Val) : Val :=
  .vquoted kind (mergeElements content)

/-- NewEscapedQuotedText returns the escaped form where the number of
backslashes that match the punctuation length is removed and the extra
ones are kept (the option function is translated from the source; the
surrounding `stringify` plumbing is the modelled helper above). -/
def NewEscapedQuotedText (backslashes : List Val) (punctuation : Str)
    (content : List Val) : Val :=
  let backslashesStr := stringify backslashes
    [fun s => if s.length > punctuation.length then s.drop punctuation.length else []]
  .vlist [.vstr backslashesStr, .vstr punctuation, .vlist content, .vstr punctuation]

/-- NewPassthrough returns a new `Passthrough`. -/
def NewPassthrough (kind : PassthroughKind) (elements : List Val) : Val :=
  .vpassthrough kind (mergeElements elements)

/-- NewElementAttributes merges the attribute maps of the given slice of
attributes, ignoring `nil` entries (other kinds are logged and ignored). -/
def NewElementAttributes (attributes : List Val) : AttrMap :=
  attributes.foldl
    (fun acc attrb =>
      match attrb with
      | .vmap m => attrMerge acc m
      | _ => acc)
    []

/-- Modelled from the spec: `mergeAttributes` is not among the provided
sources; like `NewElementAttributes` it folds the attribute maps of the
given slice into one map. -/
def mergeAttributes (attributes : List Val) : AttrMap :=
  NewElementAttributes attributes

/-- NewElementID initializes an attribute map with a single `elementID`. -/
def NewElementID (id : Str) : Val := .vmap [("elementID".toList, .vstr id)]

/-- NewElementTitle initializes an attribute map with a single `title`. -/
def NewElementTitle (value : List Val) : Val :=
  .vmap [("title".toList, .vstr (stringify value []))]

/-- NewAdmonitionAttribute initializes an attribute map with a single
`admonitionKind` entry. -/
def NewAdmonitionAttribute (k : AdmonitionKind) : Val :=
  .vmap [("admonitionKind".toList, .vadmonition k)]

/-- NewGenericAttribute initializes a single-entry attribute map from key
and optional value, trimming surrounding double quotes on both. -/
def NewGenericAttribute (key : List Val) (value : Option (List Val)) : Val :=
  let k := stringify key [fun s => goTrimCutset s ['"']]
  match value with
  | some v => .vmap [(k, .vstr (stringify v [fun s => goTrimCutset s ['"']]))]
  | none => .vmap [(k, .vnil)]

/-- NewAttributeGroup folds the generic attributes of a group into one map. -/
def NewAttributeGroup (attributes : List Val) : Val :=
  .vmap (attributes.foldl
    (fun acc a =>
      match a with
      | .vmap m => attrMerge acc m
      | _ => acc)
    [])

/-- NewVerseAttributes initializes the attribute map of a verse block. -/
def NewVerseAttributes (author title : Str) : Val :=
  .vmap [("kind".toList, .vkind .kVerse),
         ("verseAuthor".toList, .vstr (goTrimSpace author)),
         ("verseTitle".toList, .vstr (goTrimSpace title))]

/-- NewParagraph initializes a new `Paragraph`, keeping exactly the lines
that are `InlineElements` values. -/
def NewParagraph (lines : List Val) (attributes : List Val) : Val :=
  let attrbs := NewElementAttributes attributes
  let elements := lines.filter (fun l => match l with | .vinline _ => true | _ => false)
  .vparagraph attrbs elements

/-- NewAdmonitionParagraph is a `Paragraph` with an extra admonition
attribute. -/
def NewAdmonitionParagraph (lines : List Val) (admonitionKind : AdmonitionKind)
    (attributes : List Val) : Val :=
  match NewParagraph lines attributes with
  | .vparagraph attrs ls =>
      .vparagraph (attrSet attrs "admonitionKind".toList (.vadmonition admonitionKind)) ls
  | v => v

/-- Substitution selector for `NewDelimitedBlock` (`None` or `Verbatim`). -/
inductive Substitution where
  | subNone
  | subVerbatim
  deriving DecidableEq, Repr

/-- Verbatim the verbatim substitution: each `[]interface{}` entry is
stringified into a `StringElement`; any other entry becomes nil. -/
def Verbatim (content : List Val) : List Val :=
  content.map (fun c =>
    match c with
    | .vlist xs => NewStringElement (stringify xs [])
    | _ => .vnil)

/-- Apply the substitution group of a delimited block. -/
def applySubstitution : Substitution → List Val → List Val
  | .subNone, content => nilSafe content
  | .subVerbatim, content => Verbatim content

/-- NewDelimitedBlock initializes a new `DelimitedBlock` of the given kind
with the given content and attributes. -/
def NewDelimitedBlock (kind : BlockKind) (content : List Val)
    (attributes : List Val) (substitution : Substitution) : Val :=
  let attrbs := attrSet (NewElementAttributes attributes) "kind".toList (.vkind kind)
  .vdelimitedBlock attrbs (applySubstitution substitution content)

/-- NewLiteralBlock concatenates spaces and content into a single string
and strips the trailing newline characters. -/
def NewLiteralBlock (spaces content : List Val) : Val :=
  let c := stringify (spaces ++ content) []
  .vliteralBlock (goTrimRight (goTrimRight c ['\n']) ['\r'])

/-- NewSingleLineComment initializes a new single line comment. -/
def NewSingleLineComment (content : List Val) : Val :=
  .vsingleLineComment (stringify content [])

/-- NewLink initializes a new `Link`; a missing attribute map is replaced
with one holding an empty `text` attribute. -/
def NewLink (url : List Val) (attributes : Option AttrMap) : Val :=
  let urlStr := stringify url []
  match attributes with
  | some attrs => .vlink urlStr attrs
  | none => .vlink urlStr [("text".toList, .vstr [])]

/-- NewLinkAttributes maps the positional text attribute to `text` and
merges the remaining generic attributes. -/
def NewLinkAttributes (text : Option (List Val)) (otherAttrs : List Val) : AttrMap :=
  let base : AttrMap := [("text".toList, .vstr (stringify (text.getD []) [goTrimSpace]))]
  otherAttrs.foldl
    (fun acc a =>
      match a with
      | .vmap m => attrMerge acc m
      | _ => acc)
    base

/-- NewImageAttributes sets the positional `alt`, `width` and `height`
attributes (always present, possibly empty) and merges the rest. -/
def NewImageAttributes (alt width height : Option (List Val))
    (otherAttrs : List Val) : AttrMap :=
  let base : AttrMap :=
    [("alt".toList, .vstr (stringify (alt.getD []) [goTrimSpace])),
     ("width".toList, .vstr (stringify (width.getD []) [goTrimSpace])),
     ("height".toList, .vstr (stringify (height.getD []) [goTrimSpace]))]
  otherAttrs.foldl
    (fun acc a =>
      match a with
      | .vmap m => attrMerge acc m
      | _ => acc)
    base

/-- NewImageMacro derives a default `alt` attribute from the file name when
the parsed `alt` attribute is the empty string: the extension (as a Go
`TrimRight` cutset built from `filepath.Ext`) is trimmed from the right of
the file name. -/
def NewImageMacro (path : Str) (attributes : AttrMap) : Val :=
  let altEmpty : Bool :=
    match attrGet attributes "alt".toList with
    | some (.vstr []) => true
    | _ => false
  let attributes :=
    if altEmpty then
      let filename := filepathFileName path
      let ext := filepathExt filename
      if ext ≠ [] then
        attrSet attributes "alt".toList (.vstr (goTrimRight filename ('.' :: ext)))
      else
        attrSet attributes "alt".toList (.vstr filename)
    else attributes
  .vimageMacro path attributes

/-- NewBlockImage initializes a new `BlockImage`. -/
def NewBlockImage (imageMacro : Val) (attributes : List Val) : Val :=
  .vblockImage imageMacro (NewElementAttributes attributes)

/-- NewInlineImage initializes a new `InlineImage` (no attributes). -/
def NewInlineImage (imageMacro : Val) : Val := .vinlineImage imageMacro

/-- NewDocumentAttributeDeclaration trims the parsed name and value. -/
def NewDocumentAttributeDeclaration (name : List Val) (value : List Val) : Val :=
  .vdocAttrDecl (stringify name [goTrimSpace]) (stringify value [goTrimSpace])

/-- NewDocumentAttributeReset initializes a new attribute reset. -/
def NewDocumentAttributeReset (name : List Val) : Val :=
  .vdocAttrReset (stringify name [])

/-- NewDocumentAttributeSubstitution initializes a new substitution. -/
def NewDocumentAttributeSubstitution (name : List Val) : Val :=
  .vdocAttrSubst (stringify name [])

-- ---------------------------------------------------------------------
-- List items and the flat-to-tree list assembly.
-- ---------------------------------------------------------------------

/-- NewListItemContent flattens one level of slice nesting; `nil` entries
match no case of the Go type switch and are dropped. -/
def NewListItemContent (content : List Val) : List Val :=
  content.foldl
    (fun acc element =>
      match element with
      | .vlist xs => acc ++ xs
      | .vnil => acc
      | v => acc ++ [v])
    []

/-- NewOrderedListItemPrefix initializes a new prefix value. -/
def NewOrderedListItemPrefix (s : NumberingStyle) (l : Nat) : Val := .volPfx s l

/-- NewUnorderedListItemPrefix initializes a new prefix value. -/
def NewUnorderedListItemPrefix (s : BulletStyle) (l : Nat) : Val := .vulPfx s l

/-- NewOrderedListItem initializes a new item with default position 1. -/
def NewOrderedListItem (px : Val) (elements : List Val) (attributes : List Val) : Val :=
  match px with
  | .volPfx style level => .volItem level 1 style elements (mergeAttributes attributes)
  | _ => .vnil

/-- NewUnorderedListItem initializes a new item from its prefix. -/
def NewUnorderedListItem (px : Val) (elements : List Val) : Val :=
  match px with
  | .vulPfx style level => .vulItem level style elements
  | _ => .vnil

/-- NewLabeledListItem initializes a new labeled item (term stringified). -/
def NewLabeledListItem (term : List Val) (description : List Val) : Val :=
  .vllItem (stringify term []) description

/-- AddChild appends a child value to a list item (pointer mutation in Go). -/
def addChild (item child : Val) : Val :=
  match item with
  | .volItem l p s elems attrs => .volItem l p s (elems ++ [child]) attrs
  | .vulItem l s elems => .vulItem l s (elems ++ [child])
  | .vllItem t elems => .vllItem t (elems ++ [child])
  | v => v

/-- Update the last element of a layer in place (Go mutates the pointee of
`layer[len(layer)-1]`; an empty layer would make Go fail at run time, which
is unreachable in the assembly and modelled as a no-op). -/
def updateLast (xs : List Val) (f : Val → Val) : List Val :=
  match xs with
  | [] => []
  | [x] => [f x]
  | x :: rest => x :: updateLast rest f

/-- The Go string value of a numbering style (map keys of attributes). -/
def styleKey : NumberingStyle → Str
  | .unknownNumbering => "unknown".toList
  | .arabic => "arabic".toList
  | .decimal => "decimal".toList
  | .lowerAlpha => "loweralpha".toList
  | .upperAlpha => "upperalpha".toList
  | .lowerRoman => "lowerroman".toList
  | .upperRoman => "upperroman".toList
  | .lowerGreek => "lowergreek".toList
  | .upperGreek => "uppergreek".toList

/-- The module constant `numberingStyles`. -/
def numberingStyles : List NumberingStyle :=
  [.arabic, .decimal, .lowerAlpha, .upperAlpha, .lowerRoman, .upperRoman,
   .lowerGreek, .upperGreek]

/-- Level-indexed buffers (`map[int][]*OrderedListItem`); the association
list keeps one entry per key, so its length is the Go map size. -/
abbrev LevelBuf := List (Nat × List Val)

/-- Look up a level buffer (missing key: empty slice). -/
def lvlGet (b : LevelBuf) (k : Nat) : List Val :=
  match b with
  | [] => []
  | (k1, v) :: rest => if k1 = k then v else lvlGet rest k

/-- Set a level buffer, creating the key when absent. -/
def lvlSet (b : LevelBuf) (k : Nat) (v : List Val) : LevelBuf :=
  match b with
  | [] => [(k, v)]
  | (k1, v1) :: rest => if k1 = k then (k1, v) :: rest else (k1, v1) :: lvlSet rest k v

/-- Append an item to a level buffer. -/
def lvlAppend (b : LevelBuf) (k : Nat) (item : Val) : LevelBuf :=
  lvlSet b k (lvlGet b k ++ [item])

/-- Delete a key from a level buffer (Go `delete`). -/
def lvlDelete (b : LevelBuf) (k : Nat) : LevelBuf :=
  b.filter (fun p => p.1 ≠ k)

/-- The Go map size `len(bufferedItemsPerLevel)`. -/
def lvlSize (b : LevelBuf) : Nat := b.length

/-- Association lookup for `levelPerStyle`. -/
def lpsGet (m : List (NumberingStyle × Nat)) (k : NumberingStyle) : Option Nat :=
  match m with
  | [] => none
  | (k1, v) :: rest => if k1 = k then some v else lpsGet rest k

/-- Association insert-or-overwrite for `levelPerStyle`. -/
def lpsSet (m : List (NumberingStyle × Nat)) (k : NumberingStyle) (v : Nat) :
    List (NumberingStyle × Nat) :=
  match m with
  | [] => [(k, v)]
  | (k1, v1) :: rest => if k1 = k then (k1, v) :: rest else (k1, v1) :: lpsSet rest k v

/-- The level-rewriting step of `NewOrderedList` (grammar file lines
1582-1600): computes the level assigned to an item and the updated
`levelPerStyle` map from the previous level and numbering style. -/
def olAssignStep (prevLevel : Nat) (prevStyle : NumberingStyle)
    (lps : List (NumberingStyle × Nat)) (level : Nat) (style : NumberingStyle) :
    Nat × List (NumberingStyle × Nat) :=
  if level > prevLevel then
    (prevLevel + 1, lpsSet lps style (prevLevel + 1))
  else if style ≠ prevStyle then
    match lpsGet lps style with
    | some l => (l, lps)
    | none => (prevLevel + 1, lpsSet lps style (prevLevel + 1))
  else
    (prevLevel, lps)

/-- Numbering-style override and `start=` offset of the first item of a
sub-list (`applyAttributes`; a malformed `start` value leaves the position
unchanged, the returned error is discarded by the caller). -/
def applyListItemAttributes (item : Val) : Val :=
  match item with
  | .volItem l p st elems attrs =>
      let st2 := (numberingStyles.find? (fun sty => (attrGet attrs (styleKey sty)).isSome)).getD st
      let p2 : Int :=
        match attrGet attrs "start".toList with
        | some (.vstr s) =>
            match parseIntStr s with
            | some n => n
            | none => p
        | _ => p
      .volItem l p2 st2 elems attrs
  | v => v

/-- Set position and numbering style of an ordered item. -/
def olSetPosStyle (item : Val) (pos : Int) (style : NumberingStyle) : Val :=
  match item with
  | .volItem l _ _ elems attrs => .volItem l pos style elems attrs
  | v => v

/-- Position of an ordered item. -/
def olPos (item : Val) : Int :=
  match item with
  | .volItem _ p _ _ _ => p
  | _ => 0

/-- Numbering style of an ordered item. -/
def olStyle (item : Val) : NumberingStyle :=
  match item with
  | .volItem _ _ s _ _ => s
  | _ => .unknownNumbering

/-- toOrderedList applies the first item attributes, then rebases every
item position and numbering style on the (updated) first item. -/
def toOrderedList (items : List Val) : Val :=
  match items with
  | [] => .vorderedList [] []
  | first :: rest =>
      let first2 := applyListItemAttributes first
      let items2 := first2 :: rest
      .vorderedList []
        (items2.enum.map (fun p => olSetPosStyle p.2 (olPos first2 + p.1) (olStyle first2)))

/-- The per-element loop of `NewOrderedList`: rewrite the level, merge the
buffered deeper layer into its parent when the level decreases, then buffer
the item at its level. -/
def olLoop (elements : List Val) (buffered : LevelBuf)
    (lps : List (NumberingStyle × Nat)) (prevLevel : Nat)
    (prevStyle : NumberingStyle) : LevelBuf :=
  match elements with
  | [] => buffered
  | e :: rest =>
    match e with
    | .volItem l p st elems attrs =>
        let step := olAssignStep prevLevel prevStyle lps l st
        let newLevel := step.1
        let lps2 := step.2
        let item := Val.volItem newLevel p st elems attrs
        let buffered :=
          if newLevel < prevLevel then
            let childList := toOrderedList (lvlGet buffered (prevLevel - 1))
            let buffered := lvlSet buffered (prevLevel - 2)
              (updateLast (lvlGet buffered (prevLevel - 2)) (fun it => addChild it childList))
            lvlDelete buffered (prevLevel - 1)
          else buffered
        let buffered :=
          if newLevel > lvlSize buffered then lvlSet buffered (newLevel - 1) [] else buffered
        let buffered := lvlAppend buffered (newLevel - 1) item
        olLoop rest buffered lps2 newLevel st
    | _ => olLoop rest buffered lps prevLevel prevStyle

/-- The closing loop of `NewOrderedList` for levels `size-1` down to `1`:
each remaining deeper layer becomes a child list of the last item of the
layer above it (threaded through the buffer as the Go pointers do). -/
def olFinishDown (buffered : LevelBuf) : Nat → LevelBuf
  | 0 => buffered
  | l + 1 =>
      let items := lvlGet buffered (l + 1)
      let childList := toOrderedList items
      let buffered := lvlSet buffered l
        (updateLast (lvlGet buffered l) (fun it => addChild it childList))
      olFinishDown buffered l

/-- The level-0 pass of the closing loop: positions are rebased on the
first top-level item. -/
def olTopItems (items : List Val) : List Val :=
  match items with
  | [] => []
  | first :: _ =>
      items.enum.map (fun p =>
        match p.2 with
        | .volItem l _ st elems attrs => .volItem l (olPos first + p.1) st elems attrs
        | v => v)

/-- NewOrderedList rewrites item levels while scanning left to right and
folds the buffered layers into a nested list (grammar file lines
1569-1647).  Elements that are not ordered items make the Go function
return an error; the assembly only calls it on homogeneous groups. -/
def NewOrderedList (elements : List Val) (attributes : List Val) : Val :=
  let buffered := olLoop elements [] [] 0 .unknownNumbering
  let buffered2 := olFinishDown buffered (lvlSize buffered - 1)
  .vorderedList (mergeAttributes attributes) (olTopItems (lvlGet buffered2 0))

/-- nextLevelStyle returns the bullet style for the next nesting level
given the previously processed style. -/
def nextLevelStyle (b : BulletStyle) (p : BulletStyle) : BulletStyle :=
  match p with
  | .dash => .oneAsterisk
  | .oneAsterisk => .twoAsterisks
  | .twoAsterisks => .threeAsterisks
  | .threeAsterisks => .fourAsterisks
  | .fourAsterisks => .fiveAsterisks
  | .fiveAsterisks => .dash
  | _ => b

/-- adjustBulletStyle rewrites the bullet style of an item that opens a new
nesting level. -/
def adjustBulletStyle (item : Val) (p : BulletStyle) : Val :=
  match item with
  | .vulItem l s elems => .vulItem l (nextLevelStyle s p) elems
  | v => v

/-- Bullet style of an unordered item. -/
def ulStyle (item : Val) : BulletStyle :=
  match item with
  | .vulItem _ s _ => s
  | _ => .unknownBullet

/-- Association lookup for the unordered `levelPerStyle`. -/
def bpsGet (m : List (BulletStyle × Nat)) (k : BulletStyle) : Option Nat :=
  match m with
  | [] => none
  | (k1, v) :: rest => if k1 = k then some v else bpsGet rest k

/-- Association insert-or-overwrite for the unordered `levelPerStyle`. -/
def bpsSet (m : List (BulletStyle × Nat)) (k : BulletStyle) (v : Nat) :
    List (BulletStyle × Nat) :=
  match m with
  | [] => [(k, v)]
  | (k1, v1) :: rest => if k1 = k then (k1, v) :: rest else (k1, v1) :: bpsSet rest k v

/-- One level of the merge-on-decrease loop of `NewUnorderedList`,
iterated for the level countdown `n = l - target`. -/
def ulMergeGo (buffered : LevelBuf) (l : Nat) : Nat → LevelBuf
  | 0 => buffered
  | n + 1 =>
    let childList := Val.vunorderedList [] (lvlGet buffered (l - 1))
    let buffered := lvlSet buffered (l - 2)
      (updateLast (lvlGet buffered (l - 2)) (fun it => addChild it childList))
    ulMergeGo (lvlDelete buffered (l - 1)) (l - 1) n

/-- The merge-on-decrease inner loop of `NewUnorderedList`: repeatedly fold
the deepest buffered layer into its parent, for levels `prev` down to
`target+1`. -/
def ulMergeDown (buffered : LevelBuf) (l target : Nat) : LevelBuf :=
  ulMergeGo buffered l (l - target)

/-- The per-element loop of `NewUnorderedList`. -/
def ulLoop (elements : List Val) (buffered : LevelBuf)
    (bps : List (BulletStyle × Nat)) (prevLevel : Nat)
    (prevStyle : BulletStyle) : LevelBuf :=
  match elements with
  | [] => buffered
  | e :: rest =>
    match e with
    | .vulItem l st elems =>
        let item0 := Val.vulItem l st elems
        let res :
            Val × List (BulletStyle × Nat) :=
          if l > prevLevel then
            let adjusted := adjustBulletStyle item0 prevStyle
            let adjusted :=
              match adjusted with
              | .vulItem _ s2 es => Val.vulItem (prevLevel + 1) s2 es
              | v => v
            (adjusted, bpsSet bps (ulStyle adjusted) (prevLevel + 1))
          else if st ≠ prevStyle then
            match bpsGet bps st with
            | some lvl => (Val.vulItem lvl st elems, bps)
            | none => (Val.vulItem (prevLevel + 1) st elems, bpsSet bps st (prevLevel + 1))
          else
            (Val.vulItem prevLevel st elems, bps)
        let item := res.1
        let bps2 := res.2
        let newLevel :=
          match item with
          | .vulItem lv _ _ => lv
          | _ => prevLevel
        let buffered :=
          if newLevel < prevLevel then ulMergeDown buffered prevLevel newLevel else buffered
        let buffered :=
          if newLevel > lvlSize buffered then lvlSet buffered (newLevel - 1) [] else buffered
        let buffered := lvlAppend buffered (newLevel - 1) item
        ulLoop rest buffered bps2 newLevel (ulStyle item)
    | _ => ulLoop rest buffered bps prevLevel prevStyle

/-- The closing loop of `NewUnorderedList` for levels `size-1` down to 1. -/
def ulFinishDown (buffered : LevelBuf) : Nat → LevelBuf
  | 0 => buffered
  | l + 1 =>
      let childList := Val.vunorderedList [] (lvlGet buffered (l + 1))
      let buffered := lvlSet buffered l
        (updateLast (lvlGet buffered l) (fun it => addChild it childList))
      ulFinishDown buffered l

/-- NewUnorderedList: the same level-rewriting assembly keyed on the bullet
style, with the bullet-style cycling of new deeper levels. -/
def NewUnorderedList (elements : List Val) (attributes : List Val) : Val :=
  let buffered := ulLoop elements [] [] 0 .unknownBullet
  let buffered2 := ulFinishDown buffered (lvlSize buffered - 1)
  .vunorderedList (mergeAttributes attributes) (lvlGet buffered2 0)

/-- NewLabeledList collects labeled items in order (no nesting). -/
def NewLabeledList (elements : List Val) (attributes : List Val) : Val :=
  .vlabeledList (mergeAttributes attributes)
    (elements.filter (fun e => match e with | .vllItem _ _ => true | _ => false))

/-- The three runtime types of list items (`reflect.TypeOf` in Go). -/
inductive LIKind where
  | ordK
  | unordK
  | labK
  deriving DecidableEq, Repr

/-- The runtime kind of a list item value. -/
def itemKindOf : Val → Option LIKind
  | .volItem _ _ _ _ _ => some .ordK
  | .vulItem _ _ _ => some .unordK
  | .vllItem _ _ => some .labK
  | _ => none

/-- Per-kind item buffers (`map[reflect.Type][]ListItem`). -/
structure LBuf where
  ord : List Val
  unord : List Val
  lab : List Val

/-- Read a kind buffer. -/
def lbufGet (b : LBuf) : LIKind → List Val
  | .ordK => b.ord
  | .unordK => b.unord
  | .labK => b.lab

/-- Write a kind buffer. -/
def lbufSet (b : LBuf) (k : LIKind) (v : List Val) : LBuf :=
  match k with
  | .ordK => { b with ord := v }
  | .unordK => { b with unord := v }
  | .labK => { b with lab := v }

/-- Dispatch `newList` on the runtime type of the first item. -/
def newListDispatch (items : List Val) (attributes : List Val) : Option Val :=
  match items with
  | [] => none
  | first :: _ =>
    match itemKindOf first with
    | some .ordK => some (NewOrderedList items attributes)
    | some .unordK => some (NewUnorderedList items attributes)
    | some .labK => some (NewLabeledList items attributes)
    | none => none

/-- The per-element loop of `NewList`: group same-kind runs; on each kind
switch (other than back to the root kind) build a sub-list from the
buffered run and attach it to the last buffered item of the new kind. -/
def newListLoop (elements : List Val) (rootK prevK : LIKind) (buf : LBuf)
    (stack : List LIKind) : Option (LBuf × List LIKind) :=
  match elements with
  | [] => some (buf, stack)
  | e :: rest =>
    match itemKindOf e with
    | none => none
    | some curK =>
      if curK ≠ prevK ∧ prevK ≠ rootK then
        match newListDispatch (lbufGet buf prevK) [] with
        | none => none
        | some sublist =>
          match lbufGet buf curK with
          | [] => none
          | _ :: _ =>
            let buf := lbufSet buf curK
              (updateLast (lbufGet buf curK) (fun it => addChild it sublist))
            let buf := lbufSet buf prevK []
            let stack := if prevK ∈ stack then stack else stack ++ [prevK]
            newListLoop rest rootK curK (lbufSet buf curK (lbufGet buf curK ++ [e])) stack
      else
        newListLoop rest rootK curK (lbufSet buf curK (lbufGet buf curK ++ [e])) stack

/-- The closing loop of `NewList` over the kind stack (indices `len-1`
down to `1`). -/
def newListFinish (buf : LBuf) (stack : List LIKind) : Nat → Option LBuf
  | 0 => some buf
  | i + 1 =>
    match stack.get? (i + 1) with
    | none => newListFinish buf stack i
    | some k =>
      match lbufGet buf k with
      | [] => newListFinish buf stack i
      | _ :: _ =>
        match stack.get? i with
        | none => none
        | some pk =>
          match lbufGet buf pk with
          | [] => none
          | _ :: _ =>
            match newListDispatch (lbufGet buf k) [] with
            | none => none
            | some sub =>
              newListFinish
                (lbufSet buf pk (updateLast (lbufGet buf pk) (fun it => addChild it sub)))
                stack i

/-- NewList folds a flat, possibly interleaved sequence of list items into
a nested list (`none` models the Go error returns). -/
def NewList (elements : List Val) (attributes : List Val) : Option Val :=
  match elements with
  | [] => none
  | e0 :: _ =>
    match itemKindOf e0 with
    | none => none
    | some rootK =>
      match newListLoop elements rootK rootK ⟨[], [], []⟩ [rootK] with
      | none => none
      | some (buf, stack) =>
        match newListFinish buf stack (stack.length - 1) with
        | none => none
        | some buf2 => newListDispatch (lbufGet buf2 rootK) attributes

-- ---------------------------------------------------------------------
-- Sections, document header and document assembly.
-- ---------------------------------------------------------------------

mutual

/-- Replace runs of non-alphanumeric characters after lowercasing.
Modelled from the spec: `ReplaceNonAlphanumerics` is not among the
provided sources; section 4.5 specifies lowercasing the plain text of the
title and replacing runs of non-alphanumerics with the separator. -/
def replaceRuns : Str → Str
  | [] => []
  | c :: rest =>
    if c.isAlphanum then c :: replaceRuns rest
    else '_' :: replaceRunsSkip rest

/-- Skip the remainder of a non-alphanumeric run. -/
def replaceRunsSkip : Str → Str
  | [] => []
  | c :: rest =>
    if c.isAlphanum then c :: replaceRuns rest
    else replaceRunsSkip rest

end

/-- Modelled from the spec: the synthesized section ID. -/
def replaceNonAlphanumerics (content : Val) : Str :=
  replaceRuns ((textOf [content]).map Char.toLower)

/-- NewSectionTitle keeps the attributes and adds a default `elementID`
derived from the inline content when none was given. -/
def NewSectionTitle (inlineContent : Val) (attributes : List Val) : Val :=
  let attrbs := NewElementAttributes attributes
  let attrbs :=
    match attrGet attrbs "elementID".toList with
    | some _ => attrbs
    | none => attrSet attrbs "elementID".toList (.vstr (replaceNonAlphanumerics inlineContent))
  .vsectionTitle attrbs inlineContent

/-- NewSection initializes a new `Section`. -/
def NewSection (level : Nat) (sectionTitle : Val) (blocks : List Val) : Val :=
  .vsection level sectionTitle (nilSafe blocks)

/-- NewDocumentAuthor assembles the name parts (trimmed, underscores made
spaces) into the author value. -/
def NewDocumentAuthor (namePart1 namePart2 namePart3 email : Val) : Val :=
  let mk := fun (v : Val) =>
    goReplaceChar (goTrimSpace (textOf [v])) '_' ' '
  let part1 := mk namePart1
  let part2 := mk namePart2
  let part3 := mk namePart3
  let emailStr := goTrimSpace (goTrimSuffix (goTrimPrefix (textOf [email]) ['<']) ['>'])
  let initialsOf := fun (parts : List Str) => (parts.map (fun p => p.take 1)).flatten
  if part2 ≠ [] ∧ part3 ≠ [] then
    .vauthor (part1 ++ [' '] ++ part2 ++ [' '] ++ part3) (initialsOf [part1, part2, part3])
      part1 part2 part3 emailStr
  else if part2 ≠ [] then
    .vauthor (part1 ++ [' '] ++ part2) (initialsOf [part1, part2]) part1 [] part2 emailStr
  else
    .vauthor part1 (initialsOf [part1]) part1 [] [] emailStr

/-- NewDocumentAuthors keeps the author values of the slice. -/
def NewDocumentAuthors (authors : List Val) : Val :=
  .vlist (authors.filter (fun a => match a with | .vauthor _ _ _ _ _ _ => true | _ => false))

/-- NewDocumentRevision trims the `v` prefix of the number, the spaces of
the date and the `:` prefix of the remark. -/
def NewDocumentRevision (revnumber revdate revremark : Val) : Val :=
  let number := goTrimSpace (goTrimPrefix (goTrimPrefix (textOf [revnumber]) ['v']) ['V'])
  let date := goTrimSpace (textOf [revdate])
  let remark := goTrimSpace (goTrimPrefix (textOf [revremark]) [':'])
  .vrevision number date remark

/-- AddNonEmpty adds an attribute only when its value is non-empty. -/
def addNonEmpty (m : AttrMap) (k : Str) (v : Str) : AttrMap :=
  if v = [] then m else attrSet m k (.vstr v)

/-- The per-author attribute keys, suffixed `_N` for authors 2..N. -/
def authorKeys (i : Nat) (base : String) : Str :=
  if i = 0 then base.toList else base.toList ++ ['_'] ++ natToStr (i + 1)

/-- NewDocumentHeader collects the doctitle, author, revision and other
attributes into the header content map (`AddAttribute` on a declaration
sets its name to its value). -/
def NewDocumentHeader (header authors revision : Val) (otherAttributes : List Val) : Val :=
  let content : AttrMap :=
    match header with
    | .vnil => []
    | h => [("doctitle".toList, h)]
  let content :=
    match authors with
    | .vlist as =>
        as.enum.foldl
          (fun acc p =>
            match p.2 with
            | .vauthor full initials first middle last email =>
                let acc := addNonEmpty acc (authorKeys p.1 "firstname") first
                let acc := addNonEmpty acc (authorKeys p.1 "middlename") middle
                let acc := addNonEmpty acc (authorKeys p.1 "lastname") last
                let acc := addNonEmpty acc (authorKeys p.1 "author") full
                let acc := addNonEmpty acc (authorKeys p.1 "authorinitials") initials
                addNonEmpty acc (authorKeys p.1 "email") email
            | _ => acc)
          content
    | _ => content
  let content :=
    match revision with
    | .vrevision n d r =>
        addNonEmpty (addNonEmpty (addNonEmpty content "revnumber".toList n)
          "revdate".toList d) "revremark".toList r
    | _ => content
  let content :=
    otherAttributes.foldl
      (fun acc a =>
        match a with
        | .vdocAttrDecl n v => attrSet acc n (.vstr v)
        | _ => acc)
      content
  .vheader content

/-- Modelled from the spec: YAML front-matter parsing is done by an
external library; the content is ingested as an opaque flat map, modelled
here as empty. -/
def NewYamlFrontMatter (_content : Str) : Val := .vfrontMatter []

/-- Whether a block value is a `Section`. -/
def isSection : Val → Bool
  | .vsection _ _ _ => true
  | _ => false

/-- insertPreamble collects the non-Section blocks of the document (the
`break` in the Go `switch` exits the switch, not the loop), returns the
blocks unchanged when that collection is empty or covers every block, and
otherwise substitutes a `Preamble` holding the collection for the first
`len(collection)` blocks. -/
def insertPreamble (blocks : List Val) : List Val :=
  let pre := blocks.filter (fun b => !isSection b)
  if pre.length = 0 ∨ pre.length = blocks.length then nilSafe blocks
  else .vpreamble pre :: blocks.drop pre.length

mutual

/-- Collect the references of one element (sections only are visitable at
the block level). -/
def collectRefsVal : Val → AttrMap
  | .vsection _ (.vsectionTitle attrs c) elems =>
      (match attrGet attrs "elementID".toList with
       | some (.vstr id) => [(id, .vsectionTitle attrs c)]
       | _ => []) ++ collectRefsList elems
  | .vsection _ _ elems => collectRefsList elems
  | _ => []

/-- Modelled from the spec: the element-references collector is not among
the provided sources.  Per sections 4.5 and 4.7 it walks the visitable
elements (sections and their contents) and records each section title
under its `elementID`. -/
def collectRefsList : List Val → AttrMap
  | [] => []
  | v :: rest => collectRefsVal v ++ collectRefsList rest

end

/-- Whether a block value is a `Preamble`. -/
def isPreamble : Val → Bool
  | .vpreamble _ => true
  | _ => false

/-- NewDocument: wrap the preamble, merge front-matter and header
attributes (inserting the table-of-contents where the `toc` attribute
says), and collect element references. -/
def NewDocument (frontmatter header : Val) (blocks : List Val) : Val :=
  let elements := insertPreamble blocks
  let attributes : AttrMap :=
    match frontmatter with
    | .vfrontMatter m => attrMerge [] m
    | _ => []
  let state : AttrMap × List Val :=
    match header with
    | .vheader content =>
        content.foldl
          (fun acc kv =>
            let attrs := attrSet acc.1 kv.1 kv.2
            let elems := acc.2
            if kv.1 = "toc".toList then
              match kv.2 with
              | .vstr s =>
                  if s = [] ∨ s = "auto".toList then (attrs, .vtoc :: elems)
                  else if s = "preamble".toList then
                    let pi := (elems.findIdx? isPreamble).getD 0
                    (attrs, elems.take (pi + 1) ++ [.vtoc] ++ elems.drop (pi + 1))
                  else (attrs, elems)
              | _ => (attrs, elems)
            else (attrs, elems))
          (attributes, elements)
    | _ => (attributes, elements)
  .vdocument state.1 state.2 (collectRefsList state.2)

-- ---------------------------------------------------------------------
-- PEG combinators (pigeon semantics: ordered choice, backtracking,
-- non-consuming predicates, nil for failed options).  `nofuel` marks an
-- exhausted fuel budget and is propagated distinctly from match failure,
-- so a `fail` result is a genuine parse failure of the grammar.
-- ---------------------------------------------------------------------

/-- Result of running a parser: a value with the remaining input, a
failure (backtrack), or fuel exhaustion. -/
inductive PRes (α : Type) where
  | ok (v : α) (rest : List Char)
  | fail
  | nofuel

/-- Sequential composition. -/
def PRes.bind {α β : Type} : PRes α → (α → List Char → PRes β) → PRes β
  | .ok v r, k => k v r
  | .fail, _ => .fail
  | .nofuel, _ => .nofuel

/-- Ordered choice: try the second parser only on failure of the first. -/
def por {α : Type} (p : PRes α) (q : Unit → PRes α) : PRes α :=
  match p with
  | .fail => q ()
  | x => x

/-- Not-predicate `!e`: succeeds without consuming when `e` fails. -/
def pnot {α : Type} (p : PRes α) (s : List Char) : PRes Val :=
  match p with
  | .ok _ _ => .fail
  | .fail => .ok .vnil s
  | .nofuel => .nofuel

/-- And-predicate `&e`: succeeds without consuming when `e` succeeds. -/
def pand {α : Type} (p : PRes α) (s : List Char) : PRes Val :=
  match p with
  | .ok _ _ => .ok .vnil s
  | .fail => .fail
  | .nofuel => .nofuel

/-- Option `e?`: nil value without consuming on failure. -/
def popt (p : PRes Val) (s : List Char) : PRes Val :=
  match p with
  | .fail => .ok .vnil s
  | x => x

/-- Literal matcher; the value is the matched text. -/
def pstr (lit : Str) (s : List Char) : PRes Val :=
  match lit, s with
  | [], s => .ok (.vstr []) s
  | _ :: _, [] => .fail
  | c :: lit1, d :: s1 =>
    if c = d then
      (pstr lit1 s1).bind fun _ r => .ok (.vstr (c :: lit1)) r
    else .fail

/-- Case-insensitive literal matcher (`"v"i`). -/
def pstrCI (lit : Str) (s : List Char) : PRes Val :=
  match lit, s with
  | [], s => .ok (.vstr []) s
  | _ :: _, [] => .fail
  | c :: lit1, d :: s1 =>
    if c.toLower = d.toLower then
      (pstrCI lit1 s1).bind fun _ r => .ok (.vstr (d :: taken0 s1 r)) r
    else .fail
where
  /-- Matched portion helper local to the definition. -/
  taken0 (s r : List Char) : Str := s.take (s.length - r.length)

/-- Character class matcher. -/
def pcls (f : Char → Bool) (s : List Char) : PRes Val :=
  match s with
  | [] => .fail
  | c :: s1 => if f c then .ok (.vstr [c]) s1 else .fail

/-- Any-character matcher `.`. -/
def pany (s : List Char) : PRes Val :=
  match s with
  | [] => .fail
  | c :: s1 => .ok (.vstr [c]) s1

/-- Zero-or-more repetitions of `p` (pigeon keeps looping while the inner
expression matches; the fuel bounds the number of iterations). -/
def pmany (fuel : Nat) (p : List Char → PRes Val) (s : List Char) : PRes (List Val) :=
  match fuel with
  | 0 => .nofuel
  | fuel + 1 =>
    match p s with
    | .fail => .ok [] s
    | .nofuel => .nofuel
    | .ok v r => (pmany fuel p r).bind fun vs r1 => .ok (v :: vs) r1

/-- Star returning the collected slice value. -/
def pstarV (fuel : Nat) (p : List Char → PRes Val) (s : List Char) : PRes Val :=
  (pmany fuel p s).bind fun vs r => .ok (.vlist vs) r

/-- Plus returning the collected slice value. -/
def pplusV (fuel : Nat) (p : List Char → PRes Val) (s : List Char) : PRes Val :=
  (p s).bind fun v r =>
    (pmany fuel p r).bind fun vs r1 => .ok (.vlist (v :: vs)) r1

/-- The text consumed between an input and the remaining input (`c.text`). -/
def taken (s r : List Char) : Str := s.take (s.length - r.length)

/-- Go type assertion `.([]interface{})` on a parser value. -/
def asList : Val → List Val
  | .vlist xs => xs
  | .vnil => []
  | v => [v]

/-- Go type assertion `.(string)` on a parser value. -/
def asStr : Val → Str
  | .vstr s => s
  | _ => []

/-- Go type assertion `.(map[string]interface{})` on a parser value. -/
def asMap : Val → AttrMap
  | .vmap m => m
  | _ => []

-- ---------------------------------------------------------------------
-- Grammar rules: base types.
-- ---------------------------------------------------------------------

/-- WS is a space or a tab. -/
def wsP (s : List Char) : PRes Val :=
  por (pstr " ".toList s) (fun _ => pstr "\t".toList s)

/-- NEWLINE is a carriage return, line feed, or both. -/
def newlineP (s : List Char) : PRes Val :=
  por (pstr "\r\n".toList s) (fun _ =>
    por (pstr "\r".toList s) (fun _ => pstr "\n".toList s))

/-- EOF succeeds exactly at the end of the input. -/
def eofP (s : List Char) : PRes Val := pnot (pany s) s

/-- EOL is a newline or the end of the input. -/
def eolP (s : List Char) : PRes Val :=
  por (newlineP s) (fun _ => eofP s)

/-- DIGIT character class. -/
def digitP (s : List Char) : PRes Val := pcls Char.isDigit s

/-- Word is a maximal run free of newlines and whitespace, returned as its
matched text. -/
def wordP (fuel : Nat) (s : List Char) : PRes Val :=
  (pplusV fuel
    (fun t =>
      (pnot (newlineP t) t).bind fun n1 t1 =>
      (pnot (wsP t1) t1).bind fun n2 t2 =>
      (pany t2).bind fun c t3 => .ok (.vlist [n1, n2, c]) t3) s).bind
    fun _ r => .ok (.vstr (taken s r)) r

/-- URL character run (no newline, whitespace or square brackets). -/
def urlP (fuel : Nat) (s : List Char) : PRes Val :=
  (pplusV fuel
    (fun t =>
      (pnot (newlineP t) t).bind fun n1 t1 =>
      (pnot (wsP t1) t1).bind fun n2 t2 =>
      (pnot (pstr "[".toList t2) t2).bind fun n3 t3 =>
      (pnot (pstr "]".toList t3) t3).bind fun n4 t4 =>
      (pany t4).bind fun c t5 => .ok (.vlist [n1, n2, n3, n4, c]) t5) s).bind
    fun _ r => .ok (.vstr (taken s r)) r

/-- ID character run (additionally excludes the cross-reference brackets). -/
def idP (fuel : Nat) (s : List Char) : PRes Val :=
  (pplusV fuel
    (fun t =>
      (pnot (newlineP t) t).bind fun n1 t1 =>
      (pnot (wsP t1) t1).bind fun n2 t2 =>
      (pnot (pstr "[".toList t2) t2).bind fun n3 t3 =>
      (pnot (pstr "]".toList t3) t3).bind fun n4 t4 =>
      (pnot (pstr "<<".toList t4) t4).bind fun n5 t5 =>
      (pnot (pstr ">>".toList t5) t5).bind fun n6 t6 =>
      (pany t6).bind fun c t7 => .ok (.vlist [n1, n2, n3, n4, n5, n6, c]) t7) s).bind
    fun _ r => .ok (.vstr (taken s r)) r

/-- URL_TEXT character run (no newline or square brackets). -/
def urlTextP (fuel : Nat) (s : List Char) : PRes Val :=
  (pplusV fuel
    (fun t =>
      (pnot (newlineP t) t).bind fun n1 t1 =>
      (pnot (pstr "[".toList t1) t1).bind fun n2 t2 =>
      (pnot (pstr "]".toList t2) t2).bind fun n3 t3 =>
      (pany t3).bind fun c t4 => .ok (.vlist [n1, n2, n3, c]) t4) s).bind
    fun _ r => .ok (.vstr (taken s r)) r

/-- URL_SCHEME literals. -/
def urlSchemeP (s : List Char) : PRes Val :=
  por (pstr "http://".toList s) (fun _ =>
  por (pstr "https://".toList s) (fun _ =>
  por (pstr "ftp://".toList s) (fun _ =>
  por (pstr "irc://".toList s) (fun _ =>
  pstr "mailto:".toList s))))

-- ---------------------------------------------------------------------
-- Grammar rules: block delimiters and blank lines.
-- ---------------------------------------------------------------------

/-- LiteralBlockDelimiter literal. -/
def literalBlockDelimiterP (s : List Char) : PRes Val := pstr "....".toList s

/-- FencedBlockDelimiter literal. -/
def fencedBlockDelimiterP (s : List Char) : PRes Val := pstr "```".toList s

/-- ListingBlockDelimiter literal. -/
def listingBlockDelimiterP (s : List Char) : PRes Val := pstr "----".toList s

/-- ExampleBlockDelimiter literal. -/
def exampleBlockDelimiterP (s : List Char) : PRes Val := pstr "====".toList s

/-- CommentBlockDelimiter literal. -/
def commentBlockDelimiterP (s : List Char) : PRes Val := pstr "////".toList s

/-- VerseBlockDelimiter literal. -/
def verseBlockDelimiterP (s : List Char) : PRes Val := pstr "____".toList s

/-- BlockDelimiter is any of the six delimiter literals. -/
def blockDelimiterP (s : List Char) : PRes Val :=
  por (literalBlockDelimiterP s) (fun _ =>
  por (fencedBlockDelimiterP s) (fun _ =>
  por (listingBlockDelimiterP s) (fun _ =>
  por (exampleBlockDelimiterP s) (fun _ =>
  por (commentBlockDelimiterP s) (fun _ =>
  verseBlockDelimiterP s)))))

/-- BlankLine is whitespace up to an end of line, not at EOF. -/
def blankLineP (fuel : Nat) (s : List Char) : PRes Val :=
  (pnot (eofP s) s).bind fun _ s1 =>
  (pmany fuel wsP s1).bind fun _ s2 =>
  (eolP s2).bind fun _ s3 => .ok NewBlankLine s3

-- ---------------------------------------------------------------------
-- Grammar rules: document attributes and the TOC macro.
-- ---------------------------------------------------------------------

/-- AttributeName: a word character followed by word characters or
hyphens. -/
def attributeNameP (fuel : Nat) (s : List Char) : PRes Val :=
  (por (pcls Char.isUpper s) (fun _ =>
   por (pcls Char.isLower s) (fun _ =>
   por (pcls Char.isDigit s) (fun _ => pstr "_".toList s)))).bind fun v1 s1 =>
  (pstarV fuel
    (fun t =>
      por (pcls Char.isUpper t) (fun _ =>
      por (pcls Char.isLower t) (fun _ =>
      por (pcls Char.isDigit t) (fun _ => pstr "-".toList t)))) s1).bind fun v2 s2 =>
  .ok (.vlist [v1, v2]) s2

/-- DocumentAttributeDeclarationWithNameOnly. -/
def documentAttributeDeclarationWithNameOnlyP (fuel : Nat) (s : List Char) : PRes Val :=
  (pstr ":".toList s).bind fun _ s1 =>
  (attributeNameP fuel s1).bind fun name s2 =>
  (pstr ":".toList s2).bind fun _ s3 =>
  (pmany fuel wsP s3).bind fun _ s4 =>
  (eolP s4).bind fun _ s5 =>
  .ok (NewDocumentAttributeDeclaration (asList name) []) s5

/-- DocumentAttributeDeclarationWithNameAndValue. -/
def documentAttributeDeclarationWithNameAndValueP (fuel : Nat) (s : List Char) : PRes Val :=
  (pstr ":".toList s).bind fun _ s1 =>
  (attributeNameP fuel s1).bind fun name s2 =>
  (pstr ":".toList s2).bind fun _ s3 =>
  (pplusV fuel wsP s3).bind fun _ s4 =>
  (pstarV fuel
    (fun t =>
      (pnot (newlineP t) t).bind fun n1 t1 =>
      (pany t1).bind fun c t2 => .ok (.vlist [n1, c]) t2) s4).bind fun value s5 =>
  (eolP s5).bind fun _ s6 =>
  .ok (NewDocumentAttributeDeclaration (asList name) (asList value)) s6

/-- DocumentAttributeDeclaration ordered choice. -/
def documentAttributeDeclarationP (fuel : Nat) (s : List Char) : PRes Val :=
  por (documentAttributeDeclarationWithNameOnlyP fuel s) (fun _ =>
    documentAttributeDeclarationWithNameAndValueP fuel s)

/-- DocumentAttributeResetWithSectionTitleBangSymbol. -/
def documentAttributeResetWithSectionTitleBangSymbolP (fuel : Nat) (s : List Char) : PRes Val :=
  (pstr ":!".toList s).bind fun _ s1 =>
  (attributeNameP fuel s1).bind fun name s2 =>
  (pstr ":".toList s2).bind fun _ s3 =>
  (pmany fuel wsP s3).bind fun _ s4 =>
  (eolP s4).bind fun _ s5 =>
  .ok (NewDocumentAttributeReset (asList name)) s5

/-- DocumentAttributeResetWithTrailingBangSymbol. -/
def documentAttributeResetWithTrailingBangSymbolP (fuel : Nat) (s : List Char) : PRes Val :=
  (pstr ":".toList s).bind fun _ s1 =>
  (attributeNameP fuel s1).bind fun name s2 =>
  (pstr "!:".toList s2).bind fun _ s3 =>
  (pmany fuel wsP s3).bind fun _ s4 =>
  (eolP s4).bind fun _ s5 =>
  .ok (NewDocumentAttributeReset (asList name)) s5

/-- DocumentAttributeReset ordered choice. -/
def documentAttributeResetP (fuel : Nat) (s : List Char) : PRes Val :=
  por (documentAttributeResetWithSectionTitleBangSymbolP fuel s) (fun _ =>
    documentAttributeResetWithTrailingBangSymbolP fuel s)

/-- DocumentAttributeSubstitution: a name between braces. -/
def documentAttributeSubstitutionP (fuel : Nat) (s : List Char) : PRes Val :=
  (pstr ("\x7b".toList) s).bind fun _ s1 =>
  (attributeNameP fuel s1).bind fun name s2 =>
  (pstr ("\x7d".toList) s2).bind fun _ s3 =>
  .ok (NewDocumentAttributeSubstitution (asList name)) s3

/-- TableOfContentsMacro: the "toc" macro line (no action in the grammar,
so the value is the raw sequence collection). -/
def tableOfContentsMacroP (s : List Char) : PRes Val :=
  (pstr "toc::[]".toList s).bind fun v1 s1 =>
  (newlineP s1).bind fun v2 s2 =>
  .ok (.vlist [v1, v2]) s2

-- ---------------------------------------------------------------------
-- Grammar rules: element attributes.
-- ---------------------------------------------------------------------

/-- InlineElementID: an ID between double square brackets. -/
def inlineElementIDP (fuel : Nat) (s : List Char) : PRes Val :=
  (pstr "[[".toList s).bind fun _ s1 =>
  (idP fuel s1).bind fun id s2 =>
  (pstr "]]".toList s2).bind fun _ s3 =>
  .ok (NewElementID (asStr id)) s3

/-- ElementID: the inline form or the hash form. -/
def elementIDP (fuel : Nat) (s : List Char) : PRes Val :=
  por (inlineElementIDP fuel s) (fun _ =>
    (pstr "[#".toList s).bind fun _ s1 =>
    (idP fuel s1).bind fun id s2 =>
    (pstr "]".toList s2).bind fun _ s3 =>
    .ok (NewElementID (asStr id)) s3)

/-- ElementTitle: a single dot followed directly by the title text. -/
def elementTitleP (fuel : Nat) (s : List Char) : PRes Val :=
  (pstr ".".toList s).bind fun _ s1 =>
  (pnot (pstr ".".toList s1) s1).bind fun _ s2 =>
  (pnot (wsP s2) s2).bind fun _ s3 =>
  (pplusV fuel
    (fun t =>
      (pnot (newlineP t) t).bind fun n1 t1 =>
      (pany t1).bind fun c t2 => .ok (.vlist [n1, c]) t2) s3).bind fun title s4 =>
  .ok (NewElementTitle (asList title)) s4

/-- AdmonitionKind literals. -/
def admonitionKindP (s : List Char) : PRes Val :=
  por ((pstr "TIP".toList s).bind fun _ r => .ok (.vadmonition .tip) r) (fun _ =>
  por ((pstr "NOTE".toList s).bind fun _ r => .ok (.vadmonition .note) r) (fun _ =>
  por ((pstr "IMPORTANT".toList s).bind fun _ r => .ok (.vadmonition .important) r) (fun _ =>
  por ((pstr "WARNING".toList s).bind fun _ r => .ok (.vadmonition .warning) r) (fun _ =>
  (pstr "CAUTION".toList s).bind fun _ r => .ok (.vadmonition .caution) r))))

/-- AdmonitionMarkerAttribute: an admonition kind between brackets. -/
def admonitionMarkerAttributeP (s : List Char) : PRes Val :=
  (pstr "[".toList s).bind fun _ s1 =>
  (admonitionKindP s1).bind fun k s2 =>
  (pstr "]".toList s2).bind fun _ s3 =>
  match k with
  | .vadmonition kd => .ok (NewAdmonitionAttribute kd) s3
  | _ => .fail

/-- AttributeKey: a run free of whitespace, equals, comma and closing
bracket, followed by optional whitespace. -/
def attributeKeyP (fuel : Nat) (s : List Char) : PRes Val :=
  (pplusV fuel
    (fun t =>
      (pnot (wsP t) t).bind fun n1 t1 =>
      (pnot (pstr "=".toList t1) t1).bind fun n2 t2 =>
      (pnot (pstr ",".toList t2) t2).bind fun n3 t3 =>
      (pnot (pstr "]".toList t3) t3).bind fun n4 t4 =>
      (pany t4).bind fun c t5 => .ok (.vlist [n1, n2, n3, n4, c]) t5) s).bind fun key s1 =>
  (pmany fuel wsP s1).bind fun _ s2 =>
  .ok key s2

/-- AttributeValue: optional whitespace around a run free of whitespace,
equals and closing bracket. -/
def attributeValueP (fuel : Nat) (s : List Char) : PRes Val :=
  (pmany fuel wsP s).bind fun _ s1 =>
  (pstarV fuel
    (fun t =>
      (pnot (wsP t) t).bind fun n1 t1 =>
      (pnot (pstr "=".toList t1) t1).bind fun n2 t2 =>
      (pnot (pstr "]".toList t2) t2).bind fun n3 t3 =>
      (pany t3).bind fun c t4 => .ok (.vlist [n1, n2, n3, c]) t4) s1).bind fun value s2 =>
  (pmany fuel wsP s2).bind fun _ s3 =>
  .ok value s3

/-- GenericAttribute: `key=value` or a bare key. -/
def genericAttributeP (fuel : Nat) (s : List Char) : PRes Val :=
  por
    ((attributeKeyP fuel s).bind fun key s1 =>
     (pstr "=".toList s1).bind fun _ s2 =>
     (attributeValueP fuel s2).bind fun value s3 =>
     .ok (NewGenericAttribute (asList key) (some (asList value))) s3)
    (fun _ =>
      (attributeKeyP fuel s).bind fun key s1 =>
      .ok (NewGenericAttribute (asList key) none) s1)

/-- OtherGenericAttribute: a comma then a generic attribute. -/
def otherGenericAttributeP (fuel : Nat) (s : List Char) : PRes Val :=
  por
    ((pstr ",".toList s).bind fun _ s1 =>
     (pmany fuel wsP s1).bind fun _ s2 =>
     (attributeKeyP fuel s2).bind fun key s3 =>
     (pstr "=".toList s3).bind fun _ s4 =>
     (attributeValueP fuel s4).bind fun value s5 =>
     .ok (NewGenericAttribute (asList key) (some (asList value))) s5)
    (fun _ =>
      (pstr ",".toList s).bind fun _ s1 =>
      (pmany fuel wsP s1).bind fun _ s2 =>
      (attributeKeyP fuel s2).bind fun key s3 =>
      .ok (NewGenericAttribute (asList key) none) s3)

/-- AttributeGroup: one or more attributes between brackets. -/
def attributeGroupP (fuel : Nat) (s : List Char) : PRes Val :=
  (pstr "[".toList s).bind fun _ s1 =>
  (genericAttributeP fuel s1).bind fun attr0 s2 =>
  (pmany fuel (fun t => otherGenericAttributeP fuel t) s2).bind fun attrs s3 =>
  (pstr "]".toList s3).bind fun _ s4 =>
  .ok (NewAttributeGroup (attr0 :: attrs)) s4

/-- HorizontalLayout literal. -/
def horizontalLayoutP (s : List Char) : PRes Val :=
  (pstr "[horizontal]".toList s).bind fun _ r =>
  .ok (.vmap [("layout".toList, .vstr "horizontal".toList)]) r

/-- VerseAuthor: a run free of end of line, comma and closing bracket. -/
def verseAuthorP (fuel : Nat) (s : List Char) : PRes Val :=
  (pstarV fuel
    (fun t =>
      (pnot (eolP t) t).bind fun n1 t1 =>
      (pnot (pstr ",".toList t1) t1).bind fun n2 t2 =>
      (pnot (pstr "]".toList t2) t2).bind fun n3 t3 =>
      (pany t3).bind fun c t4 => .ok (.vlist [n1, n2, n3, c]) t4) s).bind fun _ r =>
  .ok (.vstr (taken s r)) r

/-- VerseTitle: same character run as the author. -/
def verseTitleP (fuel : Nat) (s : List Char) : PRes Val :=
  verseAuthorP fuel s

/-- VerseAttributes: author and title, author only, or neither. -/
def verseAttributesP (fuel : Nat) (s : List Char) : PRes Val :=
  por
    ((pstr "[verse".toList s).bind fun _ s1 =>
     (pmany fuel wsP s1).bind fun _ s2 =>
     (pstr ",".toList s2).bind fun _ s3 =>
     (verseAuthorP fuel s3).bind fun author s4 =>
     (pstr ",".toList s4).bind fun _ s5 =>
     (verseTitleP fuel s5).bind fun title s6 =>
     (pstr "]".toList s6).bind fun _ s7 =>
     .ok (NewVerseAttributes (asStr author) (asStr title)) s7)
    (fun _ => por
      ((pstr "[verse".toList s).bind fun _ s1 =>
       (pmany fuel wsP s1).bind fun _ s2 =>
       (pstr ",".toList s2).bind fun _ s3 =>
       (verseAuthorP fuel s3).bind fun author s4 =>
       (pstr "]".toList s4).bind fun _ s5 =>
       .ok (NewVerseAttributes (asStr author) []) s5)
      (fun _ =>
        (pstr "[verse".toList s).bind fun _ s1 =>
        (pmany fuel wsP s1).bind fun _ s2 =>
        (pstr "]".toList s2).bind fun _ s3 =>
        .ok (NewVerseAttributes [] []) s3))

/-- ElementAttribute: one attribute line. -/
def elementAttributeP (fuel : Nat) (s : List Char) : PRes Val :=
  (por (elementIDP fuel s) (fun _ =>
   por (elementTitleP fuel s) (fun _ =>
   por (admonitionMarkerAttributeP s) (fun _ =>
   por (horizontalLayoutP s) (fun _ =>
   attributeGroupP fuel s))))).bind fun attr s1 =>
  (pmany fuel wsP s1).bind fun _ s2 =>
  (eolP s2).bind fun _ s3 =>
  .ok attr s3

/-- MasqueradeAttribute: a verse attribute line. -/
def masqueradeAttributeP (fuel : Nat) (s : List Char) : PRes Val :=
  (verseAttributesP fuel s).bind fun attr s1 =>
  (pmany fuel wsP s1).bind fun _ s2 =>
  (eolP s2).bind fun _ s3 =>
  .ok attr s3

-- ---------------------------------------------------------------------
-- Grammar rules: quoted text and the other inline elements.
-- ---------------------------------------------------------------------

/-- QuotedTextWord: a run without whitespace or quote punctuation (no
action in the grammar, so the value is the collected sequence). -/
def quotedTextWordP (fuel : Nat) (s : List Char) : PRes Val :=
  pplusV fuel
    (fun t =>
      (pnot (newlineP t) t).bind fun n1 t1 =>
      (pnot (wsP t1) t1).bind fun n2 t2 =>
      (pnot (pstr "*".toList t2) t2).bind fun n3 t3 =>
      (pnot (pstr "_".toList t3) t3).bind fun n4 t4 =>
      (pnot (pstr "`".toList t4) t4).bind fun n5 t5 =>
      (pany t5).bind fun c t6 => .ok (.vlist [n1, n2, n3, n4, n5, c]) t6) s

/-- WordWithQuotePunctuation: any non-whitespace run, as matched text. -/
def wordWithQuotePunctuationP (fuel : Nat) (s : List Char) : PRes Val :=
  (pplusV fuel
    (fun t =>
      (pnot (newlineP t) t).bind fun n1 t1 =>
      (pnot (wsP t1) t1).bind fun n2 t2 =>
      (pany t2).bind fun c t3 => .ok (.vlist [n1, n2, c]) t3) s).bind fun _ r =>
  .ok (.vstr (taken s r)) r

mutual

/-- QuotedText: bold, italic and monospace, then their escaped forms. -/
def quotedTextP (fuel : Nat) (s : List Char) : PRes Val :=
  match fuel with
  | 0 => .nofuel
  | f + 1 =>
    por (boldTextP f s) (fun _ =>
    por (italicTextP f s) (fun _ =>
    por (monospaceTextP f s) (fun _ =>
    por (escapedBoldTextP f s) (fun _ =>
    por (escapedItalicTextP f s) (fun _ =>
    escapedMonospaceTextP f s)))))

/-- BoldText: double punctuation first, the unbalanced form, then single. -/
def boldTextP (fuel : Nat) (s : List Char) : PRes Val :=
  match fuel with
  | 0 => .nofuel
  | f + 1 =>
    por
      ((pnot (pstr "\\\\".toList s) s).bind fun _ s0 =>
       (pstr "**".toList s0).bind fun _ s1 =>
       (quotedTextContentP f s1).bind fun content s2 =>
       (pstr "**".toList s2).bind fun _ s3 =>
       .ok (NewQuotedText .bold (asList content)) s3)
      (fun _ => por
        ((pnot (pstr "\\\\".toList s) s).bind fun _ s0 =>
         (pstr "**".toList s0).bind fun _ s1 =>
         (quotedTextContentP f s1).bind fun content s2 =>
         (pstr "*".toList s2).bind fun _ s3 =>
         .ok (NewQuotedText .bold [.vstr "*".toList, .vlist (asList content)]) s3)
        (fun _ =>
          (pnot (pstr "\\".toList s) s).bind fun _ s0 =>
          (pstr "*".toList s0).bind fun _ s1 =>
          (quotedTextContentP f s1).bind fun content s2 =>
          (pstr "*".toList s2).bind fun _ s3 =>
          .ok (NewQuotedText .bold (asList content)) s3))

/-- EscapedBoldText: leading backslashes then bold punctuation. -/
def escapedBoldTextP (fuel : Nat) (s : List Char) : PRes Val :=
  match fuel with
  | 0 => .nofuel
  | f + 1 =>
    por
      ((pstr "\\\\".toList s).bind fun b1 s0 =>
       (pstarV f (fun t => pstr "\\".toList t) s0).bind fun b2 s1 =>
       (pstr "**".toList s1).bind fun _ s2 =>
       (quotedTextContentP f s2).bind fun content s3 =>
       (pstr "**".toList s3).bind fun _ s4 =>
       .ok (NewEscapedQuotedText [b1, b2] "**".toList (asList content)) s4)
      (fun _ => por
        ((pstr "\\".toList s).bind fun b1 s0 =>
         (pstarV f (fun t => pstr "\\".toList t) s0).bind fun b2 s1 =>
         (pstr "**".toList s1).bind fun _ s2 =>
         (quotedTextContentP f s2).bind fun content s3 =>
         (pstr "*".toList s3).bind fun _ s4 =>
         .ok (NewEscapedQuotedText [b1, b2] "*".toList
               [.vstr "*".toList, .vlist (asList content)]) s4)
        (fun _ =>
          (pstr "\\".toList s).bind fun b1 s0 =>
          (pstarV f (fun t => pstr "\\".toList t) s0).bind fun b2 s1 =>
          (pstr "*".toList s1).bind fun _ s2 =>
          (quotedTextContentP f s2).bind fun content s3 =>
          (pstr "*".toList s3).bind fun _ s4 =>
          .ok (NewEscapedQuotedText [b1, b2] "*".toList (asList content)) s4))

/-- ItalicText (same structure as bold, with underscores). -/
def italicTextP (fuel : Nat) (s : List Char) : PRes Val :=
  match fuel with
  | 0 => .nofuel
  | f + 1 =>
    por
      ((pnot (pstr "\\\\".toList s) s).bind fun _ s0 =>
       (pstr "__".toList s0).bind fun _ s1 =>
       (quotedTextContentP f s1).bind fun content s2 =>
       (pstr "__".toList s2).bind fun _ s3 =>
       .ok (NewQuotedText .italic (asList content)) s3)
      (fun _ => por
        ((pnot (pstr "\\\\".toList s) s).bind fun _ s0 =>
         (pstr "__".toList s0).bind fun _ s1 =>
         (quotedTextContentP f s1).bind fun content s2 =>
         (pstr "_".toList s2).bind fun _ s3 =>
         .ok (NewQuotedText .italic [.vstr "_".toList, .vlist (asList content)]) s3)
        (fun _ =>
          (pnot (pstr "\\".toList s) s).bind fun _ s0 =>
          (pstr "_".toList s0).bind fun _ s1 =>
          (quotedTextContentP f s1).bind fun content s2 =>
          (pstr "_".toList s2).bind fun _ s3 =>
          .ok (NewQuotedText .italic (asList content)) s3))

/-- EscapedItalicText. -/
def escapedItalicTextP (fuel : Nat) (s : List Char) : PRes Val :=
  match fuel with
  | 0 => .nofuel
  | f + 1 =>
    por
      ((pstr "\\\\".toList s).bind fun b1 s0 =>
       (pstarV f (fun t => pstr "\\".toList t) s0).bind fun b2 s1 =>
       (pstr "__".toList s1).bind fun _ s2 =>
       (quotedTextContentP f s2).bind fun content s3 =>
       (pstr "__".toList s3).bind fun _ s4 =>
       .ok (NewEscapedQuotedText [b1, b2] "__".toList (asList content)) s4)
      (fun _ => por
        ((pstr "\\".toList s).bind fun b1 s0 =>
         (pstarV f (fun t => pstr "\\".toList t) s0).bind fun b2 s1 =>
         (pstr "__".toList s1).bind fun _ s2 =>
         (quotedTextContentP f s2).bind fun content s3 =>
         (pstr "_".toList s3).bind fun _ s4 =>
         .ok (NewEscapedQuotedText [b1, b2] "_".toList
               [.vstr "_".toList, .vlist (asList content)]) s4)
        (fun _ =>
          (pstr "\\".toList s).bind fun b1 s0 =>
          (pstarV f (fun t => pstr "\\".toList t) s0).bind fun b2 s1 =>
          (pstr "_".toList s1).bind fun _ s2 =>
          (quotedTextContentP f s2).bind fun content s3 =>
          (pstr "_".toList s3).bind fun _ s4 =>
          .ok (NewEscapedQuotedText [b1, b2] "_".toList (asList content)) s4))

/-- MonospaceText (same structure, with backquotes). -/
def monospaceTextP (fuel : Nat) (s : List Char) : PRes Val :=
  match fuel with
  | 0 => .nofuel
  | f + 1 =>
    por
      ((pnot (pstr "\\\\".toList s) s).bind fun _ s0 =>
       (pstr "``".toList s0).bind fun _ s1 =>
       (quotedTextContentP f s1).bind fun content s2 =>
       (pstr "``".toList s2).bind fun _ s3 =>
       .ok (NewQuotedText .monospace (asList content)) s3)
      (fun _ => por
        ((pnot (pstr "\\\\".toList s) s).bind fun _ s0 =>
         (pstr "``".toList s0).bind fun _ s1 =>
         (quotedTextContentP f s1).bind fun content s2 =>
         (pstr "`".toList s2).bind fun _ s3 =>
         .ok (NewQuotedText .monospace [.vstr "`".toList, .vlist (asList content)]) s3)
        (fun _ =>
          (pnot (pstr "\\".toList s) s).bind fun _ s0 =>
          (pstr "`".toList s0).bind fun _ s1 =>
          (quotedTextContentP f s1).bind fun content s2 =>
          (pstr "`".toList s2).bind fun _ s3 =>
          .ok (NewQuotedText .monospace (asList content)) s3))

/-- EscapedMonospaceText. -/
def escapedMonospaceTextP (fuel : Nat) (s : List Char) : PRes Val :=
  match fuel with
  | 0 => .nofuel
  | f + 1 =>
    por
      ((pstr "\\\\".toList s).bind fun b1 s0 =>
       (pstarV f (fun t => pstr "\\".toList t) s0).bind fun b2 s1 =>
       (pstr "``".toList s1).bind fun _ s2 =>
       (quotedTextContentP f s2).bind fun content s3 =>
       (pstr "``".toList s3).bind fun _ s4 =>
       .ok (NewEscapedQuotedText [b1, b2] "``".toList (asList content)) s4)
      (fun _ => por
        ((pstr "\\".toList s).bind fun b1 s0 =>
         (pstarV f (fun t => pstr "\\".toList t) s0).bind fun b2 s1 =>
         (pstr "``".toList s1).bind fun _ s2 =>
         (quotedTextContentP f s2).bind fun content s3 =>
         (pstr "`".toList s3).bind fun _ s4 =>
         .ok (NewEscapedQuotedText [b1, b2] "`".toList
               [.vstr "`".toList, .vlist (asList content)]) s4)
        (fun _ =>
          (pstr "\\".toList s).bind fun b1 s0 =>
          (pstarV f (fun t => pstr "\\".toList t) s0).bind fun b2 s1 =>
          (pstr "`".toList s1).bind fun _ s2 =>
          (quotedTextContentP f s2).bind fun content s3 =>
          (pstr "`".toList s3).bind fun _ s4 =>
          .ok (NewEscapedQuotedText [b1, b2] "`".toList (asList content)) s4))

/-- QuotedTextContent: one content element then whitespace-separated
further elements (no action: raw sequence collection). -/
def quotedTextContentP (fuel : Nat) (s : List Char) : PRes Val :=
  match fuel with
  | 0 => .nofuel
  | f + 1 =>
    (quotedTextContentElementP f s).bind fun e1 s1 =>
    (pstarV f
      (fun t =>
        (pplusV f wsP t).bind fun ws t1 =>
        (quotedTextContentElementP f t1).bind fun e t2 =>
        .ok (.vlist [ws, e]) t2) s1).bind fun starv s2 =>
    .ok (.vlist [e1, starv]) s2

/-- QuotedTextContentElement: quoted text, a clean word, then the
word-with-punctuation fallback. -/
def quotedTextContentElementP (fuel : Nat) (s : List Char) : PRes Val :=
  match fuel with
  | 0 => .nofuel
  | f + 1 =>
    por (quotedTextP f s) (fun _ =>
    por (quotedTextWordP f s) (fun _ =>
    wordWithQuotePunctuationP f s))

end

/-- SinglePlusPassthrough. -/
def singlePlusPassthroughP (fuel : Nat) (s : List Char) : PRes Val :=
  (pstr "+".toList s).bind fun _ s1 =>
  (pstarV fuel
    (fun t =>
      (pnot (newlineP t) t).bind fun n1 t1 =>
      (pnot (pstr "+".toList t1) t1).bind fun n2 t2 =>
      (pany t2).bind fun c t3 => .ok (.vlist [n1, n2, c]) t3) s1).bind fun content s2 =>
  (pstr "+".toList s2).bind fun _ s3 =>
  .ok (NewPassthrough .singlePlusPassthrough (asList content)) s3

/-- TriplePlusPassthrough. -/
def triplePlusPassthroughP (fuel : Nat) (s : List Char) : PRes Val :=
  (pstr "+++".toList s).bind fun _ s1 =>
  (pstarV fuel
    (fun t =>
      (pnot (pstr "+++".toList t) t).bind fun n1 t1 =>
      (pany t1).bind fun c t2 => .ok (.vlist [n1, c]) t2) s1).bind fun content s2 =>
  (pstr "+++".toList s2).bind fun _ s3 =>
  .ok (NewPassthrough .triplePlusPassthrough (asList content)) s3

/-- PassthroughMacroCharacter: any character but the closing bracket. -/
def passthroughMacroCharacterP (s : List Char) : PRes Val :=
  (pnot (pstr "]".toList s) s).bind fun n1 s1 =>
  (pany s1).bind fun c s2 => .ok (.vlist [n1, c]) s2

/-- PassthroughMacro: the literal and the quoted-text-enabled forms. -/
def passthroughMacroP (fuel : Nat) (s : List Char) : PRes Val :=
  por
    ((pstr "pass:[".toList s).bind fun _ s1 =>
     (pstarV fuel passthroughMacroCharacterP s1).bind fun content s2 =>
     (pstr "]".toList s2).bind fun _ s3 =>
     .ok (NewPassthrough .passthroughMacro (asList content)) s3)
    (fun _ =>
      (pstr "pass:q[".toList s).bind fun _ s1 =>
      (pstarV fuel
        (fun t => por (quotedTextP fuel t) (fun _ => passthroughMacroCharacterP t))
        s1).bind fun content s2 =>
      (pstr "]".toList s2).bind fun _ s3 =>
      .ok (NewPassthrough .passthroughMacro (asList content)) s3)

/-- Passthrough: triple plus, single plus, then the macro forms. -/
def passthroughP (fuel : Nat) (s : List Char) : PRes Val :=
  por (triplePlusPassthroughP fuel s) (fun _ =>
  por (singlePlusPassthroughP fuel s) (fun _ =>
  passthroughMacroP fuel s))

/-- CrossReference: an ID between double angle brackets. -/
def crossReferenceP (fuel : Nat) (s : List Char) : PRes Val :=
  (pstr "<<".toList s).bind fun _ s1 =>
  (idP fuel s1).bind fun id s2 =>
  (pstr ">>".toList s2).bind fun _ s3 =>
  .ok (NewCrossReference (asStr id)) s3

/-- LinkTextAttribute: the positional text of a link. -/
def linkTextAttributeP (fuel : Nat) (s : List Char) : PRes Val :=
  pplusV fuel
    (fun t =>
      (pnot (pstr ",".toList t) t).bind fun n1 t1 =>
      (pnot (pstr "]".toList t1) t1).bind fun n2 t2 =>
      (pany t2).bind fun c t3 => .ok (.vlist [n1, n2, c]) t3) s

/-- LinkAttributes: bracketed positional text and generic attributes. -/
def linkAttributesP (fuel : Nat) (s : List Char) : PRes Val :=
  por
    ((pstr "[".toList s).bind fun _ s1 =>
     (linkTextAttributeP fuel s1).bind fun text s2 =>
     (pmany fuel (fun t => otherGenericAttributeP fuel t) s2).bind fun otherAttrs s3 =>
     (pstr "]".toList s3).bind fun _ s4 =>
     .ok (.vmap (NewLinkAttributes (some (asList text)) otherAttrs)) s4)
    (fun _ =>
      (pstr "[".toList s).bind fun _ s1 =>
      (pmany fuel (fun t => otherGenericAttributeP fuel t) s1).bind fun otherAttrs s2 =>
      (pstr "]".toList s2).bind fun _ s3 =>
      .ok (.vmap (NewLinkAttributes none otherAttrs)) s3)

/-- ExternalLink: scheme and URL, with optional bracketed attributes. -/
def externalLinkP (fuel : Nat) (s : List Char) : PRes Val :=
  por
    ((urlSchemeP s).bind fun scheme s1 =>
     (urlP fuel s1).bind fun url s2 =>
     (linkAttributesP fuel s2).bind fun attrs s3 =>
     .ok (NewLink [scheme, url] (some (asMap attrs))) s3)
    (fun _ =>
      (urlSchemeP s).bind fun scheme s1 =>
      (urlP fuel s1).bind fun url s2 =>
      .ok (NewLink [scheme, url] none) s2)

/-- RelativeLink: the `link:` form (brackets mandatory). -/
def relativeLinkP (fuel : Nat) (s : List Char) : PRes Val :=
  (pstr "link:".toList s).bind fun _ s1 =>
  (popt (urlSchemeP s1) s1).bind fun scheme s2 =>
  (urlP fuel s2).bind fun url s3 =>
  (linkAttributesP fuel s3).bind fun attrs s4 =>
  .ok (NewLink [scheme, url] (some (asMap attrs))) s4

/-- Link: relative before external. -/
def linkP (fuel : Nat) (s : List Char) : PRes Val :=
  por (relativeLinkP fuel s) (fun _ => externalLinkP fuel s)

/-- ImageAltAttribute. -/
def imageAltAttributeP (fuel : Nat) (s : List Char) : PRes Val :=
  pplusV fuel
    (fun t =>
      (pnot (pstr ",".toList t) t).bind fun n1 t1 =>
      (pnot (pstr "]".toList t1) t1).bind fun n2 t2 =>
      (pany t2).bind fun c t3 => .ok (.vlist [n1, n2, c]) t3) s

/-- ImageWidthAttribute: a comma then the value. -/
def imageWidthAttributeP (fuel : Nat) (s : List Char) : PRes Val :=
  (pstr ",".toList s).bind fun _ s1 =>
  imageAltAttributeP fuel s1

/-- ImageHeightAttribute: a comma then the value. -/
def imageHeightAttributeP (fuel : Nat) (s : List Char) : PRes Val :=
  (pstr ",".toList s).bind fun _ s1 =>
  imageAltAttributeP fuel s1

/-- ImageAttributes: up to three positional attributes then generics. -/
def imageAttributesP (fuel : Nat) (s : List Char) : PRes Val :=
  por
    ((pstr "[".toList s).bind fun _ s1 =>
     (imageAltAttributeP fuel s1).bind fun alt s2 =>
     (imageWidthAttributeP fuel s2).bind fun width s3 =>
     (imageHeightAttributeP fuel s3).bind fun height s4 =>
     (pmany fuel (fun t => otherGenericAttributeP fuel t) s4).bind fun otherAttrs s5 =>
     (pstr "]".toList s5).bind fun _ s6 =>
     .ok (.vmap (NewImageAttributes (some (asList alt)) (some (asList width))
           (some (asList height)) otherAttrs)) s6)
    (fun _ => por
      ((pstr "[".toList s).bind fun _ s1 =>
       (imageAltAttributeP fuel s1).bind fun alt s2 =>
       (imageWidthAttributeP fuel s2).bind fun width s3 =>
       (pmany fuel (fun t => otherGenericAttributeP fuel t) s3).bind fun otherAttrs s4 =>
       (pstr "]".toList s4).bind fun _ s5 =>
       .ok (.vmap (NewImageAttributes (some (asList alt)) (some (asList width))
             none otherAttrs)) s5)
      (fun _ => por
        ((pstr "[".toList s).bind fun _ s1 =>
         (imageAltAttributeP fuel s1).bind fun alt s2 =>
         (pmany fuel (fun t => otherGenericAttributeP fuel t) s2).bind fun otherAttrs s3 =>
         (pstr "]".toList s3).bind fun _ s4 =>
         .ok (.vmap (NewImageAttributes (some (asList alt)) none none otherAttrs)) s4)
        (fun _ =>
          (pstr "[".toList s).bind fun _ s1 =>
          (pmany fuel (fun t => otherGenericAttributeP fuel t) s1).bind fun otherAttrs s2 =>
          (pstr "]".toList s2).bind fun _ s3 =>
          .ok (.vmap (NewImageAttributes none none none otherAttrs)) s3)))

/-- InlineImageMacro: `image:` (not `image::`), a path and attributes. -/
def inlineImageMacroP (fuel : Nat) (s : List Char) : PRes Val :=
  (pstr "image:".toList s).bind fun _ s1 =>
  (pnot (pstr ":".toList s1) s1).bind fun _ s2 =>
  (urlP fuel s2).bind fun path s3 =>
  (imageAttributesP fuel s3).bind fun attrs s4 =>
  .ok (NewImageMacro (asStr path) (asMap attrs)) s4

/-- InlineImage wraps the macro. -/
def inlineImageP (fuel : Nat) (s : List Char) : PRes Val :=
  (inlineImageMacroP fuel s).bind fun image r =>
  .ok (NewInlineImage image) r

/-- BlockImageMacro: `image::`, a path and attributes. -/
def blockImageMacroP (fuel : Nat) (s : List Char) : PRes Val :=
  (pstr "image::".toList s).bind fun _ s1 =>
  (urlP fuel s1).bind fun path s2 =>
  (imageAttributesP fuel s2).bind fun attrs s3 =>
  .ok (NewImageMacro (asStr path) (asMap attrs)) s3

/-- BlockImage: attribute lines, the macro, then the end of the line. -/
def blockImageP (fuel : Nat) (s : List Char) : PRes Val :=
  (pmany fuel (fun t => elementAttributeP fuel t) s).bind fun attributes s1 =>
  (blockImageMacroP fuel s1).bind fun image s2 =>
  (pmany fuel wsP s2).bind fun _ s3 =>
  (eolP s3).bind fun _ s4 =>
  .ok (NewBlockImage image attributes) s4

/-- SingleLineComment: `//` to the end of the line. -/
def singleLineCommentP (fuel : Nat) (s : List Char) : PRes Val :=
  (pnot (commentBlockDelimiterP s) s).bind fun _ s0 =>
  (pstr "//".toList s0).bind fun _ s1 =>
  (pstarV fuel
    (fun t =>
      (pnot (eolP t) t).bind fun n1 t1 =>
      (pany t1).bind fun c t2 => .ok (.vlist [n1, c]) t2) s1).bind fun content s2 =>
  (eolP s2).bind fun _ s3 =>
  .ok (NewSingleLineComment (asList content)) s3

/-- InlineElement ordered choice. -/
def inlineElementP (fuel : Nat) (s : List Char) : PRes Val :=
  por (crossReferenceP fuel s) (fun _ =>
  por (passthroughP fuel s) (fun _ =>
  por (inlineImageP fuel s) (fun _ =>
  por (quotedTextP fuel s) (fun _ =>
  por (linkP fuel s) (fun _ =>
  por (documentAttributeSubstitutionP fuel s) (fun _ =>
  wordP fuel s))))))

/-- InlineElements: a single-line comment, or the inline elements of one
logical line bounded by the end of the line. -/
def inlineElementsP (fuel : Nat) (s : List Char) : PRes Val :=
  por
    ((singleLineCommentP fuel s).bind fun comment r =>
     .ok (NewInlineElements (.vlist [comment])) r)
    (fun _ =>
      (pnot (eofP s) s).bind fun _ s0 =>
      (pnot (blockDelimiterP s0) s0).bind fun _ s1 =>
      (pplusV fuel
        (fun t =>
          (pnot (eolP t) t).bind fun n1 t1 =>
          (pstarV fuel wsP t1).bind fun ws1 t2 =>
          (pnot (inlineElementIDP fuel t2) t2).bind fun n2 t3 =>
          (inlineElementP fuel t3).bind fun e t4 =>
          (pstarV fuel wsP t4).bind fun ws2 t5 =>
          .ok (.vlist [n1, ws1, n2, e, ws2]) t5) s1).bind fun elements s2 =>
      (eolP s2).bind fun _ s3 =>
      .ok (NewInlineElements elements) s3)

/-- TitleElement ordered choice (same alternatives as InlineElement). -/
def titleElementP (fuel : Nat) (s : List Char) : PRes Val :=
  por (crossReferenceP fuel s) (fun _ =>
  por (passthroughP fuel s) (fun _ =>
  por (inlineImageP fuel s) (fun _ =>
  por (quotedTextP fuel s) (fun _ =>
  por (linkP fuel s) (fun _ =>
  por (documentAttributeSubstitutionP fuel s) (fun _ =>
  wordP fuel s))))))

/-- TitleElements: the inline elements of a section title. -/
def titleElementsP (fuel : Nat) (s : List Char) : PRes Val :=
  (pplusV fuel
    (fun t =>
      (pnot (newlineP t) t).bind fun n1 t1 =>
      (pstarV fuel wsP t1).bind fun ws1 t2 =>
      (pnot (inlineElementIDP fuel t2) t2).bind fun n2 t3 =>
      (titleElementP fuel t3).bind fun e t4 =>
      (pstarV fuel wsP t4).bind fun ws2 t5 =>
      .ok (.vlist [n1, ws1, n2, e, ws2]) t5) s).bind fun elements r =>
  .ok (NewInlineElements elements) r

-- ---------------------------------------------------------------------
-- Grammar rules: paragraphs.
-- ---------------------------------------------------------------------

/-- ParagraphAttribute: masquerade attributes are tried first. -/
def paragraphAttributeP (fuel : Nat) (s : List Char) : PRes Val :=
  por (masqueradeAttributeP fuel s) (fun _ => elementAttributeP fuel s)

/-- The negative guard at the start of a paragraph: a section title prefix
`("=")+ WS+ !NEWLINE`. -/
def sectionSeqGuardP (fuel : Nat) (s : List Char) : PRes Val :=
  (pplusV fuel (fun t => pstr "=".toList t) s).bind fun _ s1 =>
  (pplusV fuel wsP s1).bind fun _ s2 =>
  (pnot (newlineP s2) s2).bind fun _ s3 =>
  .ok .vnil s3

/-- Paragraph: an admonition paragraph, or a plain paragraph of one or
more lines of inline elements.  The section-prefix guard applies at the
start of the paragraph only. -/
def paragraphP (fuel : Nat) (s : List Char) : PRes Val :=
  por
    ((pmany fuel (fun t => paragraphAttributeP fuel t) s).bind fun attrs s1 =>
     (pnot (sectionSeqGuardP fuel s1) s1).bind fun _ s2 =>
     (admonitionKindP s2).bind fun k s3 =>
     (pstr ": ".toList s3).bind fun _ s4 =>
     (pplusV fuel (fun t => inlineElementsP fuel t) s4).bind fun lines s5 =>
     match k with
     | .vadmonition kd => .ok (NewAdmonitionParagraph (asList lines) kd attrs) s5
     | _ => .fail)
    (fun _ =>
      (pmany fuel (fun t => paragraphAttributeP fuel t) s).bind fun attrs s1 =>
      (pnot (sectionSeqGuardP fuel s1) s1).bind fun _ s2 =>
      (pplusV fuel (fun t => inlineElementsP fuel t) s2).bind fun lines s3 =>
      .ok (NewParagraph (asList lines) attrs) s3)

-- ---------------------------------------------------------------------
-- Grammar rules: literal blocks.
-- ---------------------------------------------------------------------

/-- LiteralBlockContent: characters up to a newline-then-blank-line. -/
def literalBlockContentP (fuel : Nat) (s : List Char) : PRes Val :=
  pplusV fuel
    (fun t =>
      (pnot ((newlineP t).bind fun _ t1 => blankLineP fuel t1) t).bind fun n1 t1 =>
      (pany t1).bind fun c t2 => .ok (.vlist [n1, c]) t2) s

/-- EndOfLiteralBlock: a blank line or the end of the input. -/
def endOfLiteralBlockP (fuel : Nat) (s : List Char) : PRes Val :=
  por
    ((newlineP s).bind fun v1 s1 =>
     (blankLineP fuel s1).bind fun v2 s2 => .ok (.vlist [v1, v2]) s2)
    (fun _ => por (newlineP s) (fun _ => eofP s))

/-- ParagraphWithSpaces: a literal block introduced by leading spaces. -/
def paragraphWithSpacesP (fuel : Nat) (s : List Char) : PRes Val :=
  (pplusV fuel wsP s).bind fun spaces s1 =>
  (pnot (newlineP s1) s1).bind fun _ s2 =>
  (literalBlockContentP fuel s2).bind fun content s3 =>
  (endOfLiteralBlockP fuel s3).bind fun _ s4 =>
  .ok (NewLiteralBlock (asList spaces) (asList content)) s4

/-- ParagraphWithLiteralBlockDelimiter: a literal block between `....`
delimiter lines (EOF closes an unclosed block). -/
def paragraphWithLiteralBlockDelimiterP (fuel : Nat) (s : List Char) : PRes Val :=
  (literalBlockDelimiterP s).bind fun _ s1 =>
  (pmany fuel wsP s1).bind fun _ s2 =>
  (newlineP s2).bind fun _ s3 =>
  (pstarV fuel
    (fun t =>
      (pnot (literalBlockDelimiterP t) t).bind fun n1 t1 =>
      (pany t1).bind fun c t2 => .ok (.vlist [n1, c]) t2) s3).bind fun content s4 =>
  (por
    ((literalBlockDelimiterP s4).bind fun _ u1 =>
     (pmany fuel wsP u1).bind fun _ u2 => eolP u2)
    (fun _ => eofP s4)).bind fun _ s5 =>
  .ok (NewLiteralBlock [] (asList content)) s5

/-- ParagraphWithLiteralAttribute: content following a `[literal]` line. -/
def paragraphWithLiteralAttributeP (fuel : Nat) (s : List Char) : PRes Val :=
  (pstr "[literal]".toList s).bind fun _ s1 =>
  (pmany fuel wsP s1).bind fun _ s2 =>
  (newlineP s2).bind fun _ s3 =>
  (literalBlockContentP fuel s3).bind fun content s4 =>
  (endOfLiteralBlockP fuel s4).bind fun _ s5 =>
  .ok (NewLiteralBlock [] (asList content)) s5

/-- LiteralBlock: the three forms in order. -/
def literalBlockP (fuel : Nat) (s : List Char) : PRes Val :=
  por (paragraphWithSpacesP fuel s) (fun _ =>
  por (paragraphWithLiteralBlockDelimiterP fuel s) (fun _ =>
  paragraphWithLiteralAttributeP fuel s))

-- ---------------------------------------------------------------------
-- Grammar rules: comment blocks and verse blocks.
-- ---------------------------------------------------------------------

/-- CommentBlockLine: one line of a comment block. -/
def commentBlockLineP (fuel : Nat) (s : List Char) : PRes Val :=
  (pstarV fuel
    (fun t =>
      (pnot (commentBlockDelimiterP t) t).bind fun n1 t1 =>
      (pnot (eolP t1) t1).bind fun n2 t2 =>
      (pany t2).bind fun c t3 => .ok (.vlist [n1, n2, c]) t3) s).bind fun content s1 =>
  (eolP s1).bind fun _ s2 =>
  .ok content s2

/-- CommentBlock: a `////` delimited block with verbatim substitution. -/
def commentBlockP (fuel : Nat) (s : List Char) : PRes Val :=
  (pmany fuel (fun t => elementAttributeP fuel t) s).bind fun attrs s1 =>
  (commentBlockDelimiterP s1).bind fun _ s2 =>
  (pmany fuel wsP s2).bind fun _ s3 =>
  (newlineP s3).bind fun _ s4 =>
  (pmany fuel (fun t => commentBlockLineP fuel t) s4).bind fun content s5 =>
  (por
    ((commentBlockDelimiterP s5).bind fun _ u1 =>
     (pmany fuel wsP u1).bind fun _ u2 => eolP u2)
    (fun _ => eofP s5)).bind fun _ s6 =>
  .ok (NewDelimitedBlock .kComment content attrs .subVerbatim) s6

/-- VerseBlockAttribute: verse attributes or a plain attribute line. -/
def verseBlockAttributeP (fuel : Nat) (s : List Char) : PRes Val :=
  por
    ((verseAttributesP fuel s).bind fun attr s1 =>
     (pmany fuel wsP s1).bind fun _ s2 =>
     (eolP s2).bind fun _ s3 => .ok attr s3)
    (fun _ => elementAttributeP fuel s)

/-- VerseBlockLineContent: the line text with surrounding whitespace
trimmed (the action builds the inline elements from `c.text` directly). -/
def verseBlockLineContentP (fuel : Nat) (s : List Char) : PRes Val :=
  (pstarV fuel
    (fun t =>
      (pnot (verseBlockDelimiterP t) t).bind fun n1 t1 =>
      (pnot (eolP t1) t1).bind fun n2 t2 =>
      (pany t2).bind fun c t3 => .ok (.vlist [n1, n2, c]) t3) s).bind fun _ r =>
  .ok (NewInlineElements (.vstr (goTrimSpace (taken s r)))) r

/-- VerseBlockLine: line content up to the end of the line. -/
def verseBlockLineP (fuel : Nat) (s : List Char) : PRes Val :=
  (verseBlockLineContentP fuel s).bind fun line s1 =>
  (eolP s1).bind fun _ s2 =>
  .ok line s2

/-- VerseBlockParagraph: all verse lines as a single paragraph. -/
def verseBlockParagraphP (fuel : Nat) (s : List Char) : PRes Val :=
  (pmany fuel (fun t => verseBlockLineP fuel t) s).bind fun lines r =>
  .ok (NewParagraph lines []) r

/-- VerseBlock: a `____` delimited block holding one paragraph. -/
def verseBlockP (fuel : Nat) (s : List Char) : PRes Val :=
  (pmany fuel (fun t => verseBlockAttributeP fuel t) s).bind fun attrs s1 =>
  (verseBlockDelimiterP s1).bind fun _ s2 =>
  (pmany fuel wsP s2).bind fun _ s3 =>
  (newlineP s3).bind fun _ s4 =>
  (verseBlockParagraphP fuel s4).bind fun content s5 =>
  (por
    ((verseBlockDelimiterP s5).bind fun _ u1 =>
     (pmany fuel wsP u1).bind fun _ u2 => eolP u2)
    (fun _ => eofP s5)).bind fun _ s6 =>
  .ok (NewDelimitedBlock .kVerse [content] attrs .subNone) s6

-- ---------------------------------------------------------------------
-- Grammar rules: list item prefixes and list paragraphs.
-- ---------------------------------------------------------------------

/-- OrderedListItemPrefix: implicit dot prefixes or explicit numbering. -/
def orderedListItemPfxP (fuel : Nat) (s : List Char) : PRes Val :=
  (pmany fuel wsP s).bind fun _ s1 =>
  (por ((pstr ".....".toList s1).bind fun _ r => .ok (NewOrderedListItemPrefix .upperRoman 5) r) (fun _ =>
   por ((pstr "....".toList s1).bind fun _ r => .ok (NewOrderedListItemPrefix .upperAlpha 4) r) (fun _ =>
   por ((pstr "...".toList s1).bind fun _ r => .ok (NewOrderedListItemPrefix .lowerRoman 3) r) (fun _ =>
   por ((pstr "..".toList s1).bind fun _ r => .ok (NewOrderedListItemPrefix .lowerAlpha 2) r) (fun _ =>
   por ((pstr ".".toList s1).bind fun _ r => .ok (NewOrderedListItemPrefix .arabic 1) r) (fun _ =>
   por ((pplusV fuel (fun t => pcls Char.isDigit t) s1).bind fun _ u =>
        (pstr ".".toList u).bind fun _ r => .ok (NewOrderedListItemPrefix .arabic 1) r) (fun _ =>
   por ((pplusV fuel (fun t => pcls Char.isLower t) s1).bind fun _ u =>
        (pstr ".".toList u).bind fun _ r => .ok (NewOrderedListItemPrefix .lowerAlpha 1) r) (fun _ =>
   por ((pplusV fuel (fun t => pcls Char.isUpper t) s1).bind fun _ u =>
        (pstr ".".toList u).bind fun _ r => .ok (NewOrderedListItemPrefix .upperAlpha 1) r) (fun _ =>
   por ((pplusV fuel (fun t => pcls Char.isLower t) s1).bind fun _ u =>
        (pstr ")".toList u).bind fun _ r => .ok (NewOrderedListItemPrefix .lowerRoman 1) r) (fun _ =>
   (pplusV fuel (fun t => pcls Char.isUpper t) s1).bind fun _ u =>
   (pstr ")".toList u).bind fun _ r =>
   .ok (NewOrderedListItemPrefix .upperRoman 1) r)))))))))).bind fun px s2 =>
  (pplusV fuel wsP s2).bind fun _ s3 =>
  .ok px s3

/-- UnorderedListItemPrefix: asterisk runs or a dash. -/
def unorderedListItemPfxP (fuel : Nat) (s : List Char) : PRes Val :=
  (pmany fuel wsP s).bind fun _ s1 =>
  (por ((pstr "*****".toList s1).bind fun _ r => .ok (NewUnorderedListItemPrefix .fiveAsterisks 5) r) (fun _ =>
   por ((pstr "****".toList s1).bind fun _ r => .ok (NewUnorderedListItemPrefix .fourAsterisks 4) r) (fun _ =>
   por ((pstr "***".toList s1).bind fun _ r => .ok (NewUnorderedListItemPrefix .threeAsterisks 3) r) (fun _ =>
   por ((pstr "**".toList s1).bind fun _ r => .ok (NewUnorderedListItemPrefix .twoAsterisks 2) r) (fun _ =>
   por ((pstr "*".toList s1).bind fun _ r => .ok (NewUnorderedListItemPrefix .oneAsterisk 1) r) (fun _ =>
   (pstr "-".toList s1).bind fun _ r =>
   .ok (NewUnorderedListItemPrefix .dash 1) r)))))).bind fun px s2 =>
  (pplusV fuel wsP s2).bind fun _ s3 =>
  .ok px s3

/-- LabeledListItemTerm: characters up to a newline or `::`. -/
def labeledListItemTermP (fuel : Nat) (s : List Char) : PRes Val :=
  pstarV fuel
    (fun t =>
      (pnot (newlineP t) t).bind fun n1 t1 =>
      (pnot (pstr "::".toList t1) t1).bind fun n2 t2 =>
      (pany t2).bind fun c t3 => .ok (.vlist [n1, n2, c]) t3) s

/-- LabeledListItemSeparator: `::` then at least one space or newline. -/
def labeledListItemSepP (fuel : Nat) (s : List Char) : PRes Val :=
  (pstr "::".toList s).bind fun v1 s1 =>
  (pplusV fuel (fun t => por (wsP t) (fun _ => newlineP t)) s1).bind fun v2 s2 =>
  .ok (.vlist [v1, v2]) s2

/-- ListItemContinuation: a `+` line. -/
def listItemContinuationP (fuel : Nat) (s : List Char) : PRes Val :=
  (pstr "+".toList s).bind fun _ s1 =>
  (pmany fuel wsP s1).bind fun _ s2 =>
  (eolP s2).bind fun _ s3 =>
  .ok NewListItemContinuation s3

/-- ListParagraphLine: an inline line that does not open another list
construct, attribute or delimited block. -/
def listParagraphLineP (fuel : Nat) (s : List Char) : PRes Val :=
  (pnot (orderedListItemPfxP fuel s) s).bind fun _ s1 =>
  (pnot (unorderedListItemPfxP fuel s1) s1).bind fun _ s2 =>
  (pnot ((labeledListItemTermP fuel s2).bind fun _ t =>
         labeledListItemSepP fuel t) s2).bind fun _ s3 =>
  (pnot (listItemContinuationP fuel s3) s3).bind fun _ s4 =>
  (pnot (elementAttributeP fuel s4) s4).bind fun _ s5 =>
  (pnot (blockDelimiterP s5) s5).bind fun _ s6 =>
  (inlineElementsP fuel s6).bind fun line s7 =>
  .ok line s7

/-- ListParagraph: consecutive list paragraph lines as one paragraph. -/
def listParagraphP (fuel : Nat) (s : List Char) : PRes Val :=
  (pplusV fuel (fun t => listParagraphLineP fuel t) s).bind fun lines r =>
  .ok (NewParagraph (asList lines) []) r

/-- BlockParagraphLine: an inline line inside a delimited block. -/
def blockParagraphLineP (fuel : Nat) (s : List Char) : PRes Val :=
  (pnot (orderedListItemPfxP fuel s) s).bind fun _ s1 =>
  (pnot (unorderedListItemPfxP fuel s1) s1).bind fun _ s2 =>
  (pnot ((labeledListItemTermP fuel s2).bind fun _ t =>
         labeledListItemSepP fuel t) s2).bind fun _ s3 =>
  (pnot (listItemContinuationP fuel s3) s3).bind fun _ s4 =>
  (pnot (blockDelimiterP s4) s4).bind fun _ s5 =>
  (inlineElementsP fuel s5).bind fun line s6 =>
  .ok line s6

/-- BlockParagraph: consecutive block paragraph lines as one paragraph. -/
def blockParagraphP (fuel : Nat) (s : List Char) : PRes Val :=
  (pplusV fuel (fun t => blockParagraphLineP fuel t) s).bind fun lines r =>
  .ok (NewParagraph (asList lines) []) r

-- ---------------------------------------------------------------------
-- Grammar rules: the mutually recursive DocumentBlock cluster (lists and
-- the fenced, listing and example delimited blocks recurse into
-- DocumentBlock through list-item continuations).
-- ---------------------------------------------------------------------

mutual

/-- DocumentBlock ordered choice (not at EOF). -/
def documentBlockP (fuel : Nat) (s : List Char) : PRes Val :=
  match fuel with
  | 0 => .nofuel
  | f + 1 =>
    (pnot (eofP s) s).bind fun _ s0 =>
    por (blankLineP f s0) (fun _ =>
    por (documentAttributeDeclarationP f s0) (fun _ =>
    por (documentAttributeResetP f s0) (fun _ =>
    por (tableOfContentsMacroP s0) (fun _ =>
    por (listP f s0) (fun _ =>
    por (blockImageP f s0) (fun _ =>
    por (literalBlockP f s0) (fun _ =>
    por (delimitedBlockP f s0) (fun _ =>
    paragraphP f s0))))))))

/-- List: attribute lines then one or more list items; a `nil` result of
the assembly (a Go error) fails the rule. -/
def listP (fuel : Nat) (s : List Char) : PRes Val :=
  match fuel with
  | 0 => .nofuel
  | f + 1 =>
    (pmany f (fun t => elementAttributeP f t) s).bind fun attrs s1 =>
    (listItemsP f s1).bind fun elements s2 =>
    match NewList (asList elements) attrs with
    | some v => .ok v s2
    | none => .fail

/-- ListItems: one or more items of any kind. -/
def listItemsP (fuel : Nat) (s : List Char) : PRes Val :=
  match fuel with
  | 0 => .nofuel
  | f + 1 =>
    pplusV f
      (fun t =>
        por (orderedListItemP f t) (fun _ =>
        por (unorderedListItemP f t) (fun _ =>
        labeledListItemP f t))) s

/-- OrderedListItem: attributes, prefix, content, optional blank line. -/
def orderedListItemP (fuel : Nat) (s : List Char) : PRes Val :=
  match fuel with
  | 0 => .nofuel
  | f + 1 =>
    (pmany f (fun t => elementAttributeP f t) s).bind fun attrs s1 =>
    (orderedListItemPfxP f s1).bind fun px s2 =>
    (orderedListItemContentP f s2).bind fun content s3 =>
    (popt (blankLineP f s3) s3).bind fun _ s4 =>
    .ok (NewOrderedListItem px (asList content) attrs) s4

/-- OrderedListItemContent: list paragraphs then continued blocks. -/
def orderedListItemContentP (fuel : Nat) (s : List Char) : PRes Val :=
  match fuel with
  | 0 => .nofuel
  | f + 1 =>
    (pplusV f (fun t => listParagraphP f t) s).bind fun lp s1 =>
    (pstarV f (fun t => continuedDocumentBlockP f t) s1).bind fun cdb s2 =>
    .ok (.vlist (NewListItemContent [lp, cdb])) s2

/-- UnorderedListItem: prefix, content, optional blank line. -/
def unorderedListItemP (fuel : Nat) (s : List Char) : PRes Val :=
  match fuel with
  | 0 => .nofuel
  | f + 1 =>
    (unorderedListItemPfxP f s).bind fun px s1 =>
    (unorderedListItemContentP f s1).bind fun content s2 =>
    (popt (blankLineP f s2) s2).bind fun _ s3 =>
    .ok (NewUnorderedListItem px (asList content)) s3

/-- UnorderedListItemContent: list paragraphs then continued blocks. -/
def unorderedListItemContentP (fuel : Nat) (s : List Char) : PRes Val :=
  match fuel with
  | 0 => .nofuel
  | f + 1 =>
    (pplusV f (fun t => listParagraphP f t) s).bind fun lp s1 =>
    (pstarV f (fun t => continuedDocumentBlockP f t) s1).bind fun cdb s2 =>
    .ok (.vlist (NewListItemContent [lp, cdb])) s2

/-- LabeledListItem: term and description, or a bare term line. -/
def labeledListItemP (fuel : Nat) (s : List Char) : PRes Val :=
  match fuel with
  | 0 => .nofuel
  | f + 1 =>
    por
      ((labeledListItemTermP f s).bind fun term s1 =>
       (labeledListItemSepP f s1).bind fun _ s2 =>
       (labeledListItemDescriptionP f s2).bind fun desc s3 =>
       .ok (NewLabeledListItem (asList term) (asList desc)) s3)
      (fun _ =>
        (labeledListItemTermP f s).bind fun term s1 =>
        (pstr "::".toList s1).bind fun _ s2 =>
        (pmany f wsP s2).bind fun _ s3 =>
        (eolP s3).bind fun _ s4 =>
        .ok (NewLabeledListItem (asList term) []) s4)

/-- LabeledListItemDescription: paragraphs and continued blocks. -/
def labeledListItemDescriptionP (fuel : Nat) (s : List Char) : PRes Val :=
  match fuel with
  | 0 => .nofuel
  | f + 1 =>
    (pstarV f
      (fun t =>
        por (listParagraphP f t) (fun _ => continuedDocumentBlockP f t)) s).bind
      fun elements r =>
    .ok (.vlist (NewListItemContent (asList elements))) r

/-- ContinuedDocumentBlock: a continuation line then a block. -/
def continuedDocumentBlockP (fuel : Nat) (s : List Char) : PRes Val :=
  match fuel with
  | 0 => .nofuel
  | f + 1 =>
    (listItemContinuationP f s).bind fun _ s1 =>
    (documentBlockP f s1).bind fun element s2 =>
    .ok element s2

/-- DelimitedBlock ordered choice. -/
def delimitedBlockP (fuel : Nat) (s : List Char) : PRes Val :=
  match fuel with
  | 0 => .nofuel
  | f + 1 =>
    por (fencedBlockP f s) (fun _ =>
    por (listingBlockP f s) (fun _ =>
    por (exampleBlockP f s) (fun _ =>
    por (commentBlockP f s) (fun _ =>
    verseBlockP f s))))

/-- FencedBlock: triple backquote delimited; EOF closes an unclosed
block. -/
def fencedBlockP (fuel : Nat) (s : List Char) : PRes Val :=
  match fuel with
  | 0 => .nofuel
  | f + 1 =>
    (pmany f (fun t => elementAttributeP f t) s).bind fun attrs s1 =>
    (fencedBlockDelimiterP s1).bind fun _ s2 =>
    (pmany f wsP s2).bind fun _ s3 =>
    (newlineP s3).bind fun _ s4 =>
    (pmany f
      (fun t =>
        por (listP f t) (fun _ =>
        por (blockParagraphP f t) (fun _ =>
        blankLineP f t))) s4).bind fun content s5 =>
    (por
      ((fencedBlockDelimiterP s5).bind fun _ u1 =>
       (pmany f wsP u1).bind fun _ u2 => eolP u2)
      (fun _ => eofP s5)).bind fun _ s6 =>
    .ok (NewDelimitedBlock .kFenced content attrs .subNone) s6

/-- ListingBlock: `----` delimited; EOF closes an unclosed block. -/
def listingBlockP (fuel : Nat) (s : List Char) : PRes Val :=
  match fuel with
  | 0 => .nofuel
  | f + 1 =>
    (pmany f (fun t => elementAttributeP f t) s).bind fun attrs s1 =>
    (listingBlockDelimiterP s1).bind fun _ s2 =>
    (pmany f wsP s2).bind fun _ s3 =>
    (newlineP s3).bind fun _ s4 =>
    (pmany f
      (fun t =>
        por (listP f t) (fun _ =>
        por (blockParagraphP f t) (fun _ =>
        blankLineP f t))) s4).bind fun content s5 =>
    (por
      ((listingBlockDelimiterP s5).bind fun _ u1 =>
       (pmany f wsP u1).bind fun _ u2 => eolP u2)
      (fun _ => eofP s5)).bind fun _ s6 =>
    .ok (NewDelimitedBlock .kListing content attrs .subNone) s6

/-- ExampleBlock: `====` delimited; EOF closes an unclosed block. -/
def exampleBlockP (fuel : Nat) (s : List Char) : PRes Val :=
  match fuel with
  | 0 => .nofuel
  | f + 1 =>
    (pmany f (fun t => elementAttributeP f t) s).bind fun attrs s1 =>
    (exampleBlockDelimiterP s1).bind fun _ s2 =>
    (pmany f wsP s2).bind fun _ s3 =>
    (newlineP s3).bind fun _ s4 =>
    (pmany f
      (fun t =>
        por (listP f t) (fun _ =>
        por (blockParagraphP f t) (fun _ =>
        blankLineP f t))) s4).bind fun content s5 =>
    (por
      ((exampleBlockDelimiterP s5).bind fun _ u1 =>
       (pmany f wsP u1).bind fun _ u2 => eolP u2)
      (fun _ => eofP s5)).bind fun _ s6 =>
    .ok (NewDelimitedBlock .kExample content attrs .subNone) s6

end

-- ---------------------------------------------------------------------
-- Grammar rules: sections (levels 5 up to 0; level 0 is mutually
-- recursive with its block rule through the negative lookahead).
-- ---------------------------------------------------------------------

/-- Section5Title. -/
def section5TitleP (fuel : Nat) (s : List Char) : PRes Val :=
  (pmany fuel (fun t => elementAttributeP fuel t) s).bind fun attrs s1 =>
  (pstr "======".toList s1).bind fun _ s2 =>
  (pplusV fuel wsP s2).bind fun _ s3 =>
  (titleElementsP fuel s3).bind fun content s4 =>
  (pmany fuel wsP s4).bind fun _ s5 =>
  (popt (inlineElementIDP fuel s5) s5).bind fun id s6 =>
  (eolP s6).bind fun _ s7 =>
  .ok (NewSectionTitle content (attrs ++ [id])) s7

/-- Section4Title. -/
def section4TitleP (fuel : Nat) (s : List Char) : PRes Val :=
  (pmany fuel (fun t => elementAttributeP fuel t) s).bind fun attrs s1 =>
  (pstr "=====".toList s1).bind fun _ s2 =>
  (pplusV fuel wsP s2).bind fun _ s3 =>
  (titleElementsP fuel s3).bind fun content s4 =>
  (pmany fuel wsP s4).bind fun _ s5 =>
  (popt (inlineElementIDP fuel s5) s5).bind fun id s6 =>
  (eolP s6).bind fun _ s7 =>
  .ok (NewSectionTitle content (attrs ++ [id])) s7

/-- Section3Title. -/
def section3TitleP (fuel : Nat) (s : List Char) : PRes Val :=
  (pmany fuel (fun t => elementAttributeP fuel t) s).bind fun attrs s1 =>
  (pstr "====".toList s1).bind fun _ s2 =>
  (pplusV fuel wsP s2).bind fun _ s3 =>
  (titleElementsP fuel s3).bind fun content s4 =>
  (pmany fuel wsP s4).bind fun _ s5 =>
  (popt (inlineElementIDP fuel s5) s5).bind fun id s6 =>
  (eolP s6).bind fun _ s7 =>
  .ok (NewSectionTitle content (attrs ++ [id])) s7

/-- Section2Title (trailing whitespace allowed after the ID). -/
def section2TitleP (fuel : Nat) (s : List Char) : PRes Val :=
  (pmany fuel (fun t => elementAttributeP fuel t) s).bind fun attrs s1 =>
  (pstr "===".toList s1).bind fun _ s2 =>
  (pplusV fuel wsP s2).bind fun _ s3 =>
  (titleElementsP fuel s3).bind fun content s4 =>
  (pmany fuel wsP s4).bind fun _ s5 =>
  (popt (inlineElementIDP fuel s5) s5).bind fun id s6 =>
  (pmany fuel wsP s6).bind fun _ s7 =>
  (eolP s7).bind fun _ s8 =>
  .ok (NewSectionTitle content (attrs ++ [id])) s8

/-- Section1Title (trailing whitespace allowed after the ID). -/
def section1TitleP (fuel : Nat) (s : List Char) : PRes Val :=
  (pmany fuel (fun t => elementAttributeP fuel t) s).bind fun attrs s1 =>
  (pstr "==".toList s1).bind fun _ s2 =>
  (pplusV fuel wsP s2).bind fun _ s3 =>
  (titleElementsP fuel s3).bind fun content s4 =>
  (pmany fuel wsP s4).bind fun _ s5 =>
  (popt (inlineElementIDP fuel s5) s5).bind fun id s6 =>
  (pmany fuel wsP s6).bind fun _ s7 =>
  (eolP s7).bind fun _ s8 =>
  .ok (NewSectionTitle content (attrs ++ [id])) s8

/-- Section0Title (trailing whitespace allowed after the ID). -/
def section0TitleP (fuel : Nat) (s : List Char) : PRes Val :=
  (pmany fuel (fun t => elementAttributeP fuel t) s).bind fun attrs s1 =>
  (pstr "=".toList s1).bind fun _ s2 =>
  (pplusV fuel wsP s2).bind fun _ s3 =>
  (titleElementsP fuel s3).bind fun content s4 =>
  (pmany fuel wsP s4).bind fun _ s5 =>
  (popt (inlineElementIDP fuel s5) s5).bind fun id s6 =>
  (pmany fuel wsP s6).bind fun _ s7 =>
  (eolP s7).bind fun _ s8 =>
  .ok (NewSectionTitle content (attrs ++ [id])) s8

/-- Section5Block: blocks of a level-5 section. -/
def section5BlockP (fuel : Nat) (s : List Char) : PRes Val :=
  (pnot (section1TitleP fuel s) s).bind fun _ s1 =>
  (pnot (section2TitleP fuel s1) s1).bind fun _ s2 =>
  (pnot (section3TitleP fuel s2) s2).bind fun _ s3 =>
  (pnot (section4TitleP fuel s3) s3).bind fun _ s4 =>
  (pnot (section5TitleP fuel s4) s4).bind fun _ s5 =>
  (pstarV fuel (fun t => documentBlockP fuel t) s5).bind fun content s6 =>
  .ok content s6

/-- Section5. -/
def section5P (fuel : Nat) (s : List Char) : PRes Val :=
  (pnot (eofP s) s).bind fun _ s0 =>
  (section5TitleP fuel s0).bind fun header s1 =>
  (popt (section5BlockP fuel s1) s1).bind fun elements s2 =>
  .ok (NewSection 5 header (asList elements)) s2

/-- Section4Block. -/
def section4BlockP (fuel : Nat) (s : List Char) : PRes Val :=
  (pnot (section1TitleP fuel s) s).bind fun _ s1 =>
  (pnot (section2TitleP fuel s1) s1).bind fun _ s2 =>
  (pnot (section3TitleP fuel s2) s2).bind fun _ s3 =>
  (pnot (section4TitleP fuel s3) s3).bind fun _ s4 =>
  (pstarV fuel
    (fun t => por (section5P fuel t) (fun _ => documentBlockP fuel t)) s4).bind
    fun content s5 =>
  .ok content s5

/-- Section4. -/
def section4P (fuel : Nat) (s : List Char) : PRes Val :=
  (pnot (eofP s) s).bind fun _ s0 =>
  (section4TitleP fuel s0).bind fun header s1 =>
  (popt (section4BlockP fuel s1) s1).bind fun elements s2 =>
  .ok (NewSection 4 header (asList elements)) s2

/-- Section3Block. -/
def section3BlockP (fuel : Nat) (s : List Char) : PRes Val :=
  (pnot (section1TitleP fuel s) s).bind fun _ s1 =>
  (pnot (section2TitleP fuel s1) s1).bind fun _ s2 =>
  (pnot (section3TitleP fuel s2) s2).bind fun _ s3 =>
  (pstarV fuel
    (fun t =>
      por (section4P fuel t) (fun _ =>
      por (section5P fuel t) (fun _ =>
      documentBlockP fuel t))) s3).bind fun content s4 =>
  .ok content s4

/-- Section3. -/
def section3P (fuel : Nat) (s : List Char) : PRes Val :=
  (pnot (eofP s) s).bind fun _ s0 =>
  (section3TitleP fuel s0).bind fun header s1 =>
  (popt (section3BlockP fuel s1) s1).bind fun elements s2 =>
  .ok (NewSection 3 header (asList elements)) s2

/-- Section2Block. -/
def section2BlockP (fuel : Nat) (s : List Char) : PRes Val :=
  (pnot (section1TitleP fuel s) s).bind fun _ s1 =>
  (pnot (section2TitleP fuel s1) s1).bind fun _ s2 =>
  (pstarV fuel
    (fun t =>
      por (section3P fuel t) (fun _ =>
      por (section4P fuel t) (fun _ =>
      por (section5P fuel t) (fun _ =>
      documentBlockP fuel t)))) s2).bind fun content s3 =>
  .ok content s3

/-- Section2. -/
def section2P (fuel : Nat) (s : List Char) : PRes Val :=
  (pnot (eofP s) s).bind fun _ s0 =>
  (section2TitleP fuel s0).bind fun header s1 =>
  (popt (section2BlockP fuel s1) s1).bind fun elements s2 =>
  .ok (NewSection 2 header (asList elements)) s2

/-- Section1Block: a single nested section or block (no star here; the
star is on the Section1 rule). -/
def section1BlockP (fuel : Nat) (s : List Char) : PRes Val :=
  (pnot (section1TitleP fuel s) s).bind fun _ s1 =>
  (por (section2P fuel s1) (fun _ =>
   por (section3P fuel s1) (fun _ =>
   por (section4P fuel s1) (fun _ =>
   por (section5P fuel s1) (fun _ =>
   documentBlockP fuel s1))))).bind fun content s2 =>
  .ok content s2

/-- Section1. -/
def section1P (fuel : Nat) (s : List Char) : PRes Val :=
  (pnot (eofP s) s).bind fun _ s0 =>
  (section1TitleP fuel s0).bind fun header s1 =>
  (pstarV fuel (fun t => section1BlockP fuel t) s1).bind fun elements s2 =>
  .ok (NewSection 1 header (asList elements)) s2

mutual

/-- Section0 (mutually recursive with its block rule through the
`!Section0` negative lookahead). -/
def section0P (fuel : Nat) (s : List Char) : PRes Val :=
  match fuel with
  | 0 => .nofuel
  | f + 1 =>
    (pnot (eofP s) s).bind fun _ s0 =>
    (section0TitleP f s0).bind fun header s1 =>
    (pstarV f (fun t => section0BlockP f t) s1).bind fun elements s2 =>
    .ok (NewSection 0 header (asList elements)) s2

/-- Section0Block: any nested section or block that does not open a new
level-0 section. -/
def section0BlockP (fuel : Nat) (s : List Char) : PRes Val :=
  match fuel with
  | 0 => .nofuel
  | f + 1 =>
    (pnot (section0P f s) s).bind fun _ s1 =>
    (por (section1P f s1) (fun _ =>
     por (section2P f s1) (fun _ =>
     por (section3P f s1) (fun _ =>
     por (section4P f s1) (fun _ =>
     por (section5P f s1) (fun _ =>
     documentBlockP f s1)))))).bind fun content s2 =>
    .ok content s2

end

/-- Section: any of the six levels (not at EOF). -/
def sectionP (fuel : Nat) (s : List Char) : PRes Val :=
  (pnot (eofP s) s).bind fun _ s0 =>
  por (section0P fuel s0) (fun _ =>
  por (section1P fuel s0) (fun _ =>
  por (section2P fuel s0) (fun _ =>
  por (section3P fuel s0) (fun _ =>
  por (section4P fuel s0) (fun _ =>
  section5P fuel s0)))))

-- ---------------------------------------------------------------------
-- Grammar rules: document header and front matter.
-- ---------------------------------------------------------------------

/-- DocumentAuthorNamePart: a word that is not an email or separator. -/
def documentAuthorNamePartP (fuel : Nat) (s : List Char) : PRes Val :=
  (pnot (pstr "<".toList s) s).bind fun n1 s1 =>
  (pnot (pstr ";".toList s1) s1).bind fun n2 s2 =>
  (wordP fuel s2).bind fun w s3 =>
  (pstarV fuel wsP s3).bind fun ws s4 =>
  .ok (.vlist [n1, n2, w, ws]) s4

/-- DocumentAuthorEmail: an address between angle brackets (no action:
the raw sequence value is kept, the brackets are trimmed later). -/
def documentAuthorEmailP (fuel : Nat) (s : List Char) : PRes Val :=
  (pstr "<".toList s).bind fun lt s1 =>
  (pplusV fuel
    (fun t =>
      (pnot (pstr ">".toList t) t).bind fun n1 t1 =>
      (pnot (eolP t1) t1).bind fun n2 t2 =>
      (pany t2).bind fun c t3 => .ok (.vlist [n1, n2, c]) t3) s1).bind fun email s2 =>
  (pstr ">".toList s2).bind fun gt s3 =>
  .ok (.vlist [lt, email, gt]) s3

/-- DocumentAuthor: up to three name parts and an optional email. -/
def documentAuthorP (fuel : Nat) (s : List Char) : PRes Val :=
  (pstarV fuel wsP s).bind fun _ s1 =>
  (documentAuthorNamePartP fuel s1).bind fun p1 s2 =>
  (popt (documentAuthorNamePartP fuel s2) s2).bind fun p2 s3 =>
  (popt (documentAuthorNamePartP fuel s3) s3).bind fun p3 s4 =>
  (popt (documentAuthorEmailP fuel s4) s4).bind fun em s5 =>
  (pstarV fuel wsP s5).bind fun _ s6 =>
  (popt (pstr ";".toList s6) s6).bind fun _ s7 =>
  (pstarV fuel wsP s7).bind fun _ s8 =>
  .ok (NewDocumentAuthor p1 p2 p3 em) s8

/-- DocumentAuthorsInlineForm: authors on the line after the title. -/
def documentAuthorsInlineFormP (fuel : Nat) (s : List Char) : PRes Val :=
  (pstarV fuel wsP s).bind fun _ s1 =>
  (pnot (pstr ":".toList s1) s1).bind fun _ s2 =>
  (pplusV fuel (fun t => documentAuthorP fuel t) s2).bind fun authors s3 =>
  (eolP s3).bind fun _ s4 =>
  .ok (NewDocumentAuthors (asList authors)) s4

/-- DocumentAuthorsAttributeForm: the `:author:` attribute form. -/
def documentAuthorsAttributeFormP (fuel : Nat) (s : List Char) : PRes Val :=
  (pstarV fuel wsP s).bind fun _ s1 =>
  (pstr ":author:".toList s1).bind fun _ s2 =>
  (documentAuthorP fuel s2).bind fun author s3 =>
  .ok (.vlist [author]) s3

/-- DocumentAuthors ordered choice. -/
def documentAuthorsP (fuel : Nat) (s : List Char) : PRes Val :=
  por (documentAuthorsInlineFormP fuel s) (fun _ => documentAuthorsAttributeFormP fuel s)

/-- DocumentRevisionNumber: a `v` number, or a number that must be
followed by a comma. -/
def documentRevisionNumberP (fuel : Nat) (s : List Char) : PRes Val :=
  por
    ((pstrCI "v".toList s).bind fun v s1 =>
     (digitP s1).bind fun d s2 =>
     (pstarV fuel
       (fun t =>
         (pnot (eolP t) t).bind fun n1 t1 =>
         (pnot (pstr ",".toList t1) t1).bind fun n2 t2 =>
         (pnot (pstr ":".toList t2) t2).bind fun n3 t3 =>
         (pany t3).bind fun c t4 => .ok (.vlist [n1, n2, n3, c]) t4) s2).bind fun tl s3 =>
     .ok (.vlist [v, d, tl]) s3)
    (fun _ =>
      (popt (pstrCI "v".toList s) s).bind fun v s1 =>
      (digitP s1).bind fun d s2 =>
      (pstarV fuel
        (fun t =>
          (pnot (eolP t) t).bind fun n1 t1 =>
          (pnot (pstr ",".toList t1) t1).bind fun n2 t2 =>
          (pnot (pstr ":".toList t2) t2).bind fun n3 t3 =>
          (pany t3).bind fun c t4 => .ok (.vlist [n1, n2, n3, c]) t4) s2).bind fun tl s3 =>
      (pstarV fuel wsP s3).bind fun ws s4 =>
      (pand (pstr ",".toList s4) s4).bind fun _ s5 =>
      .ok (.vlist [v, d, tl, ws]) s5)

/-- DocumentRevisionDate: characters up to a colon or end of line. -/
def documentRevisionDateP (fuel : Nat) (s : List Char) : PRes Val :=
  pstarV fuel
    (fun t =>
      (pnot (eolP t) t).bind fun n1 t1 =>
      (pnot (pstr ":".toList t1) t1).bind fun n2 t2 =>
      (pany t2).bind fun c t3 => .ok (.vlist [n1, n2, c]) t3) s

/-- DocumentRevisionRemark: characters up to the end of the line. -/
def documentRevisionRemarkP (fuel : Nat) (s : List Char) : PRes Val :=
  pstarV fuel
    (fun t =>
      (pnot (eolP t) t).bind fun n1 t1 =>
      (pany t1).bind fun c t2 => .ok (.vlist [n1, c]) t2) s

/-- DocumentRevision: optional number, date and remark. -/
def documentRevisionP (fuel : Nat) (s : List Char) : PRes Val :=
  (pstarV fuel wsP s).bind fun _ s1 =>
  (pnot (pstr ":".toList s1) s1).bind fun _ s2 =>
  (popt (documentRevisionNumberP fuel s2) s2).bind fun n s3 =>
  (popt (pstr ",".toList s3) s3).bind fun _ s4 =>
  (popt (documentRevisionDateP fuel s4) s4).bind fun d s5 =>
  (popt (pstr ":".toList s5) s5).bind fun _ s6 =>
  (popt (documentRevisionRemarkP fuel s6) s6).bind fun r s7 =>
  (eolP s7).bind fun _ s8 =>
  .ok (NewDocumentRevision n d r) s8

/-- DocumentHeader: level-0 title, authors, revision, attributes. -/
def documentHeaderP (fuel : Nat) (s : List Char) : PRes Val :=
  (section0TitleP fuel s).bind fun header s1 =>
  (popt (documentAuthorsP fuel s1) s1).bind fun authors s2 =>
  (popt (documentRevisionP fuel s2) s2).bind fun revision s3 =>
  (pstarV fuel (fun t => documentAttributeDeclarationP fuel t) s3).bind fun otherAttrs s4 =>
  .ok (NewDocumentHeader header authors revision (asList otherAttrs)) s4

/-- YamlFrontMatterToken: a `---` line. -/
def yamlFrontMatterTokenP (s : List Char) : PRes Val :=
  (pstr "---".toList s).bind fun v1 s1 =>
  (eolP s1).bind fun v2 s2 =>
  .ok (.vlist [v1, v2]) s2

/-- YamlFrontMatterContent: raw text up to the closing token. -/
def yamlFrontMatterContentP (fuel : Nat) (s : List Char) : PRes Val :=
  (pstarV fuel
    (fun t =>
      (pnot (yamlFrontMatterTokenP t) t).bind fun n1 t1 =>
      (pany t1).bind fun c t2 => .ok (.vlist [n1, c]) t2) s).bind fun _ r =>
  .ok (.vstr (taken s r)) r

/-- FrontMatter: YAML content between `---` tokens (the grammar file also
holds a dead duplicate rule referring to an undefined name; the working
definition is this one). -/
def frontMatterP (fuel : Nat) (s : List Char) : PRes Val :=
  (yamlFrontMatterTokenP s).bind fun _ s1 =>
  (yamlFrontMatterContentP fuel s1).bind fun content s2 =>
  (yamlFrontMatterTokenP s2).bind fun _ s3 =>
  .ok (NewYamlFrontMatter (asStr content)) s3

-- ---------------------------------------------------------------------
-- The top-level Document rule and the public entry points.
-- ---------------------------------------------------------------------

/-- Document: front matter, header, blocks, then mandatory EOF. -/
def documentP (fuel : Nat) (s : List Char) : PRes Val :=
  (popt (frontMatterP fuel s) s).bind fun fm s1 =>
  (popt (documentHeaderP fuel s1) s1).bind fun hd s2 =>
  (pmany fuel
    (fun t => por (sectionP fuel t) (fun _ => documentBlockP fuel t)) s2).bind
    fun blocks s3 =>
  (eofP s3).bind fun _ s4 =>
  .ok (NewDocument fm hd blocks) s4

/-- The fuel budget used by the public entry points: ample for the call
depth and iteration count of any parse of the given input. -/
def parserFuel (s : List Char) : Nat := 64 * (s.length + 1)

/-- Public entry point `Document`. -/
def parseDocument (input : String) : PRes Val :=
  documentP (parserFuel input.toList) input.toList

/-- Public entry point `DocumentBlock`. -/
def parseDocumentBlock (input : String) : PRes Val :=
  documentBlockP (parserFuel input.toList) input.toList

/-- Public entry point `InlineElements`. -/
def parseInlineElements (input : String) : PRes Val :=
  inlineElementsP (parserFuel input.toList) input.toList

-- ---------------------------------------------------------------------
-- Vocabulary for the parametric theorems: plain lowercase word lines
-- and the document values they parse to.
-- ---------------------------------------------------------------------

/-- A run of ASCII lowercase letters (a plain word line with no markup). -/
def IsLowerStr (w : Str) : Prop := ∀ c ∈ w, c.isLower = true

/-- The continuation after a line: the end of the input, or a further
line starting with a newline. -/
def NlOrNil (rest : Str) : Prop := rest = [] ∨ ∃ u, rest = '\n' :: u

/-- The given lines, each terminated by a newline character. -/
def joinNL : List Str → List Char
  | [] => []
  | w :: ws => w ++ '\n' :: joinNL ws

/-- The inline-elements value the grammar builds for a plain word line. -/
def lineOf (w : Str) : Val := .vinline [.vstringElement w]

/-- The paragraph value holding the given plain word lines. -/
def paraOf (ws : List Str) : Val := .vparagraph [] (ws.map lineOf)

/-- A run of N blank lines (N newline characters). -/
def blanks (N : Nat) : List Char := List.replicate N '\n'

-- ---------------------------------------------------------------------
-- Derived definitions used by the claim statements.
-- ---------------------------------------------------------------------

/-- The levels successively assigned by the `NewOrderedList` loop: a scan
of `olAssignStep` (the step extracted verbatim from the assembly loop)
over the flat item sequence. -/
def olALGo : List (Nat × NumberingStyle) → List (NumberingStyle × Nat) →
    Nat → NumberingStyle → List Nat
  | [], _, _, _ => []
  | (lvl, sty) :: rest, lps, prevLevel, prevStyle =>
    let step := olAssignStep prevLevel prevStyle lps lvl sty
    step.1 :: olALGo rest step.2 step.1 sty

/-- Levels assigned by the assembly, per item, from the initial state. -/
def olAssignedLevels (items : List (Nat × NumberingStyle)) : List Nat :=
  olALGo items [] 0 .unknownNumbering

/-- Written from the words of claim C8: scanning left to right while
maintaining `previous_level`, `previous_numbering_style` and
`level_per_style`; an item deeper than the previous level is forced to
`previous_level + 1` (recording its style); an item whose style equals the
previous style keeps the previous level; otherwise the style decides: a
recorded style reuses its recorded level, an unseen style opens a new
deeper level and is recorded. -/
def claimGo : List (Nat × NumberingStyle) → Nat → NumberingStyle →
    List (NumberingStyle × Nat) → List Nat
  | [], _, _, _ => []
  | (lvl, sty) :: rest, prevLevel, prevStyle, seen =>
    if prevLevel < lvl then
      (prevLevel + 1) :: claimGo rest (prevLevel + 1) sty (lpsSet seen sty (prevLevel + 1))
    else if sty = prevStyle then
      prevLevel :: claimGo rest prevLevel sty seen
    else
      match lpsGet seen sty with
      | some l => l :: claimGo rest l sty seen
      | none =>
          (prevLevel + 1) :: claimGo rest (prevLevel + 1) sty (lpsSet seen sty (prevLevel + 1))

/-- The scan of claim C8 from the initial state. -/
def claimLevels (items : List (Nat × NumberingStyle)) : List Nat :=
  claimGo items 0 .unknownNumbering []

/-- Count the `BlankLine` markers of a block list. -/
def countBlankLines (xs : List Val) : Nat :=
  xs.countP (fun v => match v with | .vblankLine => true | _ => false)

-- ---------------------------------------------------------------------
-- General lemmas about the combinators.
-- ---------------------------------------------------------------------

/-- Inversion of a successful bind. -/
theorem bind_ok_inv {α β : Type} {p : PRes α} {k : α → List Char → PRes β}
    {v : β} {r : List Char} (h : p.bind k = .ok v r) :
    ∃ w m, p = .ok w m ∧ k w m = .ok v r := by
  cases p with
  | ok w m => exact ⟨w, m, rfl, h⟩
  | fail => simp [PRes.bind] at h
  | nofuel => simp [PRes.bind] at h

/-- A literal fails on a mismatching head character. -/
theorem pstr_head_ne {c d : Char} (lit s : List Char) (h : c ≠ d) :
    pstr (c :: lit) (d :: s) = .fail := by
  simp [pstr, h]

/-- A non-empty literal fails on empty input. -/
theorem pstr_nil (c : Char) (lit : List Char) : pstr (c :: lit) [] = .fail := rfl

/-- A literal holding a non-lowercase character other than a newline fails
on a lowercase word followed by a newline or the end of the input. -/
theorem pstr_fail_on_word (lit : Str) :
    ∀ (w rest : List Char), (∃ c ∈ lit, ¬ (c.isLower = true)) → '\n' ∉ lit →
    (∀ c ∈ w, c.isLower = true) → (rest = [] ∨ ∃ u, rest = '\n' :: u) →
    pstr lit (w ++ rest) = .fail := by
  induction lit with
  | nil => intro w rest hlit _ _ _; rcases hlit with ⟨c, hc, _⟩; cases hc
  | cons h0 l2 ih =>
    intro w rest hlit hnl hw hr
    cases w with
    | nil =>
      rcases hr with hr | ⟨u, hr⟩
      · subst hr; rfl
      · subst hr
        have : h0 ≠ '\n' := by intro hcon; exact hnl (hcon ▸ List.mem_cons_self _ _)
        exact pstr_head_ne l2 u this
    | cons a w2 =>
      by_cases hheq : h0 = a
      · subst hheq
        have halow : h0.isLower = true := hw h0 (List.mem_cons_self _ _)
        have hlit2 : ∃ c ∈ l2, ¬ (c.isLower = true) := by
          rcases hlit with ⟨c, hc, hcl⟩
          rcases List.mem_cons.mp hc with hc1 | hc2
          · exact absurd (hc1 ▸ halow) hcl
          · exact ⟨c, hc2, hcl⟩
        have hnl2 : '\n' ∉ l2 := fun hm => hnl (List.mem_cons_of_mem _ hm)
        have hw2 : ∀ c ∈ w2, c.isLower = true := fun c hc => hw c (List.mem_cons_of_mem _ hc)
        have hrec := ih w2 rest hlit2 hnl2 hw2 hr
        simp [pstr, PRes.bind, hrec]
      · exact pstr_head_ne l2 (w2 ++ rest) hheq

/-- The master character-run lemma: a repetition of a one-character step
parser consumes exactly the run it accepts. -/
theorem pmany_chars (p : List Char → PRes Val) (val : Char → Val) :
    ∀ (f : Nat) (w rest : List Char),
    (∀ c (t : List Char), c ∈ w → p (c :: t) = .ok (val c) t) →
    p rest = .fail → w.length < f →
    pmany f p (w ++ rest) = .ok (w.map val) rest := by
  intro f w
  induction w generalizing f with
  | nil =>
    intro rest _ hstop hf
    cases f with
    | zero => omega
    | succ f1 => simp [pmany, hstop]
  | cons a w2 ih =>
    intro rest hstep hstop hf
    cases f with
    | zero => omega
    | succ f1 =>
      have ha : p (a :: (w2 ++ rest)) = .ok (val a) (w2 ++ rest) :=
        hstep a _ (List.mem_cons_self _ _)
      have hrec := ih f1 rest
        (fun c t hc => hstep c t (List.mem_cons_of_mem _ hc)) hstop (by simp at hf ⊢; omega)
      simp only [List.cons_append, pmany, ha, hrec, PRes.bind, List.map_cons]

/-- A repetition whose first step fails matches zero iterations. -/
theorem pmany_stop (p : List Char → PRes Val) (s : List Char) (f : Nat)
    (h : p s = .fail) (hf : 1 ≤ f) : pmany f p s = .ok [] s := by
  obtain ⟨g, rfl⟩ : ∃ g, f = g + 1 := ⟨f - 1, by omega⟩
  simp [pmany, h]

/-- Star form of `pmany_stop`. -/
theorem pstarV_stop (p : List Char → PRes Val) (s : List Char) (f : Nat)
    (h : p s = .fail) (hf : 1 ≤ f) : pstarV f p s = .ok (.vlist []) s := by
  simp [pstarV, pmany_stop p s f h hf, PRes.bind]

/-- Star form of the master character-run lemma. -/
theorem pstarV_chars (p : List Char → PRes Val) (val : Char → Val)
    (f : Nat) (w rest : List Char)
    (hstep : ∀ c (t : List Char), c ∈ w → p (c :: t) = .ok (val c) t)
    (hstop : p rest = .fail) (hf : w.length < f) :
    pstarV f p (w ++ rest) = .ok (.vlist (w.map val)) rest := by
  simp [pstarV, pmany_chars p val f w rest hstep hstop hf, PRes.bind]

/-- Plus form of the master character-run lemma. -/
theorem pplusV_chars (p : List Char → PRes Val) (val : Char → Val)
    (f : Nat) (a : Char) (w rest : List Char)
    (hstep : ∀ c (t : List Char), c ∈ a :: w → p (c :: t) = .ok (val c) t)
    (hstop : p rest = .fail) (hf : w.length < f) :
    pplusV f p ((a :: w) ++ rest) = .ok (.vlist ((a :: w).map val)) rest := by
  have h1 := hstep a (w ++ rest) (List.mem_cons_self _ _)
  have h2 := pmany_chars p val f w rest
    (fun c t hc => hstep c t (List.mem_cons_of_mem _ hc)) hstop hf
  simp [pplusV, List.cons_append, h1, h2, PRes.bind]

/-- A plus whose first step fails, fails. -/
theorem pplusV_fail (f : Nat) (p : List Char → PRes Val) (s : List Char)
    (h : p s = .fail) : pplusV f p s = .fail := by
  simp [pplusV, h, PRes.bind]

/-- Success of a repetition is preserved by raising the fuel. -/
theorem pmany_mono (p : List Char → PRes Val) :
    ∀ (f f' : Nat) (s : List Char) (vs : List Val) (r : List Char),
    pmany f p s = .ok vs r → f ≤ f' → pmany f' p s = .ok vs r := by
  intro f
  induction f with
  | zero => intro f' s vs r h _; simp [pmany] at h
  | succ f1 ih =>
    intro f' s vs r h hle
    obtain ⟨g, rfl⟩ : ∃ g, f' = g + 1 := ⟨f' - 1, by omega⟩
    cases hp : p s with
    | fail => simp [pmany, hp] at h ⊢; exact h
    | nofuel => simp [pmany, hp] at h
    | ok v r1 =>
      simp only [pmany, hp] at h ⊢
      obtain ⟨vs2, r2, h1, h2⟩ := bind_ok_inv h
      rw [ih g r1 vs2 r2 h1 (by omega)]
      exact h2

/-- One successful iteration in front of a repetition. -/
theorem pmany_cons_step (p : List Char → PRes Val) (s s' : List Char)
    (v : Val) (f : Nat) (vs : List Val) (r : List Char)
    (hstep : p s = .ok v s') (hrest : pmany f p s' = .ok vs r) :
    pmany (f + 1) p s = .ok (v :: vs) r := by
  simp [pmany, hstep, hrest, PRes.bind]

/-- A run of newline steps in front of a repetition: each consumes one
blank line and yields one `BlankLine` marker. -/
theorem pmany_blanks (p : List Char → PRes Val)
    (hstep : ∀ t, p ('\n' :: t) = .ok NewBlankLine t) :
    ∀ (N g : Nat) (rest : List Char) (vs : List Val) (r : List Char),
    pmany g p rest = .ok vs r →
    pmany (N + g) p (blanks N ++ rest) =
      .ok (List.replicate N NewBlankLine ++ vs) r := by
  intro N
  induction N with
  | zero => intro g rest vs r h; simpa [blanks] using h
  | succ n ih =>
    intro g rest vs r h
    have hmain := ih g rest vs r h
    have : blanks (n + 1) ++ rest = '\n' :: (blanks n ++ rest) := by
      simp [blanks, List.replicate_succ]
    rw [this]
    have hfuel : n + 1 + g = (n + g) + 1 := by omega
    rw [hfuel]
    rw [pmany_cons_step p _ _ _ _ _ _ (hstep _) hmain]
    simp [List.replicate_succ]

/-- `c.text` of a run: the consumed prefix in front of the remainder. -/
theorem taken_append (w rest : List Char) : taken (w ++ rest) rest = w := by
  simp [taken, List.length_append]

/-- A mismatch between a concrete non-lowercase character and a lowercase
one. -/
theorem lower_ne_of (c d : Char) (h : c.isLower = true)
    (hd : d.isLower = false) : c ≠ d := by
  intro hcd
  rw [hcd] at h
  rw [h] at hd
  cases hd

/-- WS fails on anything but a space or a tab. -/
theorem wsP_ne (c : Char) (t : List Char) (h1 : c ≠ ' ') (h2 : c ≠ '\t') :
    wsP (c :: t) = .fail := by
  have e1 : (" ".toList : List Char) = [' '] := rfl
  have e2 : ("\t".toList : List Char) = ['\t'] := rfl
  simp [wsP, por, e1, e2, pstr_head_ne _ _ (Ne.symm h1), pstr_head_ne _ _ (Ne.symm h2)]

/-- WS fails at the end of the input. -/
theorem wsP_nil : wsP [] = .fail := rfl

/-- WS fails on a lowercase letter. -/
theorem wsP_lower (c : Char) (t : List Char) (hc : c.isLower = true) :
    wsP (c :: t) = .fail :=
  wsP_ne c t (lower_ne_of c ' ' hc (by decide)) (lower_ne_of c '\t' hc (by decide))

/-- NEWLINE fails on anything but a carriage return or a line feed. -/
theorem newlineP_ne (c : Char) (t : List Char) (h1 : c ≠ '\r') (h2 : c ≠ '\n') :
    newlineP (c :: t) = .fail := by
  have e1 : ("\r\n".toList : List Char) = ['\r', '\n'] := rfl
  have e2 : ("\r".toList : List Char) = ['\r'] := rfl
  have e3 : ("\n".toList : List Char) = ['\n'] := rfl
  simp [newlineP, por, e1, e2, e3, pstr_head_ne _ _ (Ne.symm h1),
    pstr_head_ne _ _ (Ne.symm h2)]

/-- NEWLINE fails at the end of the input. -/
theorem newlineP_nil : newlineP [] = .fail := rfl

/-- NEWLINE consumes a line feed. -/
theorem newlineP_nl (t : List Char) : newlineP ('\n' :: t) = .ok (.vstr ['\n']) t := rfl

/-- EOF fails on remaining input. -/
theorem eofP_cons (c : Char) (t : List Char) : eofP (c :: t) = .fail := rfl

/-- EOF succeeds at the end of the input. -/
theorem eofP_nil : eofP [] = .ok .vnil [] := rfl

/-- EOL fails on anything but a newline or the end of the input. -/
theorem eolP_ne (c : Char) (t : List Char) (h1 : c ≠ '\r') (h2 : c ≠ '\n') :
    eolP (c :: t) = .fail := by
  simp [eolP, por, newlineP_ne c t h1 h2, eofP_cons]

/-- EOL fails on a lowercase letter. -/
theorem eolP_lower (c : Char) (t : List Char) (hc : c.isLower = true) :
    eolP (c :: t) = .fail :=
  eolP_ne c t (lower_ne_of c '\r' hc (by decide)) (lower_ne_of c '\n' hc (by decide))

/-- EOL consumes a line feed. -/
theorem eolP_nl (t : List Char) : eolP ('\n' :: t) = .ok (.vstr ['\n']) t := rfl

/-- EOL succeeds without consuming at the end of the input. -/
theorem eolP_nil : eolP [] = .ok .vnil [] := rfl

/-- A sequence guarded by `!EOF` fails when its body fails (the guard
itself fails exactly at the end of the input). -/
theorem pnot_eof_bind {β : Type} (s : List Char) (k : Val → List Char → PRes β)
    (hk : k .vnil s = .fail) : (pnot (eofP s) s).bind k = .fail := by
  cases s with
  | nil => rfl
  | cons c t => simpa [eofP, pany, pnot, PRes.bind] using hk

/-- A sequence guarded by `!EOF` proceeds with the input unchanged on a
non-empty input. -/
theorem pnot_eof_bind_cons {β : Type} (c : Char) (t : List Char)
    (k : Val → List Char → PRes β) :
    (pnot (eofP (c :: t)) (c :: t)).bind k = k .vnil (c :: t) := by
  simp [eofP, pany, pnot, PRes.bind]

/-- A character class fails on a character outside it. -/
theorem pcls_ne (fn : Char → Bool) (c : Char) (t : List Char)
    (h : fn c = false) : pcls fn (c :: t) = .fail := by
  simp [pcls, h]

/-- A character class fails at the end of the input. -/
theorem pcls_nil (fn : Char → Bool) : pcls fn [] = .fail := rfl

/-- Straight restatement of membership for the lowercase-word predicate. -/
theorem isLowerStr_head {a : Char} {w : Str} (h : IsLowerStr (a :: w)) :
    a.isLower = true ∧ IsLowerStr w :=
  ⟨h a (List.mem_cons_self _ _), fun c hc => h c (List.mem_cons_of_mem _ hc)⟩

/-- `pstr_fail_on_word` with the facts about the literal bundled for
`decide`. -/
theorem pstrFW (lit : Str) {w rest : List Char}
    (hlit : (∃ c ∈ lit, ¬ (c.isLower = true)) ∧ '\n' ∉ lit)
    (hw : IsLowerStr w) (hr : NlOrNil rest) :
    pstr lit (w ++ rest) = .fail :=
  pstr_fail_on_word lit w rest hlit.1 hlit.2 hw hr

-- ---------------------------------------------------------------------
-- Failure of the attribute rules on a plain word line.
-- ---------------------------------------------------------------------

/-- ElementAttribute fails on a plain word line: every alternative opens
with a bracket or a dot. -/
theorem elementAttributeP_fw (f : Nat) {w rest : List Char}
    (hw : IsLowerStr w) (hr : NlOrNil rest) :
    elementAttributeP f (w ++ rest) = .fail := by
  have h1 : pstr ['[', '['] (w ++ rest) = PRes.fail := pstrFW _ (by decide) hw hr
  have h2 : pstr ['[', '#'] (w ++ rest) = PRes.fail := pstrFW _ (by decide) hw hr
  have h3 : pstr ['.'] (w ++ rest) = PRes.fail := pstrFW _ (by decide) hw hr
  have h4 : pstr ['[', 'h', 'o', 'r', 'i', 'z', 'o', 'n', 't', 'a', 'l', ']'] (w ++ rest) = PRes.fail := pstrFW _ (by decide) hw hr
  have h5 : pstr ['['] (w ++ rest) = PRes.fail := pstrFW _ (by decide) hw hr
  simp [elementAttributeP, elementIDP, inlineElementIDP, elementTitleP,
    admonitionMarkerAttributeP, horizontalLayoutP, attributeGroupP, por,
    PRes.bind, h1, h2, h3, h4, h5]

/-- VerseAttributes fails on a plain word line. -/
theorem verseAttributesP_fw (f : Nat) {w rest : List Char}
    (hw : IsLowerStr w) (hr : NlOrNil rest) :
    verseAttributesP f (w ++ rest) = .fail := by
  have h1 : pstr ['[', 'v', 'e', 'r', 's', 'e'] (w ++ rest) = PRes.fail := pstrFW _ (by decide) hw hr
  simp [verseAttributesP, por, PRes.bind, h1]

/-- MasqueradeAttribute fails on a plain word line. -/
theorem masqueradeAttributeP_fw (f : Nat) {w rest : List Char}
    (hw : IsLowerStr w) (hr : NlOrNil rest) :
    masqueradeAttributeP f (w ++ rest) = .fail := by
  simp [masqueradeAttributeP, PRes.bind, verseAttributesP_fw f hw hr]

/-- ParagraphAttribute fails on a plain word line. -/
theorem paragraphAttributeP_fw (f : Nat) {w rest : List Char}
    (hw : IsLowerStr w) (hr : NlOrNil rest) :
    paragraphAttributeP f (w ++ rest) = .fail := by
  simp [paragraphAttributeP, por, masqueradeAttributeP_fw f hw hr,
    elementAttributeP_fw f hw hr]

/-- VerseBlockAttribute fails on a plain word line. -/
theorem verseBlockAttributeP_fw (f : Nat) {w rest : List Char}
    (hw : IsLowerStr w) (hr : NlOrNil rest) :
    verseBlockAttributeP f (w ++ rest) = .fail := by
  simp [verseBlockAttributeP, por, PRes.bind, verseAttributesP_fw f hw hr,
    elementAttributeP_fw f hw hr]

-- ---------------------------------------------------------------------
-- Failure of the section rules on a plain word line.
-- ---------------------------------------------------------------------

/-- Section5Title fails on a plain word line. -/
theorem section5TitleP_fw (f : Nat) (hf : 1 ≤ f) {w rest : List Char}
    (hw : IsLowerStr w) (hr : NlOrNil rest) :
    section5TitleP f (w ++ rest) = .fail := by
  have hm := pmany_stop (fun t => elementAttributeP f t) (w ++ rest) f
    (elementAttributeP_fw f hw hr) hf
  have hp : pstr ['=', '=', '=', '=', '=', '='] (w ++ rest) = PRes.fail := pstrFW _ (by decide) hw hr
  simp [section5TitleP, hm, hp, PRes.bind]

/-- Section4Title fails on a plain word line. -/
theorem section4TitleP_fw (f : Nat) (hf : 1 ≤ f) {w rest : List Char}
    (hw : IsLowerStr w) (hr : NlOrNil rest) :
    section4TitleP f (w ++ rest) = .fail := by
  have hm := pmany_stop (fun t => elementAttributeP f t) (w ++ rest) f
    (elementAttributeP_fw f hw hr) hf
  have hp : pstr ['=', '=', '=', '=', '='] (w ++ rest) = PRes.fail := pstrFW _ (by decide) hw hr
  simp [section4TitleP, hm, hp, PRes.bind]

/-- Section3Title fails on a plain word line. -/
theorem section3TitleP_fw (f : Nat) (hf : 1 ≤ f) {w rest : List Char}
    (hw : IsLowerStr w) (hr : NlOrNil rest) :
    section3TitleP f (w ++ rest) = .fail := by
  have hm := pmany_stop (fun t => elementAttributeP f t) (w ++ rest) f
    (elementAttributeP_fw f hw hr) hf
  have hp : pstr ['=', '=', '=', '='] (w ++ rest) = PRes.fail := pstrFW _ (by decide) hw hr
  simp [section3TitleP, hm, hp, PRes.bind]

/-- Section2Title fails on a plain word line. -/
theorem section2TitleP_fw (f : Nat) (hf : 1 ≤ f) {w rest : List Char}
    (hw : IsLowerStr w) (hr : NlOrNil rest) :
    section2TitleP f (w ++ rest) = .fail := by
  have hm := pmany_stop (fun t => elementAttributeP f t) (w ++ rest) f
    (elementAttributeP_fw f hw hr) hf
  have hp : pstr ['=', '=', '='] (w ++ rest) = PRes.fail := pstrFW _ (by decide) hw hr
  simp [section2TitleP, hm, hp, PRes.bind]

/-- Section1Title fails on a plain word line. -/
theorem section1TitleP_fw (f : Nat) (hf : 1 ≤ f) {w rest : List Char}
    (hw : IsLowerStr w) (hr : NlOrNil rest) :
    section1TitleP f (w ++ rest) = .fail := by
  have hm := pmany_stop (fun t => elementAttributeP f t) (w ++ rest) f
    (elementAttributeP_fw f hw hr) hf
  have hp : pstr ['=', '='] (w ++ rest) = PRes.fail := pstrFW _ (by decide) hw hr
  simp [section1TitleP, hm, hp, PRes.bind]

/-- Section0Title fails on a plain word line. -/
theorem section0TitleP_fw (f : Nat) (hf : 1 ≤ f) {w rest : List Char}
    (hw : IsLowerStr w) (hr : NlOrNil rest) :
    section0TitleP f (w ++ rest) = .fail := by
  have hm := pmany_stop (fun t => elementAttributeP f t) (w ++ rest) f
    (elementAttributeP_fw f hw hr) hf
  have hp : pstr ['='] (w ++ rest) = PRes.fail := pstrFW _ (by decide) hw hr
  simp [section0TitleP, hm, hp, PRes.bind]

/-- Section5 fails on a plain word line. -/
theorem section5P_fw (f : Nat) (hf : 1 ≤ f) {w rest : List Char}
    (hw : IsLowerStr w) (hr : NlOrNil rest) :
    section5P f (w ++ rest) = .fail := by
  simp only [section5P]
  apply pnot_eof_bind
  simp [section5TitleP_fw f hf hw hr, PRes.bind]

/-- Section4 fails on a plain word line. -/
theorem section4P_fw (f : Nat) (hf : 1 ≤ f) {w rest : List Char}
    (hw : IsLowerStr w) (hr : NlOrNil rest) :
    section4P f (w ++ rest) = .fail := by
  simp only [section4P]
  apply pnot_eof_bind
  simp [section4TitleP_fw f hf hw hr, PRes.bind]

/-- Section3 fails on a plain word line. -/
theorem section3P_fw (f : Nat) (hf : 1 ≤ f) {w rest : List Char}
    (hw : IsLowerStr w) (hr : NlOrNil rest) :
    section3P f (w ++ rest) = .fail := by
  simp only [section3P]
  apply pnot_eof_bind
  simp [section3TitleP_fw f hf hw hr, PRes.bind]

/-- Section2 fails on a plain word line. -/
theorem section2P_fw (f : Nat) (hf : 1 ≤ f) {w rest : List Char}
    (hw : IsLowerStr w) (hr : NlOrNil rest) :
    section2P f (w ++ rest) = .fail := by
  simp only [section2P]
  apply pnot_eof_bind
  simp [section2TitleP_fw f hf hw hr, PRes.bind]

/-- Section1 fails on a plain word line. -/
theorem section1P_fw (f : Nat) (hf : 1 ≤ f) {w rest : List Char}
    (hw : IsLowerStr w) (hr : NlOrNil rest) :
    section1P f (w ++ rest) = .fail := by
  simp only [section1P]
  apply pnot_eof_bind
  simp [section1TitleP_fw f hf hw hr, PRes.bind]

/-- Section0 fails on a plain word line. -/
theorem section0P_fw (f : Nat) (hf : 2 ≤ f) {w rest : List Char}
    (hw : IsLowerStr w) (hr : NlOrNil rest) :
    section0P f (w ++ rest) = .fail := by
  obtain ⟨g, rfl⟩ : ∃ g, f = g + 1 := ⟨f - 1, by omega⟩
  simp only [section0P]
  apply pnot_eof_bind
  simp [section0TitleP_fw g (by omega) hw hr, PRes.bind]

/-- Section fails on a plain word line. -/
theorem sectionP_fw (f : Nat) (hf : 2 ≤ f) {w rest : List Char}
    (hw : IsLowerStr w) (hr : NlOrNil rest) :
    sectionP f (w ++ rest) = .fail := by
  simp only [sectionP]
  apply pnot_eof_bind
  simp [por, section0P_fw f hf hw hr, section1P_fw f (by omega) hw hr,
    section2P_fw f (by omega) hw hr, section3P_fw f (by omega) hw hr,
    section4P_fw f (by omega) hw hr, section5P_fw f (by omega) hw hr]

-- ---------------------------------------------------------------------
-- Plain word lines through the inline-element rules.
-- ---------------------------------------------------------------------

/-- A lowercase letter is not a digit. -/
theorem lower_not_digit (c : Char) (h : c.isLower = true) : c.isDigit = false := by
  simp [Char.isLower] at h
  simp [Char.isDigit]
  intro h1
  have h3 : (97 : UInt32).toNat ≤ c.val.toNat := h.1
  have e : (97 : UInt32).toNat = 97 := rfl
  have e2 : (57 : UInt32).toNat = 57 := rfl
  show (57 : UInt32).toNat < c.val.toNat
  omega

/-- A lowercase letter is not uppercase. -/
theorem lower_not_upper (c : Char) (h : c.isLower = true) : c.isUpper = false := by
  simp [Char.isLower] at h
  simp [Char.isUpper]
  intro h1
  have h3 : (97 : UInt32).toNat ≤ c.val.toNat := h.1
  have e : (97 : UInt32).toNat = 97 := rfl
  have e2 : (90 : UInt32).toNat = 90 := rfl
  show (90 : UInt32).toNat < c.val.toNat
  omega

/-- Word consumes a whole lowercase run up to the end of the line. -/
theorem wordP_word (f : Nat) {a : Char} {w : List Char} {rest : List Char}
    (hw : IsLowerStr (a :: w)) (hr : NlOrNil rest) (hf : w.length < f) :
    wordP f ((a :: w) ++ rest) = .ok (.vstr (a :: w)) rest := by
  have hstep : ∀ c (t : List Char), c ∈ a :: w →
      ((pnot (newlineP (c :: t)) (c :: t)).bind fun n1 t1 =>
       (pnot (wsP t1) t1).bind fun n2 t2 =>
       (pany t2).bind fun c2 t3 => PRes.ok (Val.vlist [n1, n2, c2]) t3) =
      PRes.ok (Val.vlist [Val.vnil, Val.vnil, Val.vstr [c]]) t := by
    intro c t hc
    have hcl := hw c hc
    rw [newlineP_ne c t (lower_ne_of c '\r' hcl (by decide))
      (lower_ne_of c '\n' hcl (by decide))]
    simp [pnot, PRes.bind, wsP_lower c t hcl, pany]
  have hstop :
      ((pnot (newlineP rest) rest).bind fun n1 t1 =>
       (pnot (wsP t1) t1).bind fun n2 t2 =>
       (pany t2).bind fun c2 t3 => PRes.ok (Val.vlist [n1, n2, c2]) t3) =
      PRes.fail := by
    rcases hr with rfl | ⟨u, rfl⟩
    · simp [pnot, newlineP_nil, wsP_nil, pany, PRes.bind]
    · simp [pnot, newlineP_nl, PRes.bind]
  have hp := pplusV_chars
    (fun t =>
      (pnot (newlineP t) t).bind fun n1 t1 =>
      (pnot (wsP t1) t1).bind fun n2 t2 =>
      (pany t2).bind fun c2 t3 => PRes.ok (Val.vlist [n1, n2, c2]) t3)
    (fun c => Val.vlist [Val.vnil, Val.vnil, Val.vstr [c]]) f a w rest
    (fun c t hc => hstep c t hc) hstop hf
  simp only [wordP]
  rw [hp]
  simp [PRes.bind]
  simpa using taken_append (a :: w) rest

/-- CrossReference fails on a plain word line. -/
theorem crossReferenceP_fw (f : Nat) {w rest : List Char}
    (hw : IsLowerStr w) (hr : NlOrNil rest) :
    crossReferenceP f (w ++ rest) = .fail := by
  have h1 : pstr ['<', '<'] (w ++ rest) = PRes.fail := pstrFW _ (by decide) hw hr
  simp [crossReferenceP, PRes.bind, h1]

/-- Passthrough fails on a plain word line. -/
theorem passthroughP_fw (f : Nat) {w rest : List Char}
    (hw : IsLowerStr w) (hr : NlOrNil rest) :
    passthroughP f (w ++ rest) = .fail := by
  have h1 : pstr ['+', '+', '+'] (w ++ rest) = PRes.fail := pstrFW _ (by decide) hw hr
  have h2 : pstr ['+'] (w ++ rest) = PRes.fail := pstrFW _ (by decide) hw hr
  have h3 : pstr ['p', 'a', 's', 's', ':', '['] (w ++ rest) = PRes.fail :=
    pstrFW _ (by decide) hw hr
  have h4 : pstr ['p', 'a', 's', 's', ':', 'q', '['] (w ++ rest) = PRes.fail :=
    pstrFW _ (by decide) hw hr
  simp [passthroughP, triplePlusPassthroughP, singlePlusPassthroughP,
    passthroughMacroP, por, PRes.bind, h1, h2, h3, h4]

/-- InlineImage fails on a plain word line. -/
theorem inlineImageP_fw (f : Nat) {w rest : List Char}
    (hw : IsLowerStr w) (hr : NlOrNil rest) :
    inlineImageP f (w ++ rest) = .fail := by
  have h1 : pstr ['i', 'm', 'a', 'g', 'e', ':'] (w ++ rest) = PRes.fail :=
    pstrFW _ (by decide) hw hr
  simp [inlineImageP, inlineImageMacroP, PRes.bind, h1]

/-- Link fails on a plain word line. -/
theorem linkP_fw (f : Nat) {w rest : List Char}
    (hw : IsLowerStr w) (hr : NlOrNil rest) :
    linkP f (w ++ rest) = .fail := by
  have h1 : pstr ['l', 'i', 'n', 'k', ':'] (w ++ rest) = PRes.fail :=
    pstrFW _ (by decide) hw hr
  have h2 : pstr ['h', 't', 't', 'p', ':', '/', '/'] (w ++ rest) = PRes.fail :=
    pstrFW _ (by decide) hw hr
  have h3 : pstr ['h', 't', 't', 'p', 's', ':', '/', '/'] (w ++ rest) = PRes.fail :=
    pstrFW _ (by decide) hw hr
  have h4 : pstr ['f', 't', 'p', ':', '/', '/'] (w ++ rest) = PRes.fail :=
    pstrFW _ (by decide) hw hr
  have h5 : pstr ['i', 'r', 'c', ':', '/', '/'] (w ++ rest) = PRes.fail :=
    pstrFW _ (by decide) hw hr
  have h6 : pstr ['m', 'a', 'i', 'l', 't', 'o', ':'] (w ++ rest) = PRes.fail :=
    pstrFW _ (by decide) hw hr
  simp [linkP, relativeLinkP, externalLinkP, urlSchemeP, por, PRes.bind,
    h1, h2, h3, h4, h5, h6]

/-- DocumentAttributeSubstitution fails on a plain word line. -/
theorem documentAttributeSubstitutionP_fw (f : Nat) {w rest : List Char}
    (hw : IsLowerStr w) (hr : NlOrNil rest) :
    documentAttributeSubstitutionP f (w ++ rest) = .fail := by
  have h1 : pstr ['\x7b'] (w ++ rest) = PRes.fail := pstrFW _ (by decide) hw hr
  simp [documentAttributeSubstitutionP, PRes.bind, h1]

/-- QuotedText fails on a plain word line. -/
theorem quotedTextP_fw (f : Nat) (hf : 2 ≤ f) {w rest : List Char}
    (hw : IsLowerStr w) (hr : NlOrNil rest) :
    quotedTextP f (w ++ rest) = .fail := by
  obtain ⟨g, rfl⟩ : ∃ g, f = g + 2 := ⟨f - 2, by omega⟩
  have hbb : pstr ['\\', '\\'] (w ++ rest) = PRes.fail := pstrFW _ (by decide) hw hr
  have hb : pstr ['\\'] (w ++ rest) = PRes.fail := pstrFW _ (by decide) hw hr
  have hss : pstr ['*', '*'] (w ++ rest) = PRes.fail := pstrFW _ (by decide) hw hr
  have hs : pstr ['*'] (w ++ rest) = PRes.fail := pstrFW _ (by decide) hw hr
  have huu : pstr ['_', '_'] (w ++ rest) = PRes.fail := pstrFW _ (by decide) hw hr
  have hu : pstr ['_'] (w ++ rest) = PRes.fail := pstrFW _ (by decide) hw hr
  have hqq : pstr ['`', '`'] (w ++ rest) = PRes.fail := pstrFW _ (by decide) hw hr
  have hq : pstr ['`'] (w ++ rest) = PRes.fail := pstrFW _ (by decide) hw hr
  simp [quotedTextP, boldTextP, italicTextP, monospaceTextP, escapedBoldTextP,
    escapedItalicTextP, escapedMonospaceTextP, por, pnot, PRes.bind,
    hbb, hb, hss, hs, huu, hu, hqq, hq]

/-- InlineElement resolves to Word on a plain word line. -/
theorem inlineElementP_word (f : Nat) {a : Char} {w rest : List Char}
    (hw : IsLowerStr (a :: w)) (hr : NlOrNil rest) (hf : w.length + 2 ≤ f) :
    inlineElementP f ((a :: w) ++ rest) = .ok (.vstr (a :: w)) rest := by
  have hcross := crossReferenceP_fw f hw hr
  have hpass := passthroughP_fw f hw hr
  have himg := inlineImageP_fw f hw hr
  have hquot := quotedTextP_fw f (by omega) hw hr
  have hlink := linkP_fw f hw hr
  have hsub := documentAttributeSubstitutionP_fw f hw hr
  have hword := wordP_word f hw hr (by omega)
  simp only [List.cons_append] at hcross hpass himg hquot hlink hsub hword ⊢
  simp [inlineElementP, por, hcross, hpass, himg, hquot, hlink, hsub, hword]

-- ---------------------------------------------------------------------
-- Plain word lines through the InlineElements rule.
-- ---------------------------------------------------------------------

/-- SingleLineComment fails on a plain word line. -/
theorem singleLineCommentP_fw (f : Nat) {w rest : List Char}
    (hw : IsLowerStr w) (hr : NlOrNil rest) :
    singleLineCommentP f (w ++ rest) = .fail := by
  have h1 : pstr ['/', '/', '/', '/'] (w ++ rest) = PRes.fail := pstrFW _ (by decide) hw hr
  have h2 : pstr ['/', '/'] (w ++ rest) = PRes.fail := pstrFW _ (by decide) hw hr
  simp [singleLineCommentP, commentBlockDelimiterP, pnot, PRes.bind, h1, h2]

/-- BlockDelimiter fails on a plain word line. -/
theorem blockDelimiterP_fw {w rest : List Char}
    (hw : IsLowerStr w) (hr : NlOrNil rest) :
    blockDelimiterP (w ++ rest) = .fail := by
  have h1 : pstr ['.', '.', '.', '.'] (w ++ rest) = PRes.fail := pstrFW _ (by decide) hw hr
  have h2 : pstr ['`', '`', '`'] (w ++ rest) = PRes.fail := pstrFW _ (by decide) hw hr
  have h3 : pstr ['-', '-', '-', '-'] (w ++ rest) = PRes.fail := pstrFW _ (by decide) hw hr
  have h4 : pstr ['=', '=', '=', '='] (w ++ rest) = PRes.fail := pstrFW _ (by decide) hw hr
  have h5 : pstr ['/', '/', '/', '/'] (w ++ rest) = PRes.fail := pstrFW _ (by decide) hw hr
  have h6 : pstr ['_', '_', '_', '_'] (w ++ rest) = PRes.fail := pstrFW _ (by decide) hw hr
  simp [blockDelimiterP, literalBlockDelimiterP, fencedBlockDelimiterP,
    listingBlockDelimiterP, exampleBlockDelimiterP, commentBlockDelimiterP,
    verseBlockDelimiterP, por, h1, h2, h3, h4, h5, h6]

/-- InlineElementID fails on a plain word line. -/
theorem inlineElementIDP_fw (f : Nat) {w rest : List Char}
    (hw : IsLowerStr w) (hr : NlOrNil rest) :
    inlineElementIDP f (w ++ rest) = .fail := by
  have h1 : pstr ['[', '['] (w ++ rest) = PRes.fail := pstrFW _ (by decide) hw hr
  simp [inlineElementIDP, PRes.bind, h1]

/-- Constructor reduction for sequencing: failure short-circuits. -/
theorem bind_fail {α β : Type} (k : α → List Char → PRes β) :
    (PRes.fail : PRes α).bind k = (.fail : PRes β) := rfl

/-- Constructor reduction for sequencing: success continues. -/
theorem bind_ok {α β : Type} (v : α) (r : List Char) (k : α → List Char → PRes β) :
    (PRes.ok v r : PRes α).bind k = k v r := rfl

/-- Constructor reduction for ordered choice: failure takes the next
alternative. -/
theorem por_fail {α : Type} (q : Unit → PRes α) :
    por (.fail : PRes α) q = q () := rfl

/-- Constructor reduction for the not-predicate on failure. -/
theorem pnot_fail {α : Type} (s : List Char) :
    pnot (.fail : PRes α) s = .ok .vnil s := rfl

/-- Constructor reduction for the not-predicate on success. -/
theorem pnot_ok {α : Type} (v : α) (r s : List Char) :
    pnot (.ok v r : PRes α) s = .fail := rfl

/-- Constructor reduction for the option combinator on failure. -/
theorem popt_fail (s : List Char) : popt .fail s = .ok .vnil s := rfl

/-- Constructor reduction for the option combinator on success. -/
theorem popt_ok (v : Val) (r s : List Char) : popt (.ok v r) s = .ok v r := rfl

/-- InlineElements consumes one plain word line up to and including its
newline, producing a single merged string element. -/
theorem inlineElementsP_word (f : Nat) {a : Char} {w : List Char} (u : List Char)
    (hw : IsLowerStr (a :: w)) (hf : w.length + 4 <= f) :
    inlineElementsP f ((a :: w) ++ '\n' :: u) = .ok (lineOf (a :: w)) u := by
  have hr : NlOrNil ('\n' :: u) := Or.inr (Exists.intro u rfl)
  have hslc := singleLineCommentP_fw f hw hr
  have hbd := blockDelimiterP_fw hw hr
  have hid := inlineElementIDP_fw f hw hr
  have hinw := inlineElementP_word f hw hr (by omega)
  have ha := (isLowerStr_head hw).1
  simp only [List.cons_append] at hslc hbd hid hinw ⊢
  have hit1 :
      ((pnot (eolP (a :: (w ++ '\n' :: u))) (a :: (w ++ '\n' :: u))).bind fun n1 t1 =>
       (pstarV f wsP t1).bind fun ws1 t2 =>
       (pnot (inlineElementIDP f t2) t2).bind fun n2 t3 =>
       (inlineElementP f t3).bind fun e t4 =>
       (pstarV f wsP t4).bind fun ws2 t5 =>
       PRes.ok (Val.vlist [n1, ws1, n2, e, ws2]) t5) =
      PRes.ok (Val.vlist [Val.vnil, Val.vlist [], Val.vnil, Val.vstr (a :: w),
        Val.vlist []]) ('\n' :: u) := by
    rw [eolP_lower a _ ha]
    simp only [pnot_fail, bind_ok]
    rw [pstarV_stop wsP _ f (wsP_lower a _ ha) (by omega)]
    simp only [bind_ok]
    rw [hid]
    simp only [pnot_fail, bind_ok]
    rw [hinw]
    simp only [bind_ok]
    rw [pstarV_stop wsP _ f (wsP_ne '\n' u (by decide) (by decide)) (by omega)]
    rfl
  have hit2 :
      ((pnot (eolP ('\n' :: u)) ('\n' :: u)).bind fun n1 t1 =>
       (pstarV f wsP t1).bind fun ws1 t2 =>
       (pnot (inlineElementIDP f t2) t2).bind fun n2 t3 =>
       (inlineElementP f t3).bind fun e t4 =>
       (pstarV f wsP t4).bind fun ws2 t5 =>
       PRes.ok (Val.vlist [n1, ws1, n2, e, ws2]) t5) = PRes.fail := by
    rw [eolP_nl]
    simp only [pnot_ok, bind_fail]
  simp only [inlineElementsP]
  rw [hslc]
  simp only [bind_fail, por_fail]
  rw [pnot_eof_bind_cons]
  rw [hbd]
  simp only [pnot_fail, bind_ok]
  simp only [pplusV]
  rw [hit1]
  simp only [bind_ok]
  rw [pmany_stop _ _ f hit2 (by omega)]
  simp only [bind_ok]
  rw [eolP_nl]
  simp only [bind_ok]
  rfl

/-- InlineElements consumes a plain word line that ends at the end of
the input. -/
theorem inlineElementsP_word_eof (f : Nat) {a : Char} {w : List Char}
    (hw : IsLowerStr (a :: w)) (hf : w.length + 4 <= f) :
    inlineElementsP f (a :: w) = .ok (lineOf (a :: w)) [] := by
  have hr : NlOrNil ([] : List Char) := Or.inl rfl
  have hslc := singleLineCommentP_fw f hw hr
  have hbd := blockDelimiterP_fw hw hr
  have hid := inlineElementIDP_fw f hw hr
  have hinw := inlineElementP_word f hw hr (by omega)
  have ha := (isLowerStr_head hw).1
  simp only [List.cons_append, List.append_nil] at hslc hbd hid hinw
  have hit1 :
      ((pnot (eolP (a :: w)) (a :: w)).bind fun n1 t1 =>
       (pstarV f wsP t1).bind fun ws1 t2 =>
       (pnot (inlineElementIDP f t2) t2).bind fun n2 t3 =>
       (inlineElementP f t3).bind fun e t4 =>
       (pstarV f wsP t4).bind fun ws2 t5 =>
       PRes.ok (Val.vlist [n1, ws1, n2, e, ws2]) t5) =
      PRes.ok (Val.vlist [Val.vnil, Val.vlist [], Val.vnil, Val.vstr (a :: w),
        Val.vlist []]) [] := by
    rw [eolP_lower a _ ha]
    simp only [pnot_fail, bind_ok]
    rw [pstarV_stop wsP _ f (wsP_lower a _ ha) (by omega)]
    simp only [bind_ok]
    rw [hid]
    simp only [pnot_fail, bind_ok]
    rw [hinw]
    simp only [bind_ok]
    rw [pstarV_stop wsP _ f wsP_nil (by omega)]
    rfl
  have hit2 :
      ((pnot (eolP ([] : List Char)) ([] : List Char)).bind fun n1 t1 =>
       (pstarV f wsP t1).bind fun ws1 t2 =>
       (pnot (inlineElementIDP f t2) t2).bind fun n2 t3 =>
       (inlineElementP f t3).bind fun e t4 =>
       (pstarV f wsP t4).bind fun ws2 t5 =>
       PRes.ok (Val.vlist [n1, ws1, n2, e, ws2]) t5) = PRes.fail := by
    rw [eolP_nil]
    simp only [pnot_ok, bind_fail]
  simp only [inlineElementsP]
  rw [hslc]
  simp only [bind_fail, por_fail]
  rw [pnot_eof_bind_cons]
  rw [hbd]
  simp only [pnot_fail, bind_ok]
  simp only [pplusV]
  rw [hit1]
  simp only [bind_ok]
  rw [pmany_stop _ _ f hit2 (by omega)]
  simp only [bind_ok]
  rw [eolP_nil]
  simp only [bind_ok]
  rfl

/-- InlineElements fails at a blank line or at the end of the input. -/
theorem inlineElementsP_fail (f : Nat) {rest : List Char} (hr : NlOrNil rest) :
    inlineElementsP f rest = .fail := by
  rcases hr with rfl | ⟨u, rfl⟩
  · simp [inlineElementsP, singleLineCommentP, commentBlockDelimiterP, pstr,
      pnot, por, PRes.bind, eofP_nil]
  · have hcd : commentBlockDelimiterP ('\n' :: u) = .fail := by
      simp [commentBlockDelimiterP]
      exact pstr_head_ne _ _ (by decide)
    have hsl : pstr ['/', '/'] ('\n' :: u) = PRes.fail := pstr_head_ne _ _ (by decide)
    have hbd : blockDelimiterP ('\n' :: u) = .fail := by
      simp [blockDelimiterP, literalBlockDelimiterP, fencedBlockDelimiterP,
        listingBlockDelimiterP, exampleBlockDelimiterP, commentBlockDelimiterP,
        verseBlockDelimiterP, por] <;>
      exact pstr_head_ne _ _ (by decide)
    simp [inlineElementsP, singleLineCommentP, pnot, por, PRes.bind, hcd, hsl,
      hbd, pplusV, eolP_nl, eofP_cons]

-- ---------------------------------------------------------------------
-- Plain word lines through the Paragraph rule.
-- ---------------------------------------------------------------------

/-- The paragraph line loop over plain word lines. -/
theorem pmany_lines (F : Nat) :
    ∀ (ws : List Str) (f : Nat) (rest : List Char),
    (∀ w ∈ ws, w ≠ [] ∧ IsLowerStr w) →
    (∀ w ∈ ws, w.length + 4 ≤ F) →
    inlineElementsP F rest = .fail → ws.length < f →
    pmany f (fun t => inlineElementsP F t) (joinNL ws ++ rest) =
      .ok (ws.map lineOf) rest := by
  intro ws
  induction ws with
  | nil =>
    intro f rest _ _ hstop hf
    simpa [joinNL] using
      pmany_stop (fun t => inlineElementsP F t) rest f hstop (by omega)
  | cons w ws ih =>
    intro f rest hws hfw hstop hf
    obtain ⟨g, rfl⟩ : ∃ g, f = g + 1 := ⟨f - 1, by omega⟩
    obtain ⟨hwne, hwl⟩ := hws w (List.mem_cons_self _ _)
    obtain ⟨a, w1, rfl⟩ := List.exists_cons_of_ne_nil hwne
    have hjoin : joinNL ((a :: w1) :: ws) ++ rest =
        (a :: w1) ++ '\n' :: (joinNL ws ++ rest) := by
      simp [joinNL]
    rw [hjoin]
    have hline : (fun t => inlineElementsP F t)
        ((a :: w1) ++ '\n' :: (joinNL ws ++ rest)) =
        .ok (lineOf (a :: w1)) (joinNL ws ++ rest) :=
      inlineElementsP_word F (joinNL ws ++ rest) hwl
        (by have := hfw _ (List.mem_cons_self _ _); simp at this; omega)
    have hrest := ih g rest (fun x hx => hws x (List.mem_cons_of_mem _ hx))
      (fun x hx => hfw x (List.mem_cons_of_mem _ hx)) hstop
      (by simp at hf ⊢; omega)
    rw [pmany_cons_step _ _ _ _ _ _ _ hline hrest]
    simp

/-- The paragraph filter keeps every inline-elements line. -/
theorem filter_lineOf (l : List Str) :
    (l.map lineOf).filter
      (fun v => match v with | Val.vinline _ => true | _ => false) =
      l.map lineOf := by
  induction l with
  | nil => rfl
  | cons w l ih => simp [lineOf, ih]

/-- Paragraph consumes one or more plain word lines and stops at a blank
line or at the end of the input, producing a plain paragraph. -/
theorem paragraphP_words (f : Nat) (ws : List Str) (rest : List Char)
    (hne : ws ≠ []) (hws : ∀ w ∈ ws, w ≠ [] ∧ IsLowerStr w) (hr : NlOrNil rest)
    (hfw : ∀ w ∈ ws, w.length + 4 ≤ f) (hfl : ws.length + 4 ≤ f) :
    paragraphP f (joinNL ws ++ rest) = .ok (paraOf ws) rest := by
  obtain ⟨w1, ws1, rfl⟩ := List.exists_cons_of_ne_nil hne
  obtain ⟨hw1ne, hw1l⟩ := hws _ (List.mem_cons_self _ _)
  obtain ⟨a, w2, rfl⟩ := List.exists_cons_of_ne_nil hw1ne
  have hjoin : joinNL ((a :: w2) :: ws1) ++ rest =
      (a :: w2) ++ '\n' :: (joinNL ws1 ++ rest) := by simp [joinNL]
  have hrr : NlOrNil ('\n' :: (joinNL ws1 ++ rest)) := Or.inr ⟨_, rfl⟩
  have hattr : (fun t => paragraphAttributeP f t)
      ((a :: w2) ++ '\n' :: (joinNL ws1 ++ rest)) = PRes.fail :=
    paragraphAttributeP_fw f hw1l hrr
  have hmattr := pmany_stop (fun t => paragraphAttributeP f t) _ f hattr (by omega)
  have hguard : sectionSeqGuardP f ((a :: w2) ++ '\n' :: (joinNL ws1 ++ rest)) =
      .fail := by
    have h1 : (fun t => pstr "=".toList t)
        ((a :: w2) ++ '\n' :: (joinNL ws1 ++ rest)) = PRes.fail :=
      pstrFW ['='] (by decide) hw1l hrr
    simp only [sectionSeqGuardP]
    rw [pplusV_fail f _ _ h1]
    rfl
  have hadm : admonitionKindP ((a :: w2) ++ '\n' :: (joinNL ws1 ++ rest)) =
      .fail := by
    have h1 : pstr ['T', 'I', 'P'] ((a :: w2) ++ '\n' :: (joinNL ws1 ++ rest)) =
        PRes.fail := pstrFW _ (by decide) hw1l hrr
    have h2 : pstr ['N', 'O', 'T', 'E'] ((a :: w2) ++ '\n' :: (joinNL ws1 ++ rest)) =
        PRes.fail := pstrFW _ (by decide) hw1l hrr
    have h3 : pstr ['I', 'M', 'P', 'O', 'R', 'T', 'A', 'N', 'T']
        ((a :: w2) ++ '\n' :: (joinNL ws1 ++ rest)) = PRes.fail :=
      pstrFW _ (by decide) hw1l hrr
    have h4 : pstr ['W', 'A', 'R', 'N', 'I', 'N', 'G']
        ((a :: w2) ++ '\n' :: (joinNL ws1 ++ rest)) = PRes.fail :=
      pstrFW _ (by decide) hw1l hrr
    have h5 : pstr ['C', 'A', 'U', 'T', 'I', 'O', 'N']
        ((a :: w2) ++ '\n' :: (joinNL ws1 ++ rest)) = PRes.fail :=
      pstrFW _ (by decide) hw1l hrr
    simp only [List.cons_append] at h1 h2 h3 h4 h5
    simp [admonitionKindP, por, PRes.bind, h1, h2, h3, h4, h5]
  have hline : inlineElementsP f
      ((a :: w2) ++ '\n' :: (joinNL ws1 ++ rest)) =
      .ok (lineOf (a :: w2)) (joinNL ws1 ++ rest) :=
    inlineElementsP_word f (joinNL ws1 ++ rest) hw1l
      (by have := hfw _ (List.mem_cons_self _ _); simp at this; omega)
  have hlines := pmany_lines f ws1 f rest
    (fun x hx => hws x (List.mem_cons_of_mem _ hx))
    (fun x hx => hfw x (List.mem_cons_of_mem _ hx))
    (inlineElementsP_fail f hr) (by simp at hfl; omega)
  rw [hjoin]
  simp only [paragraphP]
  rw [hmattr]
  simp only [bind_ok]
  rw [hguard]
  simp only [pnot_fail, bind_ok]
  rw [hadm]
  simp only [bind_fail, por_fail]
  simp only [pplusV]
  rw [hline]
  simp only [bind_ok]
  rw [hlines]
  simp only [bind_ok]
  have hfilter := filter_lineOf ((a :: w2) :: ws1)
  simp only [List.map_cons] at hfilter
  simp only [NewParagraph, NewElementAttributes, List.foldl_nil, asList, paraOf,
    List.map_cons, hfilter]

-- ---------------------------------------------------------------------
-- Plain word lines through the DocumentBlock alternatives.
-- ---------------------------------------------------------------------

/-- BlankLine fails on a plain word line. -/
theorem blankLineP_fw (f : Nat) (hf : 1 ≤ f) {a : Char} (w rest : List Char)
    (ha : a.isLower = true) :
    blankLineP f (a :: (w ++ rest)) = .fail := by
  simp only [blankLineP]
  rw [pnot_eof_bind_cons]
  rw [pmany_stop wsP _ f (wsP_lower a _ ha) hf]
  simp only [bind_ok]
  rw [eolP_lower a _ ha]
  rfl

/-- DocumentAttributeDeclaration fails on a plain word line. -/
theorem documentAttributeDeclarationP_fw (f : Nat) {w rest : List Char}
    (hw : IsLowerStr w) (hr : NlOrNil rest) :
    documentAttributeDeclarationP f (w ++ rest) = .fail := by
  have h1 : pstr [':'] (w ++ rest) = PRes.fail := pstrFW _ (by decide) hw hr
  simp [documentAttributeDeclarationP, documentAttributeDeclarationWithNameOnlyP,
    documentAttributeDeclarationWithNameAndValueP, por, PRes.bind, h1]

/-- DocumentAttributeReset fails on a plain word line. -/
theorem documentAttributeResetP_fw (f : Nat) {w rest : List Char}
    (hw : IsLowerStr w) (hr : NlOrNil rest) :
    documentAttributeResetP f (w ++ rest) = .fail := by
  have h1 : pstr [':', '!'] (w ++ rest) = PRes.fail := pstrFW _ (by decide) hw hr
  have h2 : pstr [':'] (w ++ rest) = PRes.fail := pstrFW _ (by decide) hw hr
  simp [documentAttributeResetP, documentAttributeResetWithSectionTitleBangSymbolP,
    documentAttributeResetWithTrailingBangSymbolP, por, PRes.bind, h1, h2]

/-- TableOfContentsMacro fails on a plain word line. -/
theorem tableOfContentsMacroP_fw {w rest : List Char}
    (hw : IsLowerStr w) (hr : NlOrNil rest) :
    tableOfContentsMacroP (w ++ rest) = .fail := by
  have h1 : pstr ['t', 'o', 'c', ':', ':', '[', ']'] (w ++ rest) = PRes.fail :=
    pstrFW _ (by decide) hw hr
  simp [tableOfContentsMacroP, PRes.bind, h1]

/-- OrderedListItemPrefix fails on a plain word line. -/
theorem orderedListItemPfxP_fw (f : Nat) (hf : 1 ≤ f) {a : Char} {w rest : List Char}
    (hw : IsLowerStr (a :: w)) (hr : NlOrNil rest) (hfw : w.length < f) :
    orderedListItemPfxP f (a :: (w ++ rest)) = .fail := by
  have ha := (isLowerStr_head hw).1
  have hm := pmany_stop wsP (a :: (w ++ rest)) f (wsP_lower a _ ha) hf
  have hdot : ∀ (l s' : List Char), pstr ('.' :: l) (a :: s') = PRes.fail :=
    fun l s' => pstr_head_ne _ _ (Ne.symm (lower_ne_of a '.' ha (by decide)))
  have hdig := pplusV_fail f (fun t => pcls Char.isDigit t) (a :: (w ++ rest))
    (pcls_ne _ a _ (lower_not_digit a ha))
  have hup := pplusV_fail f (fun t => pcls Char.isUpper t) (a :: (w ++ rest))
    (pcls_ne _ a _ (lower_not_upper a ha))
  have hstopL : pcls Char.isLower rest = .fail := by
    rcases hr with rfl | ⟨u, rfl⟩
    · exact pcls_nil _
    · exact pcls_ne _ _ _ (by decide)
  have hlow := pplusV_chars (fun t => pcls Char.isLower t) (fun c => Val.vstr [c])
    f a w rest (fun c t hc => by simp [pcls, hw c hc]) hstopL hfw
  simp only [List.cons_append] at hlow
  have hdotr : pstr ['.'] rest = PRes.fail := by
    rcases hr with rfl | ⟨u, rfl⟩
    · rfl
    · exact pstr_head_ne _ _ (by decide)
  have hparr : pstr [')'] rest = PRes.fail := by
    rcases hr with rfl | ⟨u, rfl⟩
    · rfl
    · exact pstr_head_ne _ _ (by decide)
  simp [orderedListItemPfxP, por, PRes.bind, hm, hdot, hdig, hup, hlow,
    hdotr, hparr]

/-- UnorderedListItemPrefix fails on a plain word line. -/
theorem unorderedListItemPfxP_fw (f : Nat) (hf : 1 ≤ f) {a : Char}
    (w rest : List Char) (ha : a.isLower = true) :
    unorderedListItemPfxP f (a :: (w ++ rest)) = .fail := by
  have hm := pmany_stop wsP (a :: (w ++ rest)) f (wsP_lower a _ ha) hf
  have hstar : ∀ (l s' : List Char), pstr ('*' :: l) (a :: s') = PRes.fail :=
    fun l s' => pstr_head_ne _ _ (Ne.symm (lower_ne_of a '*' ha (by decide)))
  have hdash : pstr ['-'] (a :: (w ++ rest)) = PRes.fail :=
    pstr_head_ne _ _ (Ne.symm (lower_ne_of a '-' ha (by decide)))
  simp [unorderedListItemPfxP, por, PRes.bind, hm, hstar, hdash]

/-- LabeledListItemTerm consumes a plain word. -/
theorem labeledListItemTermP_word (f : Nat) {a : Char} {w rest : List Char}
    (hw : IsLowerStr (a :: w)) (hr : NlOrNil rest) (hfw : w.length + 2 ≤ f) :
    labeledListItemTermP f (a :: (w ++ rest)) =
      .ok (.vlist ((a :: w).map (fun c => Val.vlist [Val.vnil, Val.vnil, Val.vstr [c]])))
        rest := by
  have hstep : ∀ c (t : List Char), c ∈ a :: w →
      ((pnot (newlineP (c :: t)) (c :: t)).bind fun n1 t1 =>
       (pnot (pstr "::".toList t1) t1).bind fun n2 t2 =>
       (pany t2).bind fun c2 t3 => PRes.ok (Val.vlist [n1, n2, c2]) t3) =
      PRes.ok (Val.vlist [Val.vnil, Val.vnil, Val.vstr [c]]) t := by
    intro c t hc
    have hcl := hw c hc
    rw [newlineP_ne c t (lower_ne_of c '\r' hcl (by decide))
      (lower_ne_of c '\n' hcl (by decide))]
    have hcolon : pstr [':', ':'] (c :: t) = PRes.fail :=
      pstr_head_ne _ _ (Ne.symm (lower_ne_of c ':' hcl (by decide)))
    simp [pnot, PRes.bind, hcolon, pany]
  have hstop :
      ((pnot (newlineP rest) rest).bind fun n1 t1 =>
       (pnot (pstr "::".toList t1) t1).bind fun n2 t2 =>
       (pany t2).bind fun c2 t3 => PRes.ok (Val.vlist [n1, n2, c2]) t3) =
      PRes.fail := by
    rcases hr with rfl | ⟨u, rfl⟩
    · simp [pnot, newlineP_nil, pstr, pany, PRes.bind]
    · simp [pnot, newlineP_nl, PRes.bind]
  have h := pstarV_chars
    (fun t =>
      (pnot (newlineP t) t).bind fun n1 t1 =>
      (pnot (pstr "::".toList t1) t1).bind fun n2 t2 =>
      (pany t2).bind fun c2 t3 => PRes.ok (Val.vlist [n1, n2, c2]) t3)
    (fun c => Val.vlist [Val.vnil, Val.vnil, Val.vstr [c]]) f (a :: w) rest
    (fun c t hc => hstep c t hc) hstop (by simp; omega)
  simp only [List.cons_append] at h
  simpa [labeledListItemTermP] using h

/-- LabeledListItem fails on a plain word line. -/
theorem labeledListItemP_fw (f : Nat) {a : Char} {w rest : List Char}
    (hf : w.length + 3 ≤ f) (hw : IsLowerStr (a :: w)) (hr : NlOrNil rest) :
    labeledListItemP f (a :: (w ++ rest)) = .fail := by
  obtain ⟨g, rfl⟩ : ∃ g, f = g + 1 := ⟨f - 1, by omega⟩
  have hterm := labeledListItemTermP_word g hw hr (by omega)
  have hsep : pstr [':', ':'] rest = PRes.fail := by
    rcases hr with rfl | ⟨u, rfl⟩
    · rfl
    · exact pstr_head_ne _ _ (by decide)
  simp [labeledListItemP, labeledListItemSepP, por, PRes.bind, hterm, hsep]

/-- OrderedListItem fails on a plain word line. -/
theorem orderedListItemP_fw (f : Nat) {a : Char} {w rest : List Char}
    (hf : w.length + 3 ≤ f) (hw : IsLowerStr (a :: w)) (hr : NlOrNil rest) :
    orderedListItemP f (a :: (w ++ rest)) = .fail := by
  obtain ⟨g, rfl⟩ : ∃ g, f = g + 1 := ⟨f - 1, by omega⟩
  have hattr := elementAttributeP_fw g hw hr
  simp only [List.cons_append] at hattr
  have hm := pmany_stop (fun t => elementAttributeP g t) (a :: (w ++ rest)) g
    hattr (by omega)
  simp [orderedListItemP, PRes.bind, hm,
    orderedListItemPfxP_fw g (by omega) hw hr (by omega)]

/-- UnorderedListItem fails on a plain word line. -/
theorem unorderedListItemP_fw (f : Nat) (hf : 2 ≤ f) {a : Char}
    (w rest : List Char) (ha : a.isLower = true) :
    unorderedListItemP f (a :: (w ++ rest)) = .fail := by
  obtain ⟨g, rfl⟩ : ∃ g, f = g + 1 := ⟨f - 1, by omega⟩
  simp [unorderedListItemP, PRes.bind,
    unorderedListItemPfxP_fw g (by omega) w rest ha]

/-- ListItems fails on a plain word line. -/
theorem listItemsP_fw (f : Nat) {a : Char} {w rest : List Char}
    (hf : w.length + 5 ≤ f) (hw : IsLowerStr (a :: w)) (hr : NlOrNil rest) :
    listItemsP f (a :: (w ++ rest)) = .fail := by
  obtain ⟨g, rfl⟩ : ∃ g, f = g + 1 := ⟨f - 1, by omega⟩
  simp only [listItemsP]
  apply pplusV_fail
  simp [por, orderedListItemP_fw g (by omega) hw hr,
    unorderedListItemP_fw g (by omega) w rest (isLowerStr_head hw).1,
    labeledListItemP_fw g (by omega) hw hr]

/-- List fails on a plain word line. -/
theorem listP_fw (f : Nat) {a : Char} {w rest : List Char}
    (hf : w.length + 7 ≤ f) (hw : IsLowerStr (a :: w)) (hr : NlOrNil rest) :
    listP f (a :: (w ++ rest)) = .fail := by
  obtain ⟨g, rfl⟩ : ∃ g, f = g + 1 := ⟨f - 1, by omega⟩
  have hattr := elementAttributeP_fw g hw hr
  simp only [List.cons_append] at hattr
  have hm := pmany_stop (fun t => elementAttributeP g t) (a :: (w ++ rest)) g
    hattr (by omega)
  simp [listP, PRes.bind, hm, listItemsP_fw g (by omega) hw hr]

/-- BlockImage fails on a plain word line. -/
theorem blockImageP_fw (f : Nat) (hf : 1 ≤ f) {a : Char} {w rest : List Char}
    (hw : IsLowerStr (a :: w)) (hr : NlOrNil rest) :
    blockImageP f (a :: (w ++ rest)) = .fail := by
  have hattr := elementAttributeP_fw f hw hr
  simp only [List.cons_append] at hattr
  have hm := pmany_stop (fun t => elementAttributeP f t) (a :: (w ++ rest)) f
    hattr hf
  have hp : pstr ['i', 'm', 'a', 'g', 'e', ':', ':'] ((a :: w) ++ rest) = PRes.fail :=
    pstrFW _ (by decide) hw hr
  simp only [List.cons_append] at hp
  simp [blockImageP, blockImageMacroP, PRes.bind, hm, hp]

/-- LiteralBlock fails on a plain word line. -/
theorem literalBlockP_fw (f : Nat) {a : Char} {w rest : List Char}
    (hw : IsLowerStr (a :: w)) (hr : NlOrNil rest) :
    literalBlockP f (a :: (w ++ rest)) = .fail := by
  have ha := (isLowerStr_head hw).1
  have h1 : paragraphWithSpacesP f (a :: (w ++ rest)) = .fail := by
    simp [paragraphWithSpacesP, PRes.bind,
      pplusV_fail f wsP _ (wsP_lower a _ ha)]
  have h2 : paragraphWithLiteralBlockDelimiterP f (a :: (w ++ rest)) = .fail := by
    have hd : pstr ['.', '.', '.', '.'] (a :: (w ++ rest)) = PRes.fail :=
      pstr_head_ne _ _ (Ne.symm (lower_ne_of a '.' ha (by decide)))
    simp [paragraphWithLiteralBlockDelimiterP, literalBlockDelimiterP, PRes.bind, hd]
  have h3 : paragraphWithLiteralAttributeP f (a :: (w ++ rest)) = .fail := by
    have hd : pstr ['[', 'l', 'i', 't', 'e', 'r', 'a', 'l', ']'] (a :: (w ++ rest)) = PRes.fail :=
      pstr_head_ne _ _ (Ne.symm (lower_ne_of a '[' ha (by decide)))
    simp [paragraphWithLiteralAttributeP, PRes.bind, hd]
  simp [literalBlockP, por, h1, h2, h3]

/-- DelimitedBlock fails on a plain word line. -/
theorem delimitedBlockP_fw (f : Nat) (hf : 3 ≤ f) {a : Char} {w rest : List Char}
    (hw : IsLowerStr (a :: w)) (hr : NlOrNil rest) :
    delimitedBlockP f (a :: (w ++ rest)) = .fail := by
  obtain ⟨g, rfl⟩ : ∃ g, f = g + 2 := ⟨f - 2, by omega⟩
  have ha := (isLowerStr_head hw).1
  have hattr := elementAttributeP_fw g hw hr
  simp only [List.cons_append] at hattr
  have hm := pmany_stop (fun t => elementAttributeP g t) (a :: (w ++ rest)) g
    hattr (by omega)
  have hvattr := verseBlockAttributeP_fw (g + 1) hw hr
  simp only [List.cons_append] at hvattr
  have hmv := pmany_stop (fun t => verseBlockAttributeP (g + 1) t)
    (a :: (w ++ rest)) (g + 1) hvattr (by omega)
  have hfen : fencedBlockP (g + 1) (a :: (w ++ rest)) = .fail := by
    have hd : pstr ['`', '`', '`'] (a :: (w ++ rest)) = PRes.fail :=
      pstr_head_ne _ _ (Ne.symm (lower_ne_of a '`' ha (by decide)))
    simp [fencedBlockP, fencedBlockDelimiterP, PRes.bind, hm, hd]
  have hlis : listingBlockP (g + 1) (a :: (w ++ rest)) = .fail := by
    have hd : pstr ['-', '-', '-', '-'] (a :: (w ++ rest)) = PRes.fail :=
      pstr_head_ne _ _ (Ne.symm (lower_ne_of a '-' ha (by decide)))
    simp [listingBlockP, listingBlockDelimiterP, PRes.bind, hm, hd]
  have hexa : exampleBlockP (g + 1) (a :: (w ++ rest)) = .fail := by
    have hd : pstr ['=', '=', '=', '='] (a :: (w ++ rest)) = PRes.fail :=
      pstr_head_ne _ _ (Ne.symm (lower_ne_of a '=' ha (by decide)))
    simp [exampleBlockP, exampleBlockDelimiterP, PRes.bind, hm, hd]
  have hcom : commentBlockP (g + 1) (a :: (w ++ rest)) = .fail := by
    have hattr2 := elementAttributeP_fw (g + 1) hw hr
    simp only [List.cons_append] at hattr2
    have hm2 := pmany_stop (fun t => elementAttributeP (g + 1) t)
      (a :: (w ++ rest)) (g + 1) hattr2 (by omega)
    have hd : pstr ['/', '/', '/', '/'] (a :: (w ++ rest)) = PRes.fail :=
      pstr_head_ne _ _ (Ne.symm (lower_ne_of a '/' ha (by decide)))
    simp [commentBlockP, commentBlockDelimiterP, PRes.bind, hm2, hd]
  have hver : verseBlockP (g + 1) (a :: (w ++ rest)) = .fail := by
    have hd : pstr ['_', '_', '_', '_'] (a :: (w ++ rest)) = PRes.fail :=
      pstr_head_ne _ _ (Ne.symm (lower_ne_of a '_' ha (by decide)))
    simp [verseBlockP, verseBlockDelimiterP, PRes.bind, hmv, hd]
  simp [delimitedBlockP, por, hfen, hlis, hexa, hcom, hver]

-- ---------------------------------------------------------------------
-- DocumentBlock and Section steps for the document loop.
-- ---------------------------------------------------------------------

/-- DocumentBlock on plain word lines: the Paragraph alternative wins. -/
theorem documentBlockP_words (f : Nat) (ws : List Str) (rest : List Char)
    (hne : ws ≠ []) (hws : ∀ w ∈ ws, w ≠ [] ∧ IsLowerStr w) (hr : NlOrNil rest)
    (hfw : ∀ w ∈ ws, w.length + 8 ≤ f) (hfl : ws.length + 8 ≤ f) :
    documentBlockP f (joinNL ws ++ rest) = .ok (paraOf ws) rest := by
  obtain ⟨g, rfl⟩ : ∃ g, f = g + 1 := ⟨f - 1, by omega⟩
  obtain ⟨w1, ws1, rfl⟩ := List.exists_cons_of_ne_nil hne
  obtain ⟨hw1ne, hw1l⟩ := hws _ (List.mem_cons_self _ _)
  obtain ⟨a, w2, rfl⟩ := List.exists_cons_of_ne_nil hw1ne
  have ha := (isLowerStr_head hw1l).1
  have hw1f := hfw _ (List.mem_cons_self _ _)
  have hw1f2 : w2.length + 9 ≤ g + 1 := by simp at hw1f; omega
  have hjoin : joinNL ((a :: w2) :: ws1) ++ rest =
      a :: (w2 ++ '\n' :: (joinNL ws1 ++ rest)) := by simp [joinNL]
  have hrr : NlOrNil ('\n' :: (joinNL ws1 ++ rest)) := Or.inr ⟨_, rfl⟩
  have hblank := blankLineP_fw g (by omega) w2 ('\n' :: (joinNL ws1 ++ rest)) ha
  have hdad := documentAttributeDeclarationP_fw g hw1l hrr
  have hdar := documentAttributeResetP_fw g hw1l hrr
  have htoc := tableOfContentsMacroP_fw hw1l hrr
  simp only [List.cons_append] at hdad hdar htoc
  have hlist := listP_fw g (by omega) hw1l hrr
  have hbi := blockImageP_fw g (by omega) hw1l hrr
  have hlb := literalBlockP_fw g hw1l hrr
  have hdb := delimitedBlockP_fw g (by omega) hw1l hrr
  have hpara := paragraphP_words g ((a :: w2) :: ws1) rest hne hws hr
    (fun x hx => by have := hfw x hx; omega)
    (by simp at hfl ⊢; omega)
  rw [hjoin] at hpara
  rw [hjoin]
  simp only [documentBlockP]
  rw [pnot_eof_bind_cons]
  simp [por, hblank, hdad, hdar, htoc, hlist, hbi, hlb, hdb, hpara]

/-- DocumentBlock on a blank line: the BlankLine alternative wins. -/
theorem documentBlockP_blank (f : Nat) (hf : 2 ≤ f) (u : List Char) :
    documentBlockP f ('\n' :: u) = .ok NewBlankLine u := by
  obtain ⟨g, rfl⟩ : ∃ g, f = g + 1 := ⟨f - 1, by omega⟩
  simp only [documentBlockP]
  rw [pnot_eof_bind_cons]
  have hbl : blankLineP g ('\n' :: u) = .ok NewBlankLine u := by
    simp only [blankLineP]
    rw [pnot_eof_bind_cons]
    rw [pmany_stop wsP _ g (wsP_ne '\n' u (by decide) (by decide)) (by omega)]
    simp only [bind_ok]
    rw [eolP_nl]
    rfl
  simp [por, hbl]

/-- DocumentBlock fails at the end of the input (the `!EOF` guard). -/
theorem documentBlockP_nil (f : Nat) (hf : 1 ≤ f) : documentBlockP f [] = .fail := by
  obtain ⟨g, rfl⟩ : ∃ g, f = g + 1 := ⟨f - 1, by omega⟩
  rfl

/-- Section fails at the end of the input. -/
theorem sectionP_nil (f : Nat) : sectionP f [] = .fail := rfl

/-- Section fails on a blank line. -/
theorem sectionP_nl (f : Nat) (hf : 2 ≤ f) (u : List Char) :
    sectionP f ('\n' :: u) = .fail := by
  have h := @sectionP_fw f hf [] ('\n' :: u)
    (fun c hc => absurd hc (List.not_mem_nil c)) (Or.inr ⟨u, rfl⟩)
  simpa using h

-- ---------------------------------------------------------------------
-- The list and block-paragraph rules at the end of the input and on
-- plain word lines inside a delimited block.
-- ---------------------------------------------------------------------

/-- The reference collector finds nothing among non-Section blocks. -/
theorem collectRefs_no_section :
    ∀ (bs : List Val), (∀ b ∈ bs, isSection b = false) → collectRefsList bs = [] := by
  intro bs
  induction bs with
  | nil => intro _; rfl
  | cons b rest ih =>
    intro h
    have hb := h b (List.mem_cons_self _ _)
    have hrest := ih (fun x hx => h x (List.mem_cons_of_mem _ hx))
    have hval : collectRefsVal b = [] := by
      cases b <;> first
        | rfl
        | (exact absurd hb (by simp [isSection]))
    simp [collectRefsList, hval, hrest]

/-- Preamble insertion leaves a Section-free block list unchanged. -/
theorem insertPreamble_no_section (bs : List Val)
    (h : ∀ b ∈ bs, isSection b = false) : insertPreamble bs = bs := by
  have hfil : bs.filter (fun b => !isSection b) = bs :=
    List.filter_eq_self.mpr (fun a ha => by simp [h a ha])
  simp [insertPreamble, hfil, nilSafe]

/-- `NewDocument` over a Section-free block list with no front matter and
no header: the blocks pass through untouched. -/
theorem NewDocument_plain (bs : List Val)
    (h : ∀ b ∈ bs, isSection b = false) :
    NewDocument .vnil .vnil bs = .vdocument [] bs [] := by
  simp [NewDocument, insertPreamble_no_section bs h, collectRefs_no_section bs h]

-- ---------------------------------------------------------------------
-- Claim C1: preamble insertion.
-- ---------------------------------------------------------------------

/-- Claim C1: for a parser-shaped top-level block list (all non-Section
blocks precede the Sections, which is what the grammar produces, since a
section absorbs every subsequent block), the assembler wraps exactly the
leading non-Section blocks into a single Preamble placed first, keeping
the Sections in order; and it returns the list unchanged when there is no
Section or no leading non-Section block. -/
theorem insertPreamble_spec (pre post : List Val)
    (hpre : ∀ b ∈ pre, isSection b = false)
    (hpost : ∀ b ∈ post, isSection b = true) :
    insertPreamble (pre ++ post) =
      if pre.length = 0 ∨ post.length = 0 then pre ++ post
      else .vpreamble pre :: post := by
  have hfilter : (pre ++ post).filter (fun b => !isSection b) = pre := by
    rw [List.filter_append]
    rw [List.filter_eq_self.mpr (by intro a ha; simp [hpre a ha])]
    rw [List.filter_eq_nil_iff.mpr (by intro a ha; simp [hpost a ha])]
    simp
  simp only [insertPreamble, hfilter, nilSafe]
  by_cases h1 : pre.length = 0
  · rw [if_pos (Or.inl h1), if_pos (Or.inl h1)]
  · by_cases h2 : post.length = 0
    · have hlen : pre.length = (pre ++ post).length := by
        rw [List.length_append]; omega
      rw [if_pos (Or.inr hlen), if_pos (Or.inr h2)]
    · have hc1 : ¬ (pre.length = 0 ∨ pre.length = (pre ++ post).length) := by
        rw [List.length_append]; omega
      rw [if_neg hc1, if_neg (by omega), List.drop_left]

/-- Witness for C1 at a concrete block list. -/
theorem insertPreamble_spec_witness :
    insertPreamble [.vblankLine, .vsection 1 .vnil []] =
      [.vpreamble [.vblankLine], .vsection 1 .vnil []] := by
  have h := insertPreamble_spec [.vblankLine] [.vsection 1 .vnil []]
    (by intro b hb; simp at hb; subst hb; rfl)
    (by intro b hb; simp at hb; subst hb; rfl)
  simpa using h

-- ---------------------------------------------------------------------
-- Claim C8: the ordered-list level-rewriting scan.
-- ---------------------------------------------------------------------

/-- The two scans coincide step by step. -/
theorem olALGo_eq_claimGo (items : List (Nat × NumberingStyle)) :
    ∀ (lps : List (NumberingStyle × Nat)) (prevLevel : Nat)
      (prevStyle : NumberingStyle),
    olALGo items lps prevLevel prevStyle = claimGo items prevLevel prevStyle lps := by
  induction items with
  | nil => intro lps prevLevel prevStyle; rfl
  | cons it rest ih =>
    intro lps prevLevel prevStyle
    obtain ⟨lvl, sty⟩ := it
    by_cases hgt : prevLevel < lvl
    · simp only [olALGo, claimGo, olAssignStep, gt_iff_lt, if_pos hgt]
      simp [ih]
    · simp only [olALGo, claimGo, olAssignStep, gt_iff_lt, if_neg hgt]
      by_cases hsty : sty = prevStyle
      · simp only [hsty, ne_eq, not_true_eq_false, if_neg, ite_false, if_pos rfl,
          ite_true]
        simp [ih, hsty]
      · simp only [ne_eq, hsty, not_false_eq_true, if_pos, ite_true, if_neg hsty,
          ite_false]
        cases h : lpsGet lps sty with
        | some l => simp [h, ih]
        | none => simp [h, ih]

/-- Claim C8: the per-item levels computed by the ordered-list assembly
(the scan of `olAssignStep`, the level-rewriting step of
`NewOrderedList`) are exactly the levels prescribed by the claim. -/
theorem orderedList_levels_spec (items : List (Nat × NumberingStyle)) :
    olAssignedLevels items = claimLevels items :=
  olALGo_eq_claimGo items [] 0 .unknownNumbering

-- ---------------------------------------------------------------------
-- Claim C2: totality of the Document entry point.
-- ---------------------------------------------------------------------

/-- Claim C2 (refuted): the input consisting of a bare `----` delimiter
line with no trailing newline makes the top-level `Document` rule fail
outright: no alternative of `DocumentBlock` accepts a bare block
delimiter at the end of the input (the paragraph fallback is guarded by
`!BlockDelimiter` and the listing block demands a newline after its
opening delimiter), while the same delimiter closing a block is accepted
at EOF. -/
theorem document_bare_delimiter_fails :
    parseDocument "----" = .fail ∧
    parseDocument "----\ncode\n----" =
      .ok (.vdocument [] [.vdelimitedBlock [("kind".toList, .vkind .kListing)]
        [.vparagraph [] [.vinline [.vstringElement "code".toList]]]] []) [] :=
  ⟨rfl, rfl⟩

-- ---------------------------------------------------------------------
-- Claim C3: blank-line runs (counterexample part).
-- ---------------------------------------------------------------------

/-- Counterexample to claim C3: two blank lines between two paragraphs
produce two `BlankLine` markers in `Document.Elements`, not one (the
blank-line filtering is absent from `NewDocument`). -/
theorem blankLines_not_collapsed :
    parseDocument "a\n\n\nb" =
      .ok (.vdocument []
        [.vparagraph [] [.vinline [.vstringElement "a".toList]],
         .vblankLine, .vblankLine,
         .vparagraph [] [.vinline [.vstringElement "b".toList]]] []) [] ∧
    countBlankLines
      [.vparagraph [] [.vinline [.vstringElement "a".toList]],
       .vblankLine, .vblankLine,
       .vparagraph [] [.vinline [.vstringElement "b".toList]]] = 2 ∧
    (2 : Nat) ≠ 1 :=
  ⟨rfl, rfl, by decide⟩

/-- A run of N blank lines between two plain paragraphs keeps all N
`BlankLine` markers. -/
theorem documentP_blank_run (N : Nat) (hN : 1 ≤ N) (f : Nat) (hf : N + 40 ≤ f) :
    documentP f ('a' :: '\n' :: (blanks N ++ ['b', '\n'])) =
      .ok (.vdocument []
        (paraOf [['a']] :: (List.replicate N NewBlankLine ++ [paraOf [['b']]]))
        []) [] := by
  have hwa : ∀ w ∈ [(['a'] : Str)], w ≠ [] ∧ IsLowerStr w := by
    intro w hw
    simp only [List.mem_singleton] at hw
    subst hw
    exact ⟨by simp, fun c hc => by simp at hc; subst hc; decide⟩
  have hwb : ∀ w ∈ [(['b'] : Str)], w ≠ [] ∧ IsLowerStr w := by
    intro w hw
    simp only [List.mem_singleton] at hw
    subst hw
    exact ⟨by simp, fun c hc => by simp at hc; subst hc; decide⟩
  have hrN : NlOrNil (blanks N ++ ['b', '\n']) := by
    obtain ⟨m, rfl⟩ : ∃ m, N = m + 1 := ⟨N - 1, by omega⟩
    exact Or.inr ⟨blanks m ++ ['b', '\n'], by simp [blanks, List.replicate_succ]⟩
  -- the first paragraph step
  have hword_a := documentBlockP_words f [['a']] (blanks N ++ ['b', '\n'])
    (by simp) hwa hrN (by intro w hw; simp at hw; subst hw; simp; omega)
    (by simp; omega)
  have hsec_a := @sectionP_fw f (by omega) ['a']
    ('\n' :: (blanks N ++ ['b', '\n']))
    (fun c hc => by simp at hc; subst hc; decide)
    (Or.inr ⟨blanks N ++ ['b', '\n'], rfl⟩)
  simp only [joinNL, List.cons_append, List.nil_append, List.append_nil]
    at hword_a hsec_a
  have hstep_a : (fun t => por (sectionP f t) (fun _ => documentBlockP f t))
      ('a' :: '\n' :: (blanks N ++ ['b', '\n'])) =
      .ok (paraOf [['a']]) (blanks N ++ ['b', '\n']) := by
    simp only []
    rw [hsec_a, por_fail]
    exact hword_a
  -- the final paragraph step
  have hword_b := documentBlockP_words f [['b']] [] (by simp) hwb (Or.inl rfl)
    (by intro w hw; simp at hw; subst hw; simp; omega) (by simp; omega)
  have hsec_b := @sectionP_fw f (by omega) ['b'] ['\n']
    (fun c hc => by simp at hc; subst hc; decide) (Or.inr ⟨[], rfl⟩)
  simp only [joinNL, List.cons_append, List.nil_append, List.append_nil]
    at hword_b hsec_b
  have hstep_b : (fun t => por (sectionP f t) (fun _ => documentBlockP f t))
      ['b', '\n'] = .ok (paraOf [['b']]) [] := by
    simp only []
    rw [hsec_b, por_fail]
    exact hword_b
  -- the loop fails at the end of the input
  have hstep_nil : (fun t => por (sectionP f t) (fun _ => documentBlockP f t))
      ([] : List Char) = .fail := by
    simp [sectionP_nil, por_fail, documentBlockP_nil f (by omega)]
  -- each blank line yields one marker
  have hstepBlank : ∀ t, (fun t => por (sectionP f t) (fun _ => documentBlockP f t))
      ('\n' :: t) = .ok NewBlankLine t := by
    intro t
    simp only []
    rw [sectionP_nl f (by omega) t, por_fail]
    exact documentBlockP_blank f (by omega) t
  -- assemble the repetition
  have htail0 := pmany_stop
    (fun t => por (sectionP f t) (fun _ => documentBlockP f t)) [] 1 hstep_nil
    (le_refl 1)
  have htail := pmany_cons_step
    (fun t => por (sectionP f t) (fun _ => documentBlockP f t)) ['b', '\n'] []
    (paraOf [['b']]) 1 [] [] hstep_b htail0
  have hrun := pmany_blanks
    (fun t => por (sectionP f t) (fun _ => documentBlockP f t)) hstepBlank N 2
    ['b', '\n'] [paraOf [['b']]] [] htail
  have hfront := pmany_cons_step
    (fun t => por (sectionP f t) (fun _ => documentBlockP f t))
    ('a' :: '\n' :: (blanks N ++ ['b', '\n'])) (blanks N ++ ['b', '\n'])
    (paraOf [['a']]) (N + 2) (List.replicate N NewBlankLine ++ [paraOf [['b']]])
    [] hstep_a hrun
  have hloop := pmany_mono
    (fun t => por (sectionP f t) (fun _ => documentBlockP f t)) (N + 2 + 1) f
    ('a' :: '\n' :: (blanks N ++ ['b', '\n']))
    (paraOf [['a']] :: (List.replicate N NewBlankLine ++ [paraOf [['b']]])) []
    hfront (by omega)
  -- the front matter and the header both fail
  have hfm : frontMatterP f ('a' :: '\n' :: (blanks N ++ ['b', '\n'])) = .fail := by
    have hd : pstr ['-', '-', '-'] ('a' :: '\n' :: (blanks N ++ ['b', '\n'])) =
        PRes.fail := pstr_head_ne _ _ (by decide)
    simp [frontMatterP, yamlFrontMatterTokenP, PRes.bind, hd]
  have htitle := @section0TitleP_fw f (by omega) ['a']
    ('\n' :: (blanks N ++ ['b', '\n']))
    (fun c hc => by simp at hc; subst hc; decide)
    (Or.inr ⟨blanks N ++ ['b', '\n'], rfl⟩)
  simp only [List.cons_append, List.nil_append] at htitle
  have hhd : documentHeaderP f ('a' :: '\n' :: (blanks N ++ ['b', '\n'])) =
      .fail := by
    simp [documentHeaderP, PRes.bind, htitle]
  -- the blocks are all non-Section
  have hnosec : ∀ b ∈ (paraOf [['a']] ::
      (List.replicate N NewBlankLine ++ [paraOf [['b']]])), isSection b = false := by
    intro b hb
    rcases List.mem_cons.mp hb with rfl | hb2
    · rfl
    rcases List.mem_append.mp hb2 with hb3 | hb4
    · rw [List.eq_of_mem_replicate hb3]; rfl
    · simp only [List.mem_singleton] at hb4; subst hb4; rfl
  simp only [documentP]
  rw [hfm, popt_fail]
  simp only [bind_ok]
  rw [hhd, popt_fail]
  simp only [bind_ok]
  rw [hloop]
  simp only [bind_ok]
  rw [eofP_nil]
  simp only [bind_ok]
  rw [NewDocument_plain _ hnosec]

/-- Claim C3 (amended): between two paragraphs, a run of N blank lines
yields exactly N `BlankLine` markers — one marker per blank line, with
no deduplication (first conjunct, for every N ≥ 1); when the block
before the run is a list, the list item's optional trailing blank line
absorbs one of the N blank lines, leaving N − 1 markers (second and
third conjuncts: two source blank lines after a list item leave exactly
one marker).  In no case is the run collapsed to a single marker. -/
theorem blankLines_run_spec :
    (∀ (N : Nat), 1 ≤ N → ∀ (f : Nat), N + 40 ≤ f →
      documentP f ('a' :: '\n' :: (blanks N ++ ['b', '\n'])) =
        .ok (.vdocument []
          (paraOf [['a']] :: (List.replicate N NewBlankLine ++ [paraOf [['b']]]))
          []) []) ∧
    parseDocument "* item\n\n\npara\n" =
      .ok (.vdocument []
        [.vunorderedList []
          [.vulItem 1 .oneAsterisk
            [.vparagraph [] [.vinline [.vstringElement "item".toList]]]],
         .vblankLine,
         .vparagraph [] [.vinline [.vstringElement "para".toList]]] []) [] ∧
    countBlankLines
      [.vunorderedList []
          [.vulItem 1 .oneAsterisk
            [.vparagraph [] [.vinline [.vstringElement "item".toList]]]],
         .vblankLine,
         .vparagraph [] [.vinline [.vstringElement "para".toList]]] = 1 :=
  ⟨documentP_blank_run, rfl, rfl⟩

/-- Witness for the amended claim C3 at N = 1. -/
theorem blankLines_run_spec_witness :
    documentP 41 ('a' :: '\n' :: (blanks 1 ++ ['b', '\n'])) =
      .ok (.vdocument []
        (paraOf [['a']] :: (List.replicate 1 NewBlankLine ++ [paraOf [['b']]]))
        []) [] :=
  blankLines_run_spec.1 1 (by decide) 41 (by decide)

-- ---------------------------------------------------------------------
-- Claim C4: escaped quoted text.
-- ---------------------------------------------------------------------

/-- Counterexample to claim C4 as stated: parsing the inline text with
two leading backslashes before `**x**` yields the literal `**x**` with no
backslash kept (both backslashes are cancelled against the two-character
punctuation), not the claimed `\**x**`. -/
theorem escapedBold_double_counterexample :
    parseInlineElements "\\\\**x**" =
      .ok (.vinline [.vstringElement "**x**".toList]) [] ∧
    "**x**".toList ≠ "\\**x**".toList :=
  ⟨rfl, by decide⟩

/-- Claim C4, amended on its second example: parsing `\*x*` yields the
literal `*x*` and parsing `\\**x**` yields the literal `**x**` (no
QuotedText node in either), and in general `NewEscapedQuotedText` passes
through `max(0, count - len(punctuation))` backslashes. -/
theorem escapedQuotedText_spec :
    parseInlineElements "\\*x*" = .ok (.vinline [.vstringElement "*x*".toList]) [] ∧
    parseInlineElements "\\\\**x**" =
      .ok (.vinline [.vstringElement "**x**".toList]) [] ∧
    ∀ (n : Nat) (bs content : List Val) (punctuation : Str),
      textOf bs = List.replicate n '\\' →
      NewEscapedQuotedText bs punctuation content =
        .vlist [.vstr (List.replicate (n - punctuation.length) '\\'),
                .vstr punctuation, .vlist content, .vstr punctuation] := by
  refine ⟨rfl, rfl, ?_⟩
  intro n bs content punctuation hbs
  simp only [NewEscapedQuotedText, stringify, List.foldl_cons, List.foldl_nil, hbs]
  by_cases h : (List.replicate n '\\').length > punctuation.length
  · rw [if_pos h, List.drop_replicate]
  · rw [if_neg h]
    rw [List.length_replicate] at h
    have : n - punctuation.length = 0 := by omega
    rw [this, List.replicate_zero]

/-- Witness for the general escape formula at three backslashes against
double punctuation. -/
theorem escapedQuotedText_spec_witness :
    NewEscapedQuotedText [.vstr ['\\', '\\', '\\']] "**".toList [] =
      .vlist [.vstr ['\\'], .vstr "**".toList, .vlist [], .vstr "**".toList] := by
  have h := escapedQuotedText_spec.2.2 3 [.vstr ['\\', '\\', '\\']] [] "**".toList (by rfl)
  simpa using h

-- ---------------------------------------------------------------------
-- Claim C5: the default image alt attribute.
-- ---------------------------------------------------------------------

/-- Claim C5 (refuted): the default alt attribute is computed with the Go
cutset `TrimRight`, so the path `images/tip.png` yields alt `ti` (the
trailing `p` of the stem belongs to the `.png` cutset and is trimmed
too), not the filename stem `tip` the claim requires. -/
theorem imageAlt_trimRight_bug :
    parseDocumentBlock "image::images/tip.png[]" =
      .ok (.vblockImage (.vimageMacro "images/tip.png".toList
        [("alt".toList, .vstr "ti".toList), ("width".toList, .vstr []),
         ("height".toList, .vstr [])]) []) [] ∧
    NewImageMacro "images/tip.png".toList (NewImageAttributes none none none []) =
      .vimageMacro "images/tip.png".toList
        [("alt".toList, .vstr "ti".toList), ("width".toList, .vstr []),
         ("height".toList, .vstr [])] ∧
    "ti".toList ≠ "tip".toList :=
  ⟨rfl, rfl, by decide⟩

-- ---------------------------------------------------------------------
-- Claim C6: unclosed delimited blocks are accepted.
-- ---------------------------------------------------------------------

/-- Counterexample to claim C9: a section-prefix line directly after a
non-blank line IS absorbed as one of the paragraph's lines — the
section-prefix guard of the Paragraph rule applies before the first line
only, so `== x` becomes the second line of the paragraph instead of
terminating it. -/
theorem paragraph_absorbs_section_line :
    parseDocument "abc\n== x\n" =
      .ok (.vdocument []
        [.vparagraph [] [.vinline [.vstringElement "abc".toList],
          .vinline [.vstringElement "== x".toList]]] []) [] := rfl

/-- Claim C9 (amended): a paragraph is one or more non-blank lines and
terminates at the first blank line or at the end of the input (first
conjunct, for every run of plain word lines), and at a block-delimiter
line (second conjunct); the section-prefix guard applies to the first
line only, so a section-prefix line after a non-blank line is absorbed
(third conjunct). -/
theorem paragraph_termination_spec :
    (∀ (f : Nat) (ws : List Str) (rest : List Char),
      ws ≠ [] → (∀ w ∈ ws, w ≠ [] ∧ IsLowerStr w) → NlOrNil rest →
      (∀ w ∈ ws, w.length + 4 ≤ f) → ws.length + 4 ≤ f →
      paragraphP f (joinNL ws ++ rest) = .ok (paraOf ws) rest) ∧
    parseDocument "abc\n____\n____" =
      .ok (.vdocument []
        [.vparagraph [] [.vinline [.vstringElement "abc".toList]],
         .vdelimitedBlock [("kind".toList, .vkind .kVerse)] [.vparagraph [] []]]
        []) [] ∧
    parseDocument "ab\n== cd\n" =
      .ok (.vdocument []
        [.vparagraph [] [.vinline [.vstringElement "ab".toList],
          .vinline [.vstringElement "== cd".toList]]] []) [] :=
  ⟨fun f ws rest h1 h2 h3 h4 h5 => paragraphP_words f ws rest h1 h2 h3 h4 h5,
   rfl, rfl⟩

/-- Witness for the amended claim C9: one plain word line ending at the
end of the input. -/
theorem paragraph_termination_spec_witness :
    paragraphP 20 (joinNL [['a']] ++ []) = .ok (paraOf [['a']]) [] :=
  paragraph_termination_spec.1 20 [['a']] [] (by simp)
    (by
      intro w hw
      simp only [List.mem_singleton] at hw
      subst hw
      exact ⟨by simp, fun c hc => by simp at hc; subst hc; decide⟩)
    (Or.inl rfl) (by decide) (by decide)

-- ---------------------------------------------------------------------
-- Claim C7: a verse delimited block holds exactly one paragraph.
-- ---------------------------------------------------------------------

/-- Overwriting a key makes it the retrieved value. -/
theorem attrGet_attrSet_self (m : AttrMap) (k : Str) (v : Val) :
    attrGet (attrSet m k v) k = some v := by
  induction m with
  | nil => simp [attrSet, attrGet]
  | cons kv rest ih =>
    obtain ⟨k1, v1⟩ := kv
    by_cases h : k1 = k
    · simp [attrSet, attrGet, h]
    · simp [attrSet, attrGet, h, ih]

/-- Every successful parse of the VerseBlock rule yields a delimited
block whose element list is exactly one paragraph with empty
attributes. -/
theorem verseBlockP_shape (f : Nat) (s : List Char) (v : Val) (rest : List Char)
    (h : verseBlockP f s = .ok v rest) :
    ∃ attrs lines, v = .vdelimitedBlock attrs [.vparagraph [] lines] ∧
      attrGet attrs "kind".toList = some (.vkind .kVerse) := by
  simp only [verseBlockP] at h
  obtain ⟨attrs, s1, _, h⟩ := bind_ok_inv h
  obtain ⟨_, s2, _, h⟩ := bind_ok_inv h
  obtain ⟨_, s3, _, h⟩ := bind_ok_inv h
  obtain ⟨_, s4, _, h⟩ := bind_ok_inv h
  obtain ⟨content, s5, hc, h⟩ := bind_ok_inv h
  obtain ⟨_, s6, _, h⟩ := bind_ok_inv h
  simp only [verseBlockParagraphP] at hc
  obtain ⟨lines, r1, _, hc2⟩ := bind_ok_inv hc
  have hcontent : content = NewParagraph lines [] := by
    cases hc2; rfl
  have hv : v = NewDelimitedBlock .kVerse [content] attrs .subNone := by
    cases h; rfl
  subst hcontent hv
  exact ⟨attrSet (NewElementAttributes attrs) "kind".toList (.vkind .kVerse),
    lines.filter (fun l => match l with | .vinline _ => true | _ => false),
    rfl, attrGet_attrSet_self _ _ _⟩

/-- A successful parse of the FencedBlock rule is a delimited block of
kind Fenced. -/
theorem fencedBlockP_kind (f : Nat) (s : List Char) (v : Val) (rest : List Char)
    (h : fencedBlockP f s = .ok v rest) :
    ∃ attrs elems, v = .vdelimitedBlock attrs elems ∧
      attrGet attrs "kind".toList = some (.vkind .kFenced) := by
  cases f with
  | zero => simp [fencedBlockP] at h
  | succ f1 =>
    simp only [fencedBlockP] at h
    obtain ⟨attrs, s1, _, h⟩ := bind_ok_inv h
    obtain ⟨_, s2, _, h⟩ := bind_ok_inv h
    obtain ⟨_, s3, _, h⟩ := bind_ok_inv h
    obtain ⟨_, s4, _, h⟩ := bind_ok_inv h
    obtain ⟨content, s5, _, h⟩ := bind_ok_inv h
    obtain ⟨_, s6, _, h⟩ := bind_ok_inv h
    have hv : v = NewDelimitedBlock .kFenced content attrs .subNone := by
      cases h; rfl
    subst hv
    exact ⟨_, _, rfl, attrGet_attrSet_self _ _ _⟩

/-- A successful parse of the ListingBlock rule is a delimited block of
kind Listing. -/
theorem listingBlockP_kind (f : Nat) (s : List Char) (v : Val) (rest : List Char)
    (h : listingBlockP f s = .ok v rest) :
    ∃ attrs elems, v = .vdelimitedBlock attrs elems ∧
      attrGet attrs "kind".toList = some (.vkind .kListing) := by
  cases f with
  | zero => simp [listingBlockP] at h
  | succ f1 =>
    simp only [listingBlockP] at h
    obtain ⟨attrs, s1, _, h⟩ := bind_ok_inv h
    obtain ⟨_, s2, _, h⟩ := bind_ok_inv h
    obtain ⟨_, s3, _, h⟩ := bind_ok_inv h
    obtain ⟨_, s4, _, h⟩ := bind_ok_inv h
    obtain ⟨content, s5, _, h⟩ := bind_ok_inv h
    obtain ⟨_, s6, _, h⟩ := bind_ok_inv h
    have hv : v = NewDelimitedBlock .kListing content attrs .subNone := by
      cases h; rfl
    subst hv
    exact ⟨_, _, rfl, attrGet_attrSet_self _ _ _⟩

/-- A successful parse of the ExampleBlock rule is a delimited block of
kind Example. -/
theorem exampleBlockP_kind (f : Nat) (s : List Char) (v : Val) (rest : List Char)
    (h : exampleBlockP f s = .ok v rest) :
    ∃ attrs elems, v = .vdelimitedBlock attrs elems ∧
      attrGet attrs "kind".toList = some (.vkind .kExample) := by
  cases f with
  | zero => simp [exampleBlockP] at h
  | succ f1 =>
    simp only [exampleBlockP] at h
    obtain ⟨attrs, s1, _, h⟩ := bind_ok_inv h
    obtain ⟨_, s2, _, h⟩ := bind_ok_inv h
    obtain ⟨_, s3, _, h⟩ := bind_ok_inv h
    obtain ⟨_, s4, _, h⟩ := bind_ok_inv h
    obtain ⟨content, s5, _, h⟩ := bind_ok_inv h
    obtain ⟨_, s6, _, h⟩ := bind_ok_inv h
    have hv : v = NewDelimitedBlock .kExample content attrs .subNone := by
      cases h; rfl
    subst hv
    exact ⟨_, _, rfl, attrGet_attrSet_self _ _ _⟩

/-- A successful parse of the CommentBlock rule is a delimited block of
kind Comment. -/
theorem commentBlockP_kind (f : Nat) (s : List Char) (v : Val) (rest : List Char)
    (h : commentBlockP f s = .ok v rest) :
    ∃ attrs elems, v = .vdelimitedBlock attrs elems ∧
      attrGet attrs "kind".toList = some (.vkind .kComment) := by
  simp only [commentBlockP] at h
  obtain ⟨attrs, s1, _, h⟩ := bind_ok_inv h
  obtain ⟨_, s2, _, h⟩ := bind_ok_inv h
  obtain ⟨_, s3, _, h⟩ := bind_ok_inv h
  obtain ⟨_, s4, _, h⟩ := bind_ok_inv h
  obtain ⟨content, s5, _, h⟩ := bind_ok_inv h
  obtain ⟨_, s6, _, h⟩ := bind_ok_inv h
  have hv : v = NewDelimitedBlock .kComment content attrs .subVerbatim := by
    cases h; rfl
  subst hv
  exact ⟨_, _, rfl, attrGet_attrSet_self _ _ _⟩

/-- Claim C7: among the five delimited-block rules (the only producers of
`DelimitedBlock` nodes, hence of every such node of a parsed document),
exactly the VerseBlock rule yields kind Verse, and its element list is
always a single Paragraph; in the empty-verse case that paragraph has an
empty line list. -/
theorem verse_single_paragraph_spec :
    (∀ (f : Nat) (s : List Char) (v : Val) (rest : List Char),
      verseBlockP f s = .ok v rest →
      ∃ attrs lines, v = .vdelimitedBlock attrs [.vparagraph [] lines] ∧
        attrGet attrs "kind".toList = some (.vkind .kVerse)) ∧
    (∀ (f : Nat) (s : List Char) (v : Val) (rest : List Char),
      fencedBlockP f s = .ok v rest →
      ∃ attrs elems, v = .vdelimitedBlock attrs elems ∧
        attrGet attrs "kind".toList = some (.vkind .kFenced)) ∧
    (∀ (f : Nat) (s : List Char) (v : Val) (rest : List Char),
      listingBlockP f s = .ok v rest →
      ∃ attrs elems, v = .vdelimitedBlock attrs elems ∧
        attrGet attrs "kind".toList = some (.vkind .kListing)) ∧
    (∀ (f : Nat) (s : List Char) (v : Val) (rest : List Char),
      exampleBlockP f s = .ok v rest →
      ∃ attrs elems, v = .vdelimitedBlock attrs elems ∧
        attrGet attrs "kind".toList = some (.vkind .kExample)) ∧
    (∀ (f : Nat) (s : List Char) (v : Val) (rest : List Char),
      commentBlockP f s = .ok v rest →
      ∃ attrs elems, v = .vdelimitedBlock attrs elems ∧
        attrGet attrs "kind".toList = some (.vkind .kComment)) ∧
    parseDocumentBlock "[verse]\n____\n____" =
      .ok (.vdelimitedBlock
        [("kind".toList, .vkind .kVerse), ("verseAuthor".toList, .vstr []),
         ("verseTitle".toList, .vstr [])]
        [.vparagraph [] []]) [] :=
  ⟨verseBlockP_shape, fencedBlockP_kind, listingBlockP_kind, exampleBlockP_kind,
   commentBlockP_kind, rfl⟩

/-- Witness for C7: the empty verse block parses to a delimited block of
the claimed shape. -/
theorem verse_single_paragraph_spec_witness :
    ∃ attrs lines,
      (Val.vdelimitedBlock
        [("kind".toList, .vkind .kVerse), ("verseAuthor".toList, .vstr []),
         ("verseTitle".toList, .vstr [])] [.vparagraph [] []]) =
        .vdelimitedBlock attrs [.vparagraph [] lines] ∧
      attrGet attrs "kind".toList = some (.vkind .kVerse) :=
  verse_single_paragraph_spec.1 500 "[verse]\n____\n____".toList
    (.vdelimitedBlock
      [("kind".toList, .vkind .kVerse), ("verseAuthor".toList, .vstr []),
       ("verseTitle".toList, .vstr [])] [.vparagraph [] []]) [] (by rfl)

-- ---------------------------------------------------------------------
-- Claim C10: verse block lines are stored trimmed.
-- ---------------------------------------------------------------------

/-- Claim C10: every successful parse of the VerseBlockLineContent rule
stores the matched text of the line with its leading and trailing
whitespace removed (Go `strings.TrimSpace`); in particular the
repository test's verse line `- some ` (with a trailing space) is stored
as `- some` in the verse's Paragraph. -/
theorem verseLine_trimmed_spec :
    (∀ (f : Nat) (s : List Char) (v : Val) (rest : List Char),
      verseBlockLineContentP f s = .ok v rest →
      v = NewInlineElements (.vstr (goTrimSpace (taken s rest)))) ∧
    parseDocumentBlock "[verse]\n____\n- some \n____" =
      .ok (.vdelimitedBlock
        [("kind".toList, .vkind .kVerse), ("verseAuthor".toList, .vstr []),
         ("verseTitle".toList, .vstr [])]
        [.vparagraph [] [.vinline [.vstringElement "- some".toList]]]) [] := by
  constructor
  · intro f s v rest h
    simp only [verseBlockLineContentP] at h
    obtain ⟨_, r1, _, h2⟩ := bind_ok_inv h
    cases h2
    rfl
  · rfl

/-- Witness for C10: the trimming law instantiated on the concrete line
`- some ` at the end of the input. -/
theorem verseLine_trimmed_spec_witness :
    (Val.vinline [.vstringElement "- some".toList]) =
      NewInlineElements (.vstr (goTrimSpace (taken "- some ".toList []))) :=
  verseLine_trimmed_spec.1 300 "- some ".toList
    (.vinline [.vstringElement "- some".toList]) [] (by rfl)

end Asciidoc
